import Mathlib

/-!
# P4HIR dialect: types, field IDs and operation verifiers

A shallow embedding of `lib/Dialect/P4HIR/P4HIR_Types.cpp` and
`lib/Dialect/P4HIR/P4HIR_Ops.cpp`.

* C++ `unsigned` values are natural numbers; every `unsigned` addition and
  subtraction is reduced modulo `2^32` (`uadd`, `usub`).
* A `StructType` is represented by its element list; the corresponding type
  value is `Ty.struct elements`.
* Operations whose C++ behaviour is undefined (stepping an iterator before
  `begin()`, indexing past the end of a vector, a failed `assert`) return
  `none`. Where the outcome depends on whether assertions are compiled in, the
  function takes the build flag `NDEBUG`: with `NDEBUG = false` a failed
  `assert` aborts (`none`), with `NDEBUG = true` the `assert` is skipped.
* A verifier returns its `LogicalResult` paired with the list of the
  diagnostics it emitted, in order of emission; each diagnostic is the text the
  source streams into it, or, where types, attributes or numbers are streamed
  too, the list of the streamed arguments (`DiagnosticArgument`).
* An operation is given to its verifier by the types of its operands and of
  its result.
-/

namespace P4HIR

/-! ## Machine arithmetic -/

/-- Number of values of the C++ `unsigned` type (32 bits). -/
def UINT_SIZE : Nat := 4294967296

/-- Addition on `unsigned`. -/
def uadd (a b : Nat) : Nat := (a + b) % UINT_SIZE

/-- Subtraction on `unsigned` (wraps around below zero). -/
def usub (a b : Nat) : Nat := (a + UINT_SIZE - b % UINT_SIZE) % UINT_SIZE

/-! ## Types -/

/-- Struct field `detail::FieldInfo`: its name (a `StringAttr`, compared by its
text) and its type. -/
structure FieldInfo (τ : Type) where
  name : String
  type : τ

/-- The types of the dialect (`BoolType`, `BitsType`, `InfIntType`,
`VoidType`, `StructType`, `FuncType`). -/
inductive Ty where
  | bool
  | bits (width : Nat) (isSigned : Bool)
  | infint
  | void
  | struct (elements : List (FieldInfo Ty))
  | func (inputs : List Ty) (optionalReturnType : Option Ty)

/-! ## Field IDs (`P4HIR_Types.cpp`) -/

mutual
/-- The loop of `StructType::getMaxFieldID`, from the running value `fieldID`:
`fieldID += 1 + FieldIdImpl::getMaxFieldID(field.type)`. -/
def StructType.getMaxFieldIDLoop : List (FieldInfo Ty) → Nat → Nat
  | [], fieldID => fieldID
  | field :: rest, fieldID =>
    StructType.getMaxFieldIDLoop rest
      (uadd fieldID (uadd 1 (FieldIdImpl.getMaxFieldID field.type)))
/-- Modelled from the spec: `FieldIdImpl::getMaxFieldID` is declared in
`P4HIR_TypeInterfaces.h` and its body is not among the sources. By §4.2 it is
0 for scalar types and, for a struct, the struct's own
`StructType::getMaxFieldID`. -/
def FieldIdImpl.getMaxFieldID : Ty → Nat
  | .struct elements => StructType.getMaxFieldIDLoop elements 0
  | _ => 0
end

/-- Method `StructType::getMaxFieldID`: the loop above started from
`fieldID = 0`. -/
def StructType.getMaxFieldID (elements : List (FieldInfo Ty)) : Nat :=
  StructType.getMaxFieldIDLoop elements 0

/-- The loop of `getFieldIDsStruct` over the remaining elements, from the
running `fieldID` and the IDs pushed so far. -/
def getFieldIDsStructLoop : List (FieldInfo Ty) → Nat → List Nat → Nat × List Nat
  | [], fieldID, fieldIDs => (fieldID, fieldIDs)
  | element :: rest, fieldID, fieldIDs =>
    let fieldID1 := uadd fieldID 1
    getFieldIDsStructLoop rest
      (uadd fieldID1 (FieldIdImpl.getMaxFieldID element.type)) (fieldIDs ++ [fieldID1])

/-- Function `getFieldIDsStruct`: the final running total and the ID of every
direct field. -/
def getFieldIDsStruct (elements : List (FieldInfo Ty)) : Nat × List Nat :=
  getFieldIDsStructLoop elements 0 []

/-- The halving loop of `std::upper_bound` on the range of `len` positions
starting at `first`; the first argument bounds the number of iterations. -/
def upper_bound_loop (xs : List Nat) (value : Nat) : Nat → Nat → Nat → Nat
  | 0, first, _ => first
  | fuel + 1, first, len =>
    if len = 0 then first
    else
      let half := len / 2
      let mid := first + half
      if value < xs.getD mid 0 then upper_bound_loop xs value fuel first half
      else upper_bound_loop xs value fuel (mid + 1) (len - half - 1)

/-- Precondition of `std::upper_bound`: the range is partitioned with respect to
`!(value < element)`, that is, the elements not greater than `value` all come
before the elements greater than `value`. -/
def partitioned (xs : List Nat) (value : Nat) : Bool :=
  (xs.dropWhile (fun element => decide (¬ value < element))).all
    (fun element => decide (value < element))

/-- Function `llvm::upper_bound(range, value)`: position returned by the binary
search for the first element greater than `value`. On a range that is not
partitioned with respect to `value` the result is undefined (`none`). The range
is halved at every iteration, so `xs.length` iterations always suffice. -/
def upper_bound (xs : List Nat) (value : Nat) : Option Nat :=
  if partitioned xs value then some (upper_bound_loop xs value xs.length 0 xs.length)
  else none

/-- Function `std::prev` on a position of a range: undefined at `begin()`. -/
def prev : Nat → Option Nat
  | 0 => none
  | n + 1 => some n

/-- Method `StructType::getSubTypeByFieldID`. There is no result when the search
is undefined (the field IDs are not partitioned with respect to `fieldID`), when
it stops at `begin()` (stepping back is undefined) or when the index found is
past the end of the element list. -/
def StructType.getSubTypeByFieldID (elements : List (FieldInfo Ty)) (fieldID : Nat) :
    Option (Ty × Nat) :=
  if fieldID = 0 then some (Ty.struct elements, 0)
  else
    let fieldIDs := (getFieldIDsStruct elements).2
    match (upper_bound fieldIDs fieldID).bind prev with
    | none => none
    | some subfieldIndex =>
      match elements[subfieldIndex]?, fieldIDs[subfieldIndex]? with
      | some element, some elementFieldID => some (element.type, usub fieldID elementFieldID)
      | _, _ => none

/-- Method `StructType::getFieldID`: `fieldIDs[index]`, undefined past the end. -/
def StructType.getFieldID (elements : List (FieldInfo Ty)) (index : Nat) : Option Nat :=
  (getFieldIDsStruct elements).2[index]?

/-- Method `StructType::getIndexForFieldID`. The `assert` fails on a struct with
no elements, the search is undefined when the field IDs are not partitioned
with respect to `fieldID`, and stepping back from `begin()` is undefined. -/
def StructType.getIndexForFieldID (elements : List (FieldInfo Ty)) (fieldID : Nat) :
    Option Nat :=
  if elements.isEmpty then none
  else (upper_bound (getFieldIDsStruct elements).2 fieldID).bind prev

/-- Method `StructType::getIndexAndSubfieldID`. -/
def StructType.getIndexAndSubfieldID (elements : List (FieldInfo Ty)) (fieldID : Nat) :
    Option (Nat × Nat) :=
  match StructType.getIndexForFieldID elements fieldID with
  | none => none
  | some index =>
    match StructType.getFieldID elements index with
    | none => none
    | some elementFieldID => some (index, usub fieldID elementFieldID)

/-- Method `StructType::projectToChildFieldID`. The comparison
`index + 1 >= getElements().size()` adds on `unsigned` and compares on
`size_t`. -/
def StructType.projectToChildFieldID (elements : List (FieldInfo Ty)) (fieldID index : Nat) :
    Option (Nat × Bool) :=
  let maxId := (getFieldIDsStruct elements).1
  let fieldIDs := (getFieldIDsStruct elements).2
  match fieldIDs[index]? with
  | none => none
  | some childRoot =>
    if uadd index 1 ≥ elements.length then
      some (usub fieldID childRoot, decide (fieldID ≥ childRoot ∧ fieldID ≤ maxId))
    else
      match fieldIDs[uadd index 1]? with
      | none => none
      | some next =>
        some (usub fieldID childRoot, decide (fieldID ≥ childRoot ∧ fieldID ≤ usub next 1))

/-- The sum `Σ (1 + maxFieldID(field type))` over a list of fields, as an
unbounded natural number. -/
def fieldSpan (elements : List (FieldInfo Ty)) : Nat :=
  (elements.map (fun field => 1 + FieldIdImpl.getMaxFieldID field.type)).sum

/-- A struct of two fields `a`, `b`, both of type `t`. -/
def pairOf (t : Ty) : Ty := .struct [⟨"a", t⟩, ⟨"b", t⟩]

/-- The struct `<a: bool, b: bool>` nested `k` times in itself through
`pairOf`. -/
def nestedPair : Nat → Ty
  | 0 => pairOf .bool
  | k + 1 => pairOf (nestedPair k)

/-- The inner struct `<x: bool, y: bool, z: bool>`, of maximum field ID 3. -/
def innerStruct : List (FieldInfo Ty) := [⟨"x", .bool⟩, ⟨"y", .bool⟩, ⟨"z", .bool⟩]

/-- The struct `<a: S, b: <x, y, z>>` where `S = nestedPair 30` has `2^32 - 2`
sub-fields: the running field ID wraps around to 0 at field `b`. -/
def wrapStruct : List (FieldInfo Ty) :=
  [⟨"a", nestedPair 30⟩, ⟨"b", .struct innerStruct⟩]

/-- The struct `<a: bool, b: S>` with `S = nestedPair 30`: the running total
after the last field wraps around to 0. -/
def wrapLastStruct : List (FieldInfo Ty) := [⟨"a", .bool⟩, ⟨"b", nestedPair 30⟩]

/-- The struct `<a: bool, b: S, c: <x, y, z>, d: bool>` with `S = nestedPair 30`:
the running field ID wraps around to 1 at field `c`, so the field IDs are
`[1, 2, 1, 5]`. -/
def unsortedStruct : List (FieldInfo Ty) :=
  [⟨"a", .bool⟩, ⟨"b", nestedPair 30⟩, ⟨"c", .struct innerStruct⟩, ⟨"d", .bool⟩]

/-- The struct `<a: bool, b: <x: bool, y: bool, z: bool>, c: bool>`. -/
def exampleStruct : List (FieldInfo Ty) :=
  [⟨"a", .bool⟩, ⟨"b", .struct innerStruct⟩, ⟨"c", .bool⟩]

/-! ## Struct verification (`P4HIR_Types.cpp`) -/

/-- Result type `llvm::LogicalResult`. -/
inductive LogicalResult where
  | success
  | failure
deriving DecidableEq

/-- The diagnostic `StructType::verify` emits for a repeated field name. -/
def duplicateFieldName (name : String) : String :=
  "duplicate field name '" ++ name ++ "' in hw.struct type"

/-- The state of the loop of `StructType::verify`: the names inserted into
`fieldNameSet`, the `result`, and the diagnostics emitted so far. -/
structure VerifyState where
  fieldNameSet : List String
  result : LogicalResult
  diagnostics : List String

/-- One iteration of the loop of `StructType::verify`: `insert(elt.name)`
fails exactly when the name is already in the set, and then `result` becomes
`failure` and a diagnostic is emitted. -/
def StructType.verifyStep (st : VerifyState) (elt : FieldInfo Ty) : VerifyState :=
  if elt.name ∈ st.fieldNameSet then
    { st with result := .failure,
              diagnostics := st.diagnostics ++ [duplicateFieldName elt.name] }
  else
    { st with fieldNameSet := elt.name :: st.fieldNameSet }

/-- Method `StructType::verify`: the returned result and the emitted
diagnostics. -/
def StructType.verify (elements : List (FieldInfo Ty)) : LogicalResult × List String :=
  let st := elements.foldl StructType.verifyStep ⟨[], .success, []⟩
  (st.result, st.diagnostics)

/-! ## Operation verifiers (`P4HIR_Ops.cpp`) -/

/-- Outcome of `return success()`: no diagnostic. -/
def success : LogicalResult × List String := (.success, [])

/-- Outcome of `return emitOpError() << message`: a failure with one
diagnostic. -/
def emitOpError (message : String) : LogicalResult × List String := (.failure, [message])

/-- Method `ConcatOp::verify`, on the types of the two operands and of the result. Each
of the three `cast<BitsType>` asserts that the type is a `BitsType`. -/
def ConcatOp.verify (operand0 operand1 result : Ty) : Option (LogicalResult × List String) :=
  match operand0, operand1, result with
  | .bits lhsWidth lhsSigned, .bits rhsWidth _, .bits resultWidth resultSigned =>
    let expectedWidth := uadd lhsWidth rhsWidth
    if resultWidth ≠ expectedWidth then
      some (emitOpError ("the resulting width of a concatenation operation must equal the " ++
        "sum of the operand widths"))
    else if resultSigned ≠ lhsSigned then
      some (emitOpError ("the signedness of the concatenation result must match the " ++
        "signedness of the left-hand side operand"))
    else some success
  | _, _, _ => none

/-- Function `verifyArithmeticShiftOperation`, on the type of `rhs` and the result
type. -/
def verifyArithmeticShiftOperation (rhsType _resultType : Ty) : LogicalResult × List String :=
  match rhsType with
  | .bits _ true =>
    emitOpError "the right-hand side operand of an arithmetic shift must be unsigned"
  | _ => success

/-- Method `ShlOp::verify`, on the types of operand 0, operand 1 and the result. -/
def ShlOp.verify (_operand0 operand1 result : Ty) : LogicalResult × List String :=
  verifyArithmeticShiftOperation operand1 result

/-- Method `ShrOp::verify`, on the types of operand 0, operand 1 and the result. -/
def ShrOp.verify (_operand0 operand1 result : Ty) : LogicalResult × List String :=
  verifyArithmeticShiftOperation operand1 result

/-- The fields with the given names, all of type `bool`. -/
def boolFields (names : List String) : List (FieldInfo Ty) :=
  names.map (fun name => ⟨name, .bool⟩)



mutual
/-- Equality of two types is decidable: `mlir::Type` values are uniqued, so
`==` on them is structural equality. -/
def Ty.decEq : (a b : Ty) → Decidable (a = b)
  | .bool, .bool => isTrue rfl
  | .infint, .infint => isTrue rfl
  | .void, .void => isTrue rfl
  | .bits w s, .bits w' s' =>
    if hw : w = w' then
      if hs : s = s' then isTrue (by rw [hw, hs])
      else isFalse (fun h => hs (by cases h; rfl))
    else isFalse (fun h => hw (by cases h; rfl))
  | .struct es, .struct es' =>
    match Ty.decEqFields es es' with
    | isTrue h => isTrue (by rw [h])
    | isFalse h => isFalse (fun h' => h (by cases h'; rfl))
  | .func i o, .func i' o' =>
    match Ty.decEqList i i', Ty.decEqOption o o' with
    | isTrue hi, isTrue ho => isTrue (by rw [hi, ho])
    | isFalse hi, _ => isFalse (fun h => hi (by cases h; rfl))
    | _, isFalse ho => isFalse (fun h => ho (by cases h; rfl))
  | .bool, .bits _ _ => isFalse (fun h => Ty.noConfusion h)
  | .bool, .infint => isFalse (fun h => Ty.noConfusion h)
  | .bool, .void => isFalse (fun h => Ty.noConfusion h)
  | .bool, .struct _ => isFalse (fun h => Ty.noConfusion h)
  | .bool, .func _ _ => isFalse (fun h => Ty.noConfusion h)
  | .bits _ _, .bool => isFalse (fun h => Ty.noConfusion h)
  | .bits _ _, .infint => isFalse (fun h => Ty.noConfusion h)
  | .bits _ _, .void => isFalse (fun h => Ty.noConfusion h)
  | .bits _ _, .struct _ => isFalse (fun h => Ty.noConfusion h)
  | .bits _ _, .func _ _ => isFalse (fun h => Ty.noConfusion h)
  | .infint, .bool => isFalse (fun h => Ty.noConfusion h)
  | .infint, .bits _ _ => isFalse (fun h => Ty.noConfusion h)
  | .infint, .void => isFalse (fun h => Ty.noConfusion h)
  | .infint, .struct _ => isFalse (fun h => Ty.noConfusion h)
  | .infint, .func _ _ => isFalse (fun h => Ty.noConfusion h)
  | .void, .bool => isFalse (fun h => Ty.noConfusion h)
  | .void, .bits _ _ => isFalse (fun h => Ty.noConfusion h)
  | .void, .infint => isFalse (fun h => Ty.noConfusion h)
  | .void, .struct _ => isFalse (fun h => Ty.noConfusion h)
  | .void, .func _ _ => isFalse (fun h => Ty.noConfusion h)
  | .struct _, .bool => isFalse (fun h => Ty.noConfusion h)
  | .struct _, .bits _ _ => isFalse (fun h => Ty.noConfusion h)
  | .struct _, .infint => isFalse (fun h => Ty.noConfusion h)
  | .struct _, .void => isFalse (fun h => Ty.noConfusion h)
  | .struct _, .func _ _ => isFalse (fun h => Ty.noConfusion h)
  | .func _ _, .bool => isFalse (fun h => Ty.noConfusion h)
  | .func _ _, .bits _ _ => isFalse (fun h => Ty.noConfusion h)
  | .func _ _, .infint => isFalse (fun h => Ty.noConfusion h)
  | .func _ _, .void => isFalse (fun h => Ty.noConfusion h)
  | .func _ _, .struct _ => isFalse (fun h => Ty.noConfusion h)
termination_by structural a => a
/-- Equality of two field lists is decidable. -/
def Ty.decEqFields : (as bs : List (FieldInfo Ty)) → Decidable (as = bs)
  | [], [] => isTrue rfl
  | [], _ :: _ => isFalse (fun h => List.noConfusion h)
  | _ :: _, [] => isFalse (fun h => List.noConfusion h)
  | ⟨n, t⟩ :: as, ⟨n', t'⟩ :: bs =>
    if hn : n = n' then
      match Ty.decEq t t', Ty.decEqFields as bs with
      | isTrue ht, isTrue hr => isTrue (by rw [hn, ht, hr])
      | isFalse ht, _ => isFalse (fun h => ht (by cases h; rfl))
      | _, isFalse hr => isFalse (fun h => hr (by cases h; rfl))
    else isFalse (fun h => hn (by cases h; rfl))
termination_by structural as => as
/-- Equality of two lists of types is decidable. -/
def Ty.decEqList : (as bs : List Ty) → Decidable (as = bs)
  | [], [] => isTrue rfl
  | [], _ :: _ => isFalse (fun h => List.noConfusion h)
  | _ :: _, [] => isFalse (fun h => List.noConfusion h)
  | a :: as, b :: bs =>
    match Ty.decEq a b, Ty.decEqList as bs with
    | isTrue ht, isTrue hr => isTrue (by rw [ht, hr])
    | isFalse ht, _ => isFalse (fun h => ht (by cases h; rfl))
    | _, isFalse hr => isFalse (fun h => hr (by cases h; rfl))
termination_by structural as => as
/-- Equality of two optional types is decidable. -/
def Ty.decEqOption : (a b : Option Ty) → Decidable (a = b)
  | none, none => isTrue rfl
  | none, some _ => isFalse (fun h => Option.noConfusion h)
  | some _, none => isFalse (fun h => Option.noConfusion h)
  | some a, some b =>
    match Ty.decEq a b with
    | isTrue h => isTrue (by rw [h])
    | isFalse h => isFalse (fun h' => h (by cases h'; rfl))
termination_by structural a => a
end

instance : DecidableEq Ty := Ty.decEq

/-! ## Function types (`P4HIR_Types.cpp`) -/

/-- The parameters of a `FuncType` as `detail::FuncTypeStorage` holds them: the
input types and the optional return type. The corresponding type value is
`Ty.func inputs optionalReturnType`. -/
structure FuncType where
  inputs : List Ty
  optionalReturnType : Option Ty

/-- Method `FuncType::isVoid`. The `assert` requires the stored return type to
be absent or not a `VoidType`; it is checked unless the build defines `NDEBUG`,
and a failed assertion aborts (no result). -/
def FuncType.isVoid (NDEBUG : Bool) (ft : FuncType) : Option Bool :=
  match ft.optionalReturnType with
  | none => some true
  | some rt => if rt = Ty.void ∧ NDEBUG = false then none else some false

/-- Method `FuncType::getReturnType`: an explicit `VoidType` when `isVoid()`, the
stored return type otherwise. -/
def FuncType.getReturnType (NDEBUG : Bool) (ft : FuncType) : Option Ty :=
  match ft.isVoid NDEBUG with
  | none => none
  | some true => some Ty.void
  | some false => ft.optionalReturnType

/-- Method `FuncType::getReturnTypes`: the empty range when `isVoid()`, the
one-element range of the stored return type otherwise. -/
def FuncType.getReturnTypes (NDEBUG : Bool) (ft : FuncType) : Option (List Ty) :=
  match ft.isVoid NDEBUG with
  | none => none
  | some true => some []
  | some false => some ft.optionalReturnType.toList

/-! ## Attributes, operations, blocks and regions -/

/-- The attributes a constant can carry: `P4HIR::BoolAttr`, `P4HIR::IntAttr`
with its declared type, any other attribute implementing `TypedAttr` (known by
its declared type), and an attribute that has no type. -/
inductive Attribute where
  | boolAttr (value : Bool)
  | intAttr (type : Ty) (value : Int)
  | typed (type : Ty)
  | untyped

/-- One argument streamed into a diagnostic with `<<`
(`mlir::DiagnosticArgument`): a piece of text, a type, an attribute or an
unsigned number. -/
inductive DiagnosticArgument where
  | string (text : String)
  | type (t : Ty)
  | attribute (a : Attribute)
  | unsigned (n : Nat)

/-- A diagnostic: the arguments streamed into it, in order. -/
abbrev Diagnostic := List DiagnosticArgument

/-- Outcome of `return emitOpError(...) << ...`: a failure with one diagnostic
made of the given arguments. -/
def emitOpErrorArgs (arguments : Diagnostic) : LogicalResult × List Diagnostic :=
  (.failure, [arguments])

/-- The attributes of a `FuncOp` that the verifiers read: the symbol name, the
function type and the `action` flag. -/
structure FuncOp where
  symName : String
  functionType : FuncType
  action : Bool

/-- The operations other than `YieldOp`, `ReturnOp` and `FuncOp`: the remaining
operations of the dialect, and an operation of another dialect, known by its
name and by whether it is registered with the `IsTerminator` trait
(`none` when the operation is unregistered). -/
inductive OpKind where
  | constOp (value : Attribute)
  | castOp
  | readOp
  | unaryOp
  | binOp
  | concatOp
  | shlOp
  | shrOp
  | cmpOp
  | variableOp
  | scopeOp
  | ternaryOp
  | ifOp
  | callOp (callee : Option String)
  | foreign (name : String) (isTerminator : Option Bool)

/-- An operation, by the types of its operands and results and by its regions
(a region is a list of blocks, a block a list of operations). A `YieldOp` and a
`ReturnOp` have operands only; a `FuncOp` has its attributes and its body.
Locations and discardable attributes are not represented. -/
inductive Operation where
  | yieldOp (args : List Ty)
  | returnOp (input : List Ty)
  | funcOp (fn : FuncOp) (body : List (List Operation))
  | op (kind : OpKind) (operands : List Ty) (resultTypes : List Ty)
      (regions : List (List (List Operation)))

/-- The last element of a list (`back()` of a region or of a block), undefined
on the empty list. -/
def back {α : Type} : List α → Option α
  | [] => none
  | [a] => some a
  | _ :: rest => back rest

/-- A block: its operations in order. -/
abbrev Block := List Operation

/-- A region: its blocks in order. -/
abbrev Region := List Block

/-- Modelled from the spec: the traits of the operations are declared in the
operation definitions, which are not among the sources. By the glossary the
terminators of the dialect are `Yield` and `Return`; this is
`op.hasTrait<OpTrait::IsTerminator>()`, false on an unregistered operation. -/
def Operation.hasTraitIsTerminator : Operation → Bool
  | .yieldOp _ => true
  | .returnOp _ => true
  | .funcOp _ _ => false
  | .op (.foreign _ (some isTerminator)) _ _ _ => isTerminator
  | .op _ _ _ _ => false

/-- Method `Operation::mightHaveTrait<OpTrait::IsTerminator>()`: the trait for a
registered operation, `true` for an unregistered one. -/
def Operation.mightHaveTraitIsTerminator : Operation → Bool
  | .op (.foreign _ none) _ _ _ => true
  | operation => operation.hasTraitIsTerminator

/-- Method `Block::mightHaveTerminator`: the block is not empty and its last
operation might be a terminator. -/
def Block.mightHaveTerminator (block : Block) : Bool :=
  match back block with
  | none => false
  | some operation => operation.mightHaveTraitIsTerminator

/-- Method `Block::getTerminator`: the last operation; its
`assert(mightHaveTerminator())` is checked unless the build defines `NDEBUG`. -/
def Block.getTerminator (NDEBUG : Bool) (block : Block) : Option Operation :=
  if NDEBUG = false ∧ block.mightHaveTerminator = false then none else back block

/-- Method `ScopeOp::verify`, on the scope region. -/
def ScopeOp.verify (NDEBUG : Bool) (scopeRegion : Region) :
    Option (LogicalResult × List String) :=
  match back scopeRegion with
  | none =>
    some (emitOpError ("p4hir.scope must not be empty since it should " ++
      "include at least an implicit p4hir.yield "))
  | some block =>
    if block.isEmpty then some (emitOpError "last block of p4hir.scope must be terminated")
    else if !block.mightHaveTerminator then
      some (emitOpError "last block of p4hir.scope must be terminated")
    else
      match block.getTerminator NDEBUG with
      | none => none
      | some terminator =>
        if !terminator.hasTraitIsTerminator then
          some (emitOpError "last block of p4hir.scope must be terminated")
        else some success

/-- Function `ensureRegionTerm`: the result, the emitted parser errors and the
region as the function leaves it. After the first statement the region has a
block, and `block` is its last one. -/
def ensureRegionTerm (region : Region) : LogicalResult × List String × Region :=
  let region1 : Region := if region.isEmpty then [[]] else region
  let block : Block := (back region1).getD []
  if !block.isEmpty ∧ ((back block).map Operation.hasTraitIsTerminator) = some true then
    (.success, [], region1)
  else if region1.length ≠ 1 then
    (.failure, ["multi-block region must not omit terminator"], region1)
  else (.success, [], region1.dropLast ++ [block ++ [Operation.yieldOp []]])

/-- Function `omitRegionTerm`: true if the region's terminator should be
omitted. `yieldsNothing` is evaluated only when `singleNonEmptyBlock` holds. -/
def omitRegionTerm (NDEBUG : Bool) (r : Region) : Option Bool :=
  let singleNonEmptyBlock :=
    r.length = 1 ∧ ((back r).map (fun block => !block.isEmpty)) = some true
  if singleNonEmptyBlock then
    match (back r).bind (Block.getTerminator NDEBUG) with
    | none => none
    | some (.yieldOp args) => some args.isEmpty
    | some _ => some false
  else some false

/-! ## Constant, return, function and call verifiers (`P4HIR_Ops.cpp`) -/

/-- Function `checkConstantTypes`. The last `assert` and `cast<TypedAttr>` need
an attribute that has a type. -/
def checkConstantTypes (opType : Ty) (attrType : Attribute) :
    Option (LogicalResult × List Diagnostic) :=
  let isaBoolAttr := match attrType with | .boolAttr _ => true | _ => false
  let isaIntAttr := match attrType with | .intAttr _ _ => true | _ => false
  let isaBoolType := match opType with | .bool => true | _ => false
  let isaBitsOrInfInt := match opType with | .bits _ _ => true | .infint => true | _ => false
  if isaBoolAttr then
    if !isaBoolType then
      some (emitOpErrorArgs [.string "result type (", .type opType,
        .string ") must be '!p4hir.bool' for '", .attribute attrType, .string "'"])
    else some (.success, [])
  else if isaIntAttr then
    if !isaBitsOrInfInt then
      some (emitOpErrorArgs [.string "result type (", .type opType,
        .string ") does not match value type (", .attribute attrType, .string ")"])
    else some (.success, [])
  else if isaIntAttr || isaBoolAttr then some (.success, [])
  else
    match attrType with
    | .typed type =>
      some (emitOpErrorArgs [.string "constant with type ", .type type,
        .string " not supported"])
    | _ => none

/-- Method `ConstOp::verify`, on the result type and the value attribute. -/
def ConstOp.verify (type : Ty) (value : Attribute) : Option (LogicalResult × List Diagnostic) :=
  checkConstantTypes type value

/-- The loop `while (!isa<P4HIR::FuncOp>(fnOp)) fnOp = fnOp->getParentOp()` of
`ReturnOp::verify` over the chain of parent operations, nearest first: the
first `FuncOp`. Running off the chain applies `isa` to a null pointer. -/
def enclosingFuncOp : List Operation → Option FuncOp
  | [] => none
  | .funcOp fn _ :: _ => some fn
  | _ :: parents => enclosingFuncOp parents

/-- Method `ReturnOp::verify`, on the chain of parent operations (nearest first)
and the types of the operands. -/
def ReturnOp.verify (NDEBUG : Bool) (parents : List Operation) (operands : List Ty) :
    Option (LogicalResult × List Diagnostic) :=
  match enclosingFuncOp parents with
  | none => none
  | some fnOp =>
    if operands.length > 1 then
      some (emitOpErrorArgs [.string "expects at most 1 return operand"])
    else
      match fnOp.functionType.getReturnType NDEBUG with
      | none => none
      | some expectedTy =>
        let actualTy := match operands with | [] => Ty.void | operand0 :: _ => operand0
        if actualTy ≠ expectedTy then
          some (emitOpErrorArgs [.string "returns ", .type actualTy,
            .string " but enclosing function returns ", .type expectedTy])
        else some (.success, [])

/-- Method `FuncOp::verifyType`. The function type attribute is a `FuncType`, so
the first check (`!isa<P4HIR::FuncType>(type)`) cannot fire. -/
def FuncOp.verifyType (NDEBUG : Bool) (fn : FuncOp) : Option (LogicalResult × List String) :=
  match fn.functionType.getReturnTypes NDEBUG with
  | none => none
  | some rt =>
    if !rt.isEmpty ∧ rt.head? = some Ty.void then
      some (emitOpError ("The return type for a function returning void should " ++
        "be empty instead of an explicit !p4hir.void"))
    else some success

/-- Method `FuncOp::verify`: nothing is checked. -/
def FuncOp.verify (_fn : FuncOp) : LogicalResult × List String :=
  success

/-- The checks of `FuncOp::parse` on the parsed result types, under the comment
`Actions have no results`. -/
def FuncOp.parseResultTypes (isAction : Bool) (resultTypes : List Ty) :
    LogicalResult × List String :=
  if isAction ∧ !resultTypes.isEmpty then
    (.failure, ["actions should not produce any results"])
  else if resultTypes.length > 1 then
    (.failure, ["functions only supports zero or one results"])
  else success

/-- Lookup `symbolTable.lookupNearestSymbolFrom<FuncOp>(op, fnAttr)`: the
operation the symbol resolves to, when it is a `FuncOp`. -/
def lookupNearestSymbolFrom (symbolTable : String → Option Operation) (fnAttr : String) :
    Option FuncOp :=
  match symbolTable fnAttr with
  | some (.funcOp fn _) => some fn
  | _ => none

/-- The first position, counted from `i`, where the operand type differs from
the input type, with the expected and the provided type: what the loop of
`CallOp::verifySymbolUses` finds when both lists have the same length. -/
def operandMismatch : List Ty → List Ty → Nat → Option (Nat × Ty × Ty)
  | input :: inputs, operand :: operands, i =>
    if operand ≠ input then some (i, input, operand)
    else operandMismatch inputs operands (i + 1)
  | _, _, _ => none

/-- The loop of `CallOp::verifySymbolUses` as written, from position `i` with
`e - i` turns to go: it reads `getOperand(i)` and `fnType.getInput(i)` by
position. `none` when a read is out of bounds; otherwise the first position
where the operand type differs from the input type, with the expected and the
provided type, if there is one. -/
def operandLoop (inputs operands : List Ty) : Nat → Nat → Option (Option (Nat × Ty × Ty))
  | 0, _ => some none
  | turns + 1, i =>
    match operands[i]?, inputs[i]? with
    | some operand, some input =>
      if operand ≠ input then some (some (i, input, operand))
      else operandLoop inputs operands turns (i + 1)
    | _, _ => none

/-- Method `CallOp::verifySymbolUses`, on the symbol table, the `callee`
attribute, and the types of the operands and of the results. -/
def CallOp.verifySymbolUses (NDEBUG : Bool) (symbolTable : String → Option Operation)
    (callee : Option String) (operands resultTypes : List Ty) :
    Option (LogicalResult × List Diagnostic) :=
  match callee with
  | none => some (emitOpErrorArgs [.string "requires a 'callee' symbol reference attribute"])
  | some fnAttr =>
    match lookupNearestSymbolFrom symbolTable fnAttr with
    | none =>
      some (emitOpErrorArgs [.string "'", .string fnAttr,
        .string "' does not reference a valid function"])
    | some fn =>
      let fnType := fn.functionType
      if fnType.inputs.length ≠ operands.length then
        some (emitOpErrorArgs [.string "incorrect number of operands for callee"])
      else
        match operandLoop fnType.inputs operands fnType.inputs.length 0 with
        | none => none
        | some (some (i, expected, provided)) =>
          some (emitOpErrorArgs [.string "operand type mismatch: expected operand type ",
            .type expected, .string ", but provided ", .type provided,
            .string " for operand number ", .unsigned i])
        | some none =>
          if fn.action ∧ resultTypes.length ≠ 0 then
            some (emitOpErrorArgs [.string "incorrect number of results for action call"])
          else
            match fnType.isVoid NDEBUG with
            | none => none
            | some isVoid =>
              if isVoid ∧ resultTypes.length ≠ 0 then
                some (emitOpErrorArgs [.string "callee returns void but call has results"])
              else if !isVoid ∧ resultTypes.length ≠ 1 then
                some (emitOpErrorArgs [.string "incorrect number of results for callee"])
              else if !isVoid then
                match resultTypes.head?, fnType.getReturnType NDEBUG with
                | some resultType, some returnType =>
                  if resultType ≠ returnType then
                    some (emitOpErrorArgs [.string "result type mismatch: expected ",
                      .type returnType, .string ", but provided ", .type resultType])
                  else some (.success, [])
                | _, _ => none
              else some (.success, [])

/-- The scope body `{ %0 = const true; yield }`: one block with a constant and
a zero-operand `Yield`. -/
def exampleScopeBody : Region :=
  [[Operation.op (.constOp (.boolAttr true)) [] [Ty.bool] [], Operation.yieldOp []]]

/-! ## Region successors (`P4HIR_Ops.cpp`) -/

/-- The point a successor query starts from (`mlir::RegionBranchPoint`): the
parent operation, or one of its regions, given by its number. -/
inductive RegionBranchPoint where
  | parent
  | region (number : Nat)

/-- Method `RegionBranchPoint::isParent`. -/
def RegionBranchPoint.isParent : RegionBranchPoint → Bool
  | .parent => true
  | .region _ => false

/-- The regions of the control-flow operations, by the accessor that returns
them (`getScopeRegion`, `getTrueRegion`, `getFalseRegion`, `getThenRegion`,
`getElseRegion`). -/
inductive RegionName where
  | scopeRegion
  | trueRegion
  | falseRegion
  | thenRegion
  | elseRegion
deriving DecidableEq

/-- A successor (`mlir::RegionSuccessor`): the parent operation, with the
results it is given, or a region of the operation. -/
inductive RegionSuccessor where
  | parent (results : List Ty)
  | region (name : RegionName)

/-- Method `ScopeOp::getSuccessorRegions`, on the query point, the results of the
operation (`getODSResults(0)`) and the vector `regions` it appends to. -/
def ScopeOp.getSuccessorRegions (point : RegionBranchPoint) (results : List Ty)
    (regions : List RegionSuccessor) : List RegionSuccessor :=
  if !point.isParent then regions ++ [RegionSuccessor.parent results]
  else regions ++ [RegionSuccessor.region .scopeRegion]

/-- Method `TernaryOp::getSuccessorRegions`, on the query point, the results of
the operation and the vector `regions` it appends to. -/
def TernaryOp.getSuccessorRegions (point : RegionBranchPoint) (results : List Ty)
    (regions : List RegionSuccessor) : List RegionSuccessor :=
  if !point.isParent then regions ++ [RegionSuccessor.parent results]
  else (regions ++ [RegionSuccessor.region .trueRegion])
    ++ [RegionSuccessor.region .falseRegion]

/-- Method `IfOp::getSuccessorRegions`, on the query point, the else-region of
the operation and the vector `regions` it appends to. From inside a region the
successor is `RegionSuccessor()`, the parent without results. -/
def IfOp.getSuccessorRegions (point : RegionBranchPoint) (elseRegion : Region)
    (regions : List RegionSuccessor) : List RegionSuccessor :=
  if !point.isParent then regions ++ [RegionSuccessor.parent []]
  else
    let regions1 := regions ++ [RegionSuccessor.region .thenRegion]
    if elseRegion.isEmpty then regions1
    else regions1 ++ [RegionSuccessor.region .elseRegion]

/-- The last block of the region is not empty and ends in an operation with the
terminator trait. -/
def lastBlockTerminated (region : Region) : Prop :=
  ∃ blocks operations terminator,
    region = blocks ++ [operations ++ [terminator]] ∧
      terminator.hasTraitIsTerminator = true

/-- A region of two blocks: the first holds only a constant (no terminator), the
second only a zero-operand `Yield`. -/
def unterminatedFirstBlock : Region :=
  [[Operation.op (.constOp (.boolAttr true)) [] [Ty.bool] []], [Operation.yieldOp []]]

/-! ## Textual forms of struct and function types (`P4HIR_Types.cpp`) -/

/-- Token of a textual form, as the framework's parser methods consume them.
The text of a type is kept as one token `typeText`: reading a type is the
framework's `parseType` and writing one is the framework's printer, and what
they read and write is the same text. -/
inductive Token where
  | lparen
  | rparen
  | less
  | greater
  | comma
  | colon
  | keyword (spelling : String)
  | string (value : String)
  | typeText (type : Ty)

/-- Framework method `parseOptionalLParen`: consumes a `(` if it is next. -/
def AsmParser.parseOptionalLParen : List Token → Option (List Token)
  | .lparen :: rest => some rest
  | _ => none

/-- Framework method `parseLParen`: a `(` must be next. -/
def AsmParser.parseLParen : List Token → Option (List Token)
  | .lparen :: rest => some rest
  | _ => none

/-- Framework method `parseOptionalRParen`: consumes a `)` if it is next. -/
def AsmParser.parseOptionalRParen : List Token → Option (List Token)
  | .rparen :: rest => some rest
  | _ => none

/-- Framework method `parseRParen`: a `)` must be next. -/
def AsmParser.parseRParen : List Token → Option (List Token)
  | .rparen :: rest => some rest
  | _ => none

/-- Framework method `parseColon`: a `:` must be next. -/
def AsmParser.parseColon : List Token → Option (List Token)
  | .colon :: rest => some rest
  | _ => none

/-- Framework method `parseKeywordOrString`: a bare identifier or a quoted
string must be next; gives its text. -/
def AsmParser.parseKeywordOrString : List Token → Option (String × List Token)
  | .keyword spelling :: rest => some (spelling, rest)
  | .string value :: rest => some (value, rest)
  | _ => none

/-- Framework method `parseType`: the text of a type must be next. -/
def AsmParser.parseType : List Token → Option (Ty × List Token)
  | .typeText type :: rest => some (type, rest)
  | _ => none

/-- The delimiters of `parseCommaSeparatedList` that the dialect uses. -/
inductive Delimiter where
  | None
  | LessGreater

/-- The loop of the framework method `parseCommaSeparatedList`: one element,
then one more element after every comma. The element parser works on a state
(what the callback captures by reference) and gives back what it left of the
input. Every turn but the first consumes a comma, so the length of the input
plus one is enough fuel. -/
def AsmParser.parseCommaSeparatedListLoop {σ : Type}
    (parseElement : σ → List Token → LogicalResult × σ × List Token) :
    Nat → σ → List Token → LogicalResult × σ × List Token
  | 0, state, input => (.failure, state, input)
  | fuel + 1, state, input =>
    match parseElement state input with
    | (.failure, state, rest) => (.failure, state, rest)
    | (.success, state, .comma :: rest) =>
      AsmParser.parseCommaSeparatedListLoop parseElement fuel state rest
    | (.success, state, rest) => (.success, state, rest)

/-- Framework method `parseCommaSeparatedList`. With `Delimiter::LessGreater`
the list stands between `<` and `>` and may be empty; with `Delimiter::None` it
has at least one element. -/
def AsmParser.parseCommaSeparatedList {σ : Type} (delimiter : Delimiter)
    (parseElement : σ → List Token → LogicalResult × σ × List Token)
    (state : σ) (input : List Token) : LogicalResult × σ × List Token :=
  match delimiter with
  | .None => AsmParser.parseCommaSeparatedListLoop parseElement (input.length + 1) state input
  | .LessGreater =>
    match input with
    | .less :: .greater :: rest => (.success, state, rest)
    | .less :: rest =>
      match AsmParser.parseCommaSeparatedListLoop parseElement (rest.length + 1) state rest with
      | (.success, state, .greater :: rest) => (.success, state, rest)
      | (_, state, rest) => (.failure, state, rest)
    | _ => (.failure, state, input)

/-- Function `llvm::interleaveComma`, on the texts of the elements. -/
def interleaveComma : List (List Token) → List Token
  | [] => []
  | [text] => text
  | text :: next :: rest => text ++ Token.comma :: interleaveComma (next :: rest)

/-- What the callback of `parseFields` captures: `nameSet`, `hasDuplicateName`,
the diagnostics emitted so far, and the `parameters` of the caller. -/
structure ParseFieldsState where
  nameSet : List String
  hasDuplicateName : Bool
  diagnostics : List String
  parameters : List (FieldInfo Ty)

/-- The callback of `parseFields` after the entry `name: type` is read:
`nameSet.insert(name)` fails exactly when the name is already in the set, and
then an error is emitted and `hasDuplicateName` is set; the field is pushed
either way. -/
def parseFieldsInsert (state : ParseFieldsState) (name : String) (type : Ty) :
    ParseFieldsState :=
  if name ∈ state.nameSet then
    { state with hasDuplicateName := true,
                 diagnostics := state.diagnostics ++ ["duplicate field name '" ++ name ++ "'"],
                 parameters := state.parameters ++ [⟨name, type⟩] }
  else
    { state with nameSet := name :: state.nameSet,
                 parameters := state.parameters ++ [⟨name, type⟩] }

/-- The callback of `parseFields`: reads `name: type`, failing when one of the
three parser methods fails. -/
def parseFieldsElement (state : ParseFieldsState) (input : List Token) :
    LogicalResult × ParseFieldsState × List Token :=
  match AsmParser.parseKeywordOrString input with
  | none => (.failure, state, input)
  | some (name, afterName) =>
    match AsmParser.parseColon afterName with
    | none => (.failure, state, afterName)
    | some afterColon =>
      match AsmParser.parseType afterColon with
      | none => (.failure, state, afterColon)
      | some (type, rest) => (.success, parseFieldsInsert state name type, rest)

/-- Function `parseFields`: the result, the errors it emitted, the `parameters`
it pushed, and what it left of the input. The errors of the framework's parser
methods are not recorded. -/
def parseFields (input : List Token) :
    LogicalResult × List String × List (FieldInfo Ty) × List Token :=
  match AsmParser.parseCommaSeparatedList .LessGreater parseFieldsElement ⟨[], false, [], []⟩
      input with
  | (parseResult, state, rest) =>
    if state.hasDuplicateName then (.failure, state.diagnostics, state.parameters, rest)
    else (parseResult, state.diagnostics, state.parameters, rest)

/-- Method `StructType::parse`: no type when `parseFields` fails; `StructType::get`
is only reached, with the parsed fields, when it succeeds. With the type come
the errors emitted. -/
def StructType.parse (input : List Token) : Option Ty × List String :=
  match parseFields input with
  | (.failure, diagnostics, _, _) => (none, diagnostics)
  | (.success, diagnostics, parameters, _) => (some (.struct parameters), diagnostics)

/-- The text of one entry `name: type` of a field list; the name is written as
a quoted string or as a bare identifier. -/
def fieldEntryText (quoted : Bool) (field : FieldInfo Ty) : List Token :=
  [if quoted then Token.string field.name else Token.keyword field.name, Token.colon,
    Token.typeText field.type]

/-- The text `<name1: type1, name2: type2, ...>` of a field list. -/
def fieldListText (entries : List (Bool × FieldInfo Ty)) : List Token :=
  Token.less :: interleaveComma (entries.map (fun entry => fieldEntryText entry.1 entry.2))
    ++ [Token.greater]

/-- The callback of `parseFuncType` for one input type: the state is `params`. -/
def parseFuncTypeElement (params : List Ty) (input : List Token) :
    LogicalResult × List Ty × List Token :=
  match AsmParser.parseType input with
  | none => (.failure, params, input)
  | some (type, rest) => (.success, params ++ [type], rest)

/-- Function `parseFuncType`, called with empty `params`: on success the
`optionalReturnType` (`none` is the null type), the `params`, and what is left
of the input; `none` on failure. -/
def parseFuncType (input : List Token) : Option (Option Ty × List Ty × List Token) :=
  let afterReturnType : Option (Option Ty × List Token) :=
    match AsmParser.parseOptionalLParen input with
    | some rest => some (none, rest)
    | none =>
      match AsmParser.parseType input with
      | none => none
      | some (type, rest) =>
        let optionalReturnType : Option Ty :=
          match type with
          | .void => none
          | type => some type
        match AsmParser.parseLParen rest with
        | none => none
        | some rest => some (optionalReturnType, rest)
  match afterReturnType with
  | none => none
  | some (optionalReturnType, rest) =>
    match AsmParser.parseOptionalRParen rest with
    | some rest => some (optionalReturnType, [], rest)
    | none =>
      match AsmParser.parseCommaSeparatedList .None parseFuncTypeElement [] rest with
      | (.failure, _, _) => none
      | (.success, params, rest) =>
        match AsmParser.parseRParen rest with
        | none => none
        | some rest => some (optionalReturnType, params, rest)

/-- Function `printFuncType`: the return type if there is one, then the input
types between parentheses, separated by commas. -/
def printFuncType (optionalReturnType : Option Ty) (params : List Ty) : List Token :=
  (match optionalReturnType with
    | some type => [Token.typeText type]
    | none => [])
    ++ Token.lparen :: interleaveComma (params.map (fun type => [Token.typeText type]))
    ++ [Token.rparen]

/-! ## Textual form of `Bits` (`P4HIR_Types.cpp`) -/

/-- Method `BitsType::print`: the text it writes, the width in decimal digits. -/
def BitsType.print (width : Nat) (isSigned : Bool) : String :=
  (if isSigned then "int" else "bit") ++ "<" ++ toString width ++ ">"

/-- The framework's lexer skips the blanks before a token. -/
def Lexer.skipWhitespace : List Char → List Char
  | [] => []
  | c :: rest => if c.isWhitespace then Lexer.skipWhitespace rest else c :: rest

/-- First character of a bare identifier: a letter or `_`. -/
def Lexer.isIdentifierStart (c : Char) : Bool :=
  c.isAlpha || c = '_'

/-- Further character of a bare identifier: a letter, a digit, `_`, `$` or `.`. -/
def Lexer.isIdentifierChar (c : Char) : Bool :=
  c.isAlphanum || c = '_' || c = '$' || c = '.'

/-- Framework method `parseOptionalKeyword`, on the characters of the text: a
bare identifier must be next; gives it and the text after it. -/
def DialectAsmParser.parseOptionalKeyword (input : List Char) : Option (String × List Char) :=
  match Lexer.skipWhitespace input with
  | [] => none
  | c :: rest =>
    if Lexer.isIdentifierStart c then
      some (String.mk (c :: rest.takeWhile Lexer.isIdentifierChar),
        rest.dropWhile Lexer.isIdentifierChar)
    else none

/-- Framework method `parseLess`, on the characters of the text. -/
def DialectAsmParser.parseLess (input : List Char) : Option (List Char) :=
  match Lexer.skipWhitespace input with
  | [] => none
  | c :: rest => if c = '<' then some rest else none

/-- Framework method `parseGreater`, on the characters of the text. -/
def DialectAsmParser.parseGreater (input : List Char) : Option (List Char) :=
  match Lexer.skipWhitespace input with
  | [] => none
  | c :: rest => if c = '>' then some rest else none

/-- Framework method `parseInteger` for an `unsigned` result, on the characters
of the text: a decimal literal must be next, and its value must fit 32 bits
(`integer value too large` otherwise). The other spellings of an integer the
framework accepts (hexadecimal, a sign, `true` and `false`) are not covered:
they fail here. -/
def DialectAsmParser.parseInteger (input : List Char) : Option (Nat × List Char) :=
  match Lexer.skipWhitespace input with
  | [] => none
  | c :: rest =>
    if c.isDigit then
      let value := (c :: rest.takeWhile Char.isDigit).foldl
        (fun value digit => 10 * value + (digit.toNat - 48)) 0
      if value < UINT_SIZE then some (value, rest.dropWhile Char.isDigit) else none
    else none

/-- Method `BitsType::parse`: `<`, the width, `>`; no type when one of the
three parser methods fails. -/
def BitsType.parse (input : List Char) (isSigned : Bool) : Option Ty :=
  match DialectAsmParser.parseLess input with
  | none => none
  | some afterLess =>
    match DialectAsmParser.parseInteger afterLess with
    | none => none
    | some (width, afterWidth) =>
      match DialectAsmParser.parseGreater afterWidth with
      | none => none
      | some _ => some (.bits width isSigned)

/-- Outcome of the generated parser: `hasValue genType` when it handled the
text, with the type it parsed or with no type; `noValue mnemonic rest` when the
keyword it read is not the mnemonic of a generated type. -/
inductive GeneratedParse where
  | hasValue (genType : Option Ty)
  | noValue (mnemonic : String) (rest : List Char)

/-- The generated parser `generatedTypeParser`, the framework's keyword switch
over the types declared with a mnemonic; its text is produced at build time and
is not among the sources. The table `generated` gives the mnemonics and the
parsers they select. Without a keyword the switch fails. -/
def generatedTypeParser (generated : List (String × (List Char → Option Ty)))
    (input : List Char) : GeneratedParse :=
  match DialectAsmParser.parseOptionalKeyword input with
  | none => .hasValue none
  | some (keyword, rest) =>
    match generated.lookup keyword with
    | some parse => .hasValue (parse rest)
    | none => .noValue keyword rest

/-- Method `P4HIRDialect::parseType` on the text of a type: the type, if any,
and the error it emitted. The errors of the framework's parser methods are not
recorded. -/
def P4HIRDialect.parseType (generated : List (String × (List Char → Option Ty)))
    (text : String) : Option Ty × List String :=
  match generatedTypeParser generated text.toList with
  | .hasValue genType => (genType, [])
  | .noValue mnemonic rest =>
    if mnemonic = "int" then (BitsType.parse rest true, [])
    else if mnemonic = "bit" then (BitsType.parse rest false, [])
    else (none, ["unknown P4HIR type: " ++ mnemonic])

/-- A table of generated types for examples: the types without parameters. -/
def exampleGenerated : List (String × (List Char → Option Ty)) :=
  [("bool", fun _ => some Ty.bool), ("infint", fun _ => some Ty.infint),
    ("void", fun _ => some Ty.void)]

/-! ## Destructuring accessors of `StructType` (`P4HIR_Types.cpp`) -/

/-- The attributes that index the elements of a destructurable type: the
framework's `IntegerAttr` of index type, known by its 64-bit value (what
`getInt` returns), and any other attribute. -/
inductive IndexAttribute where
  | integerAttr (value : Int)
  | other
deriving DecidableEq

/-- Method `DenseMap::try_emplace` on a map kept as the list of its entries: the
entry is added unless the key is already present. -/
def try_emplace (map : List (IndexAttribute × Ty)) (key : IndexAttribute) (value : Ty) :
    List (IndexAttribute × Ty) :=
  if key ∈ map.map Prod.fst then map else map ++ [(key, value)]

/-- The loop of `StructType::getSubelementIndexMap` over the elements, `i` being
the position `llvm::enumerate` gives to the next element. The number of
elements is far below `2^63`, so the `IntegerAttr` of index type made from `i`
has the value `i`. -/
def StructType.getSubelementIndexMapLoop :
    List (FieldInfo Ty) → Nat → List (IndexAttribute × Ty) → List (IndexAttribute × Ty)
  | [], _, destructured => destructured
  | field :: rest, i, destructured =>
    StructType.getSubelementIndexMapLoop rest (i + 1)
      (try_emplace destructured (.integerAttr (Int.ofNat i)) field.type)

/-- Method `StructType::getSubelementIndexMap`: always a map. -/
def StructType.getSubelementIndexMap (elements : List (FieldInfo Ty)) :
    Option (List (IndexAttribute × Ty)) :=
  some (StructType.getSubelementIndexMapLoop elements 0 [])

/-- Method `StructType::getTypeAtIndex`: `some none` is the null type it returns
for an attribute that is not an `IntegerAttr`; otherwise the 64-bit value is
converted to the `unsigned` parameter of `getSubTypeByFieldID`, and there is no
result (`none`) where that method has none. -/
def StructType.getTypeAtIndex (elements : List (FieldInfo Ty)) (index : IndexAttribute) :
    Option (Option Ty) :=
  match index with
  | .other => some none
  | .integerAttr value =>
    match StructType.getSubTypeByFieldID elements (value % 4294967296).toNat with
    | none => none
    | some (type, _) => some (some type)

/-- The struct `<a: bool, b: bit<8>>`. -/
def boolBitsStruct : List (FieldInfo Ty) :=
  [⟨"a", .bool⟩, ⟨"b", .bits 8 false⟩]

/-- A function `@act` with the `action` attribute and the function type
`bit<8> ()`. -/
def exampleAction : FuncOp :=
  ⟨"act", ⟨[], some (.bits 8 false)⟩, true⟩

/-- A symbol table in which `act` resolves to `exampleAction`. -/
def exampleSymbolTable (symbol : String) : Option Operation :=
  if symbol = "act" then some (.funcOp exampleAction []) else none

/-! ## Arithmetic of the field-ID loops -/

theorem uadd_lt (a b : Nat) : uadd a b < UINT_SIZE :=
  Nat.mod_lt _ (by decide)

theorem getFieldIDsStructLoop_acc (es : List (FieldInfo Ty)) (f : Nat) (acc : List Nat) :
    getFieldIDsStructLoop es f acc =
      ((getFieldIDsStructLoop es f []).1, acc ++ (getFieldIDsStructLoop es f []).2) := by
  induction es generalizing f acc with
  | nil => simp [getFieldIDsStructLoop]
  | cons e rest ih =>
    simp only [getFieldIDsStructLoop]
    rw [ih _ (acc ++ [uadd f 1]), ih _ ([] ++ [uadd f 1])]
    simp

theorem fieldSpan_nil : fieldSpan [] = 0 := rfl

theorem fieldSpan_cons (e : FieldInfo Ty) (rest : List (FieldInfo Ty)) :
    fieldSpan (e :: rest) = 1 + FieldIdImpl.getMaxFieldID e.type + fieldSpan rest := by
  simp [fieldSpan]

theorem getFieldIDsStructLoop_fst (es : List (FieldInfo Ty)) (f : Nat) (hf : f < UINT_SIZE) :
    (getFieldIDsStructLoop es f []).1 = (f + fieldSpan es) % UINT_SIZE := by
  induction es generalizing f with
  | nil => simp [getFieldIDsStructLoop, fieldSpan_nil, Nat.mod_eq_of_lt hf]
  | cons e rest ih =>
    simp only [getFieldIDsStructLoop]
    rw [getFieldIDsStructLoop_acc]
    simp only []
    rw [ih _ (uadd_lt _ _), fieldSpan_cons]
    simp only [uadd, UINT_SIZE]
    omega

theorem getMaxFieldIDLoop_eq (es : List (FieldInfo Ty)) (f : Nat) (hf : f < UINT_SIZE) :
    StructType.getMaxFieldIDLoop es f = (f + fieldSpan es) % UINT_SIZE := by
  induction es generalizing f with
  | nil => simp [StructType.getMaxFieldIDLoop, fieldSpan_nil, Nat.mod_eq_of_lt hf]
  | cons e rest ih =>
    simp only [StructType.getMaxFieldIDLoop]
    rw [ih _ (uadd_lt _ _), fieldSpan_cons]
    simp only [uadd, UINT_SIZE]
    omega

theorem getFieldIDsStructLoop_length (es : List (FieldInfo Ty)) (f : Nat) :
    (getFieldIDsStructLoop es f []).2.length = es.length := by
  induction es generalizing f with
  | nil => simp [getFieldIDsStructLoop]
  | cons e rest ih =>
    simp only [getFieldIDsStructLoop]
    rw [getFieldIDsStructLoop_acc]
    simp [ih]

theorem getFieldIDsStructLoop_getElem (es : List (FieldInfo Ty)) (f i : Nat)
    (hi : i < es.length) :
    (getFieldIDsStructLoop es f []).2[i]? = some ((f + 1 + fieldSpan (es.take i)) % UINT_SIZE) := by
  induction es generalizing f i with
  | nil => simp at hi
  | cons e rest ih =>
    simp only [getFieldIDsStructLoop]
    rw [getFieldIDsStructLoop_acc]
    cases i with
    | zero => simp [fieldSpan_nil, uadd]
    | succ k =>
      have hk : k < rest.length := by simpa using hi
      simp only [List.nil_append, List.singleton_append, List.getElem?_cons_succ, List.take_succ_cons]
      rw [ih _ _ hk, fieldSpan_cons]
      simp only [uadd, UINT_SIZE]
      congr 1
      omega
/-! ## Binary search -/

theorem upper_bound_loop_eq (xs : List Nat) (value r : Nat)
    (hlow : ∀ i, i < r → xs.getD i 0 ≤ value)
    (hhigh : ∀ i, r ≤ i → i < xs.length → value < xs.getD i 0)
    (fuel first len : Nat) (hfuel : len ≤ fuel) (h1 : first ≤ r) (h2 : r ≤ first + len)
    (h3 : first + len ≤ xs.length) :
    upper_bound_loop xs value fuel first len = r := by
  induction fuel generalizing first len with
  | zero =>
    have : len = 0 := by omega
    simp only [upper_bound_loop]; omega
  | succ n ih =>
    simp only [upper_bound_loop]
    by_cases hlen : len = 0
    · simp only [hlen, if_true]; omega
    · simp only [hlen, if_false]
      have hhalf : len / 2 < len := Nat.div_lt_self (Nat.pos_of_ne_zero hlen) (by decide)
      by_cases hv : value < xs.getD (first + len / 2) 0
      · simp only [hv, if_true]
        have hr : r ≤ first + len / 2 := by
          by_contra hcon
          have := hlow (first + len / 2) (by omega)
          omega
        exact ih first (len / 2) (by omega) h1 hr (by omega)
      · simp only [hv, if_false]
        have hr : first + len / 2 < r := by
          by_contra hcon
          have := hhigh (first + len / 2) (by omega) (by omega)
          exact hv this
        exact ih (first + len / 2 + 1) (len - len / 2 - 1) (by omega) (by omega) (by omega)
          (by omega)

/-- A range whose first `r` elements are not greater than `value` and whose
other elements are greater is partitioned with respect to `value`. -/
theorem partitioned_of_bounds (xs : List Nat) (value r : Nat)
    (hlow : ∀ i, i < r → i < xs.length → xs.getD i 0 ≤ value)
    (hhigh : ∀ i, r ≤ i → i < xs.length → value < xs.getD i 0) :
    partitioned xs value = true := by
  induction xs generalizing r with
  | nil => rfl
  | cons x rest ih =>
    cases r with
    | zero =>
      have hall : ∀ element ∈ x :: rest, value < element := by
        intro element hmem
        obtain ⟨i, hi, hget⟩ := List.getElem_of_mem hmem
        have h := hhigh i (Nat.zero_le _) hi
        rw [List.getD_eq_getElem _ _ hi, hget] at h
        exact h
      have hx : value < x := hall x (List.mem_cons_self _ _)
      unfold partitioned
      rw [List.dropWhile_cons_of_neg (by simpa using hx), List.all_eq_true]
      intro element hmem
      exact decide_eq_true (hall element hmem)
    | succ r =>
      have hx : x ≤ value := hlow 0 (Nat.succ_pos _) (Nat.succ_pos _)
      have hrest := ih r
        (fun i hi hlen => by
          have h := hlow (i + 1) (by omega) (by simpa using hlen)
          simpa using h)
        (fun i hi hlen => by
          have h := hhigh (i + 1) (by omega) (by simpa using hlen)
          simpa using h)
      unfold partitioned at hrest ⊢
      rw [List.dropWhile_cons_of_pos (by simpa using hx)]
      exact hrest

theorem upper_bound_eq (xs : List Nat) (value r : Nat) (hr : r ≤ xs.length)
    (hlow : ∀ i, i < r → xs.getD i 0 ≤ value)
    (hhigh : ∀ i, r ≤ i → i < xs.length → value < xs.getD i 0) :
    upper_bound xs value = some r := by
  unfold upper_bound
  rw [partitioned_of_bounds xs value r (fun i hi _ => hlow i hi) hhigh, if_pos rfl,
    upper_bound_loop_eq xs value r hlow hhigh xs.length 0 xs.length (le_refl _) (Nat.zero_le _)
      (by omega) (by omega)]

/-! ## Running sums of the field spans -/

theorem fieldSpan_append (l₁ l₂ : List (FieldInfo Ty)) :
    fieldSpan (l₁ ++ l₂) = fieldSpan l₁ + fieldSpan l₂ := by
  simp [fieldSpan]

theorem fieldSpan_take_le (es : List (FieldInfo Ty)) (i : Nat) :
    fieldSpan (es.take i) ≤ fieldSpan es := by
  have h := fieldSpan_append (es.take i) (es.drop i)
  rw [List.take_append_drop] at h
  omega

theorem fieldSpan_take_mono (es : List (FieldInfo Ty)) {i j : Nat} (hij : i ≤ j) :
    fieldSpan (es.take i) ≤ fieldSpan (es.take j) := by
  have h := fieldSpan_take_le (es.take j) i
  rwa [List.take_take, Nat.min_eq_left hij] at h

theorem fieldSpan_take_succ (es : List (FieldInfo Ty)) (i : Nat) (fi : FieldInfo Ty)
    (hfi : es[i]? = some fi) :
    fieldSpan (es.take (i + 1)) =
      fieldSpan (es.take i) + (1 + FieldIdImpl.getMaxFieldID fi.type) := by
  rw [List.take_succ, hfi, fieldSpan_append]
  simp [fieldSpan]

theorem fieldSpan_take_length (es : List (FieldInfo Ty)) :
    fieldSpan (es.take es.length) = fieldSpan es := by
  rw [List.take_length]

/-- The span of the fields before field `i`, that field included, is within the
span of the fields before any later field `j`. -/
theorem fieldSpan_take_lt (es : List (FieldInfo Ty)) {i j : Nat} (fi : FieldInfo Ty)
    (hfi : es[i]? = some fi) (hij : i < j) :
    fieldSpan (es.take i) + (1 + FieldIdImpl.getMaxFieldID fi.type) ≤ fieldSpan (es.take j) := by
  rw [← fieldSpan_take_succ es i fi hfi]
  exact fieldSpan_take_mono es hij

theorem getFieldIDsStruct_fst (es : List (FieldInfo Ty)) :
    (getFieldIDsStruct es).1 = fieldSpan es % UINT_SIZE := by
  unfold getFieldIDsStruct
  rw [getFieldIDsStructLoop_fst es 0 (by decide), Nat.zero_add]

theorem getFieldIDsStruct_length (es : List (FieldInfo Ty)) :
    (getFieldIDsStruct es).2.length = es.length :=
  getFieldIDsStructLoop_length es 0

theorem getMaxFieldID_eq (es : List (FieldInfo Ty)) :
    StructType.getMaxFieldID es = fieldSpan es % UINT_SIZE := by
  unfold StructType.getMaxFieldID
  rw [getMaxFieldIDLoop_eq es 0 (by decide), Nat.zero_add]

theorem getFieldID_eq (es : List (FieldInfo Ty)) (i : Nat) (hi : i < es.length) :
    StructType.getFieldID es i = some ((1 + fieldSpan (es.take i)) % UINT_SIZE) := by
  unfold StructType.getFieldID getFieldIDsStruct
  rw [getFieldIDsStructLoop_getElem es 0 i hi, Nat.zero_add]

theorem getFieldID_none (es : List (FieldInfo Ty)) (i : Nat) (hi : es.length ≤ i) :
    StructType.getFieldID es i = none := by
  unfold StructType.getFieldID
  rw [List.getElem?_eq_none_iff, getFieldIDsStruct_length]
  exact hi

/-- Without wrap-around the ID of field `i` is one more than the span of the
fields before it. -/
theorem getFieldID_exact (es : List (FieldInfo Ty)) (hW : fieldSpan es < UINT_SIZE) (i : Nat)
    (hi : i < es.length) :
    StructType.getFieldID es i = some (1 + fieldSpan (es.take i)) := by
  rw [getFieldID_eq es i hi]
  obtain ⟨fi, hfi⟩ : ∃ fi, es[i]? = some fi := ⟨es[i], List.getElem?_eq_getElem hi⟩
  have h1 := fieldSpan_take_succ es i fi hfi
  have h2 := fieldSpan_take_le es (i + 1)
  rw [Nat.mod_eq_of_lt (by omega)]

/-! ## A struct whose field IDs wrap around -/

theorem getMaxFieldID_pairOf (t : Ty) :
    FieldIdImpl.getMaxFieldID (pairOf t) =
      (2 + 2 * FieldIdImpl.getMaxFieldID t) % UINT_SIZE := by
  unfold pairOf
  rw [FieldIdImpl.getMaxFieldID, getMaxFieldIDLoop_eq _ 0 (by decide)]
  simp only [fieldSpan_cons, fieldSpan_nil]
  congr 1
  omega

theorem getMaxFieldID_nestedPair (k : Nat) (hk : k ≤ 30) :
    FieldIdImpl.getMaxFieldID (nestedPair k) = 2 ^ (k + 2) - 2 := by
  induction k with
  | zero =>
    rw [nestedPair, getMaxFieldID_pairOf]
    simp [FieldIdImpl.getMaxFieldID, UINT_SIZE]
  | succ n ih =>
    rw [nestedPair, getMaxFieldID_pairOf, ih (by omega)]
    have h1 : 2 ^ (n + 2) ≤ 2 ^ 31 := Nat.pow_le_pow_right (by decide) (by omega)
    have h2 : 2 ^ (n + 1 + 2) = 2 * 2 ^ (n + 2) := by rw [Nat.pow_succ]; ring
    have h3 : 4 ≤ 2 ^ (n + 2) := by
      calc 4 = 2 ^ 2 := by norm_num
        _ ≤ 2 ^ (n + 2) := Nat.pow_le_pow_right (by decide) (by omega)
    rw [h2]
    generalize 2 ^ (n + 2) = x at h1 h3 ⊢
    norm_num at h1
    simp only [UINT_SIZE]
    omega

theorem getMaxFieldID_nestedPair_30 :
    FieldIdImpl.getMaxFieldID (nestedPair 30) = 4294967294 := by
  rw [getMaxFieldID_nestedPair 30 (le_refl _)]
  norm_num

/-! ## Field IDs: the claims -/

theorem getMaxFieldID_bool : FieldIdImpl.getMaxFieldID Ty.bool = 0 := rfl

theorem getMaxFieldID_innerStruct : FieldIdImpl.getMaxFieldID (Ty.struct innerStruct) = 3 := by
  decide

theorem wrapStruct_span : fieldSpan wrapStruct = 4294967299 := by
  simp only [wrapStruct, fieldSpan_cons, fieldSpan_nil, getMaxFieldID_nestedPair_30,
    getMaxFieldID_innerStruct]

theorem wrapStruct_fieldID_0 : StructType.getFieldID wrapStruct 0 = some 1 := by
  rw [getFieldID_eq wrapStruct 0 (by decide)]
  simp [fieldSpan_nil, UINT_SIZE]

theorem wrapStruct_fieldID_1 : StructType.getFieldID wrapStruct 1 = some 0 := by
  rw [getFieldID_eq wrapStruct 1 (by decide)]
  simp only [wrapStruct, List.take_succ_cons, List.take_zero, fieldSpan_cons, fieldSpan_nil,
    getMaxFieldID_nestedPair_30, UINT_SIZE]

theorem wrapStruct_fieldIDs : (getFieldIDsStruct wrapStruct).2 = [1, 0] := by
  apply List.ext_getElem?
  intro i
  match i with
  | 0 => exact wrapStruct_fieldID_0
  | 1 => exact wrapStruct_fieldID_1
  | k + 2 =>
    have h := getFieldID_none wrapStruct (k + 2) (by simp [wrapStruct])
    unfold StructType.getFieldID at h
    rw [h]; rfl

theorem unsortedStruct_span : fieldSpan unsortedStruct = 4294967301 := by
  simp only [unsortedStruct, fieldSpan_cons, fieldSpan_nil, getMaxFieldID_nestedPair_30,
    getMaxFieldID_innerStruct, getMaxFieldID_bool]

theorem unsortedStruct_fieldIDs : (getFieldIDsStruct unsortedStruct).2 = [1, 2, 1, 5] := by
  apply List.ext_getElem?
  intro i
  have hget : ∀ j, (getFieldIDsStruct unsortedStruct).2[j]?
      = StructType.getFieldID unsortedStruct j := fun _ => rfl
  rw [hget]
  match i with
  | 0 =>
    rw [getFieldID_eq unsortedStruct 0 (by decide)]
    simp [fieldSpan_nil, UINT_SIZE]
  | 1 =>
    rw [getFieldID_eq unsortedStruct 1 (by decide)]
    simp [unsortedStruct, fieldSpan_cons, fieldSpan_nil, getMaxFieldID_bool, UINT_SIZE]
  | 2 =>
    rw [getFieldID_eq unsortedStruct 2 (by decide)]
    simp [unsortedStruct, fieldSpan_cons, fieldSpan_nil, getMaxFieldID_bool,
      getMaxFieldID_nestedPair_30, UINT_SIZE]
  | 3 =>
    rw [getFieldID_eq unsortedStruct 3 (by decide)]
    simp [unsortedStruct, fieldSpan_cons, fieldSpan_nil, getMaxFieldID_bool,
      getMaxFieldID_nestedPair_30, getMaxFieldID_innerStruct, UINT_SIZE]
  | k + 4 =>
    rw [getFieldID_none unsortedStruct (k + 4) (by simp [unsortedStruct])]
    rfl

theorem unsortedStruct_maxFieldID : StructType.getMaxFieldID unsortedStruct = 5 := by
  rw [getMaxFieldID_eq, unsortedStruct_span]
  simp [UINT_SIZE]

/-- C2 (counterexample): in `<a: S, b: <x, y, z>>` with `maxFieldID(S) = 2^32 - 2`,
`getFieldID` of field 1 is 0, while `1 + Σ_{j<1} (1 + maxFieldID(type j))` is
`2^32`. -/
theorem getFieldID_running_sum_wraps :
    StructType.getFieldID wrapStruct 1 ≠
      some (1 + ((wrapStruct.take 1).map
        (fun field => 1 + FieldIdImpl.getMaxFieldID field.type)).sum) := by
  rw [wrapStruct_fieldID_1]
  simp [wrapStruct, getMaxFieldID_nestedPair_30]

/-- C2 (amended): for every struct and every index `i` below the number of
fields, `getFieldID` returns `1 + Σ_{j<i} (1 + maxFieldID(type of field j))`
reduced modulo `2^32`, hence that sum itself whenever it is below `2^32`; and
the fields `(a: bool, b: a struct of maxFieldID 3, c: bool)` have the IDs 1, 2
and 6. -/
theorem getFieldID_running_sum_mod (es : List (FieldInfo Ty)) (i : Nat) (hi : i < es.length) :
    StructType.getFieldID es i =
        some ((1 + ((es.take i).map
          (fun field => 1 + FieldIdImpl.getMaxFieldID field.type)).sum) % UINT_SIZE)
      ∧ (1 + ((es.take i).map
            (fun field => 1 + FieldIdImpl.getMaxFieldID field.type)).sum < UINT_SIZE →
          StructType.getFieldID es i =
            some (1 + ((es.take i).map
              (fun field => 1 + FieldIdImpl.getMaxFieldID field.type)).sum))
      ∧ FieldIdImpl.getMaxFieldID (.struct innerStruct) = 3
      ∧ StructType.getFieldID exampleStruct 0 = some 1
      ∧ StructType.getFieldID exampleStruct 1 = some 2
      ∧ StructType.getFieldID exampleStruct 2 = some 6 := by
  have h := getFieldID_eq es i hi
  refine ⟨h, ?_, by decide, by decide, by decide, by decide⟩
  intro hlt
  rw [h]
  exact congrArg some (Nat.mod_eq_of_lt hlt)

/-- C2 (witness): the amended statement at field `c` (index 2) of the example
struct. -/
theorem getFieldID_running_sum_mod_witness :
    2 < exampleStruct.length ∧ StructType.getFieldID exampleStruct 2 = some 6 :=
  ⟨by decide, (getFieldID_running_sum_mod exampleStruct 2 (by decide)).2.2.2.2.2⟩

/-- C3 (counterexample): for `<a: S, b: <x, y, z>>` with
`maxFieldID(S) = 2^32 - 2` the sum `Σ (1 + maxFieldID(field type))` is
`2^32 + 3`, and `getMaxFieldID` returns 3. -/
theorem getMaxFieldID_sum_wraps :
    StructType.getMaxFieldID wrapStruct ≠
      (wrapStruct.map (fun field => 1 + FieldIdImpl.getMaxFieldID field.type)).sum := by
  rw [getMaxFieldID_eq]
  show fieldSpan wrapStruct % UINT_SIZE ≠ fieldSpan wrapStruct
  rw [wrapStruct_span]
  simp [UINT_SIZE]

/-- C3 (amended): for every struct, `getMaxFieldID` is the sum over the direct
fields of `1 + maxFieldID(field type)` reduced modulo `2^32` (the sum itself
whenever it is below `2^32`); `maxFieldID` is 0 for every non-struct type and
for the struct with no fields; on a struct type it is the struct's own
`getMaxFieldID`; and it equals the running total returned by
`getFieldIDsStruct`. -/
theorem getMaxFieldID_sum_mod (es : List (FieldInfo Ty)) :
    StructType.getMaxFieldID es =
        (es.map (fun field => 1 + FieldIdImpl.getMaxFieldID field.type)).sum % UINT_SIZE
      ∧ ((es.map (fun field => 1 + FieldIdImpl.getMaxFieldID field.type)).sum < UINT_SIZE →
          StructType.getMaxFieldID es =
            (es.map (fun field => 1 + FieldIdImpl.getMaxFieldID field.type)).sum)
      ∧ (∀ t : Ty, (∀ es', t ≠ .struct es') → FieldIdImpl.getMaxFieldID t = 0)
      ∧ StructType.getMaxFieldID [] = 0
      ∧ FieldIdImpl.getMaxFieldID (.struct es) = StructType.getMaxFieldID es
      ∧ (getFieldIDsStruct es).1 = StructType.getMaxFieldID es := by
  have h := getMaxFieldID_eq es
  refine ⟨h, ?_, ?_, rfl, ?_, ?_⟩
  · intro hlt
    rw [h]
    exact Nat.mod_eq_of_lt hlt
  · intro t ht
    cases t with
    | struct es' => exact absurd rfl (ht es')
    | _ => simp [FieldIdImpl.getMaxFieldID]
  · simp [FieldIdImpl.getMaxFieldID, StructType.getMaxFieldID]
  · rw [getFieldIDsStruct_fst, h]

/-! ## The layout without wrap-around -/

theorem lt_length_of_getElem? {α : Type} {l : List α} {i : Nat} {a : α}
    (h : l[i]? = some a) : i < l.length := by
  rw [List.getElem?_eq_some_iff] at h
  exact h.1

/-- Every ID from 1 up to the span of the fields lies in the range of one
field. -/
theorem exists_field_of_id (es : List (FieldInfo Ty)) (x : Nat) (h1 : 1 ≤ x)
    (h2 : x ≤ fieldSpan es) :
    ∃ k fk, es[k]? = some fk ∧ fieldSpan (es.take k) < x ∧
      x ≤ fieldSpan (es.take (k + 1)) := by
  induction es generalizing x with
  | nil => rw [fieldSpan_nil] at h2; omega
  | cons e rest ih =>
    rw [fieldSpan_cons] at h2
    by_cases hx : x ≤ 1 + FieldIdImpl.getMaxFieldID e.type
    · refine ⟨0, e, by simp, ?_, ?_⟩
      · simp only [List.take_zero, fieldSpan_nil]; omega
      · simp only [List.take_succ_cons, List.take_zero, fieldSpan_cons, fieldSpan_nil]; omega
    · obtain ⟨k, fk, hk, hlo, hhi⟩ :=
        ih (x - (1 + FieldIdImpl.getMaxFieldID e.type)) (by omega) (by omega)
      refine ⟨k + 1, fk, by simpa using hk, ?_, ?_⟩
      · simp only [List.take_succ_cons, fieldSpan_cons]; omega
      · simp only [List.take_succ_cons, fieldSpan_cons] at hhi ⊢; omega

theorem fieldIDs_getD (es : List (FieldInfo Ty)) (hW : fieldSpan es < UINT_SIZE) (i : Nat)
    (hi : i < es.length) :
    (getFieldIDsStruct es).2.getD i 0 = 1 + fieldSpan (es.take i) := by
  have h := getFieldID_exact es hW i hi
  unfold StructType.getFieldID at h
  rw [List.getD_eq_getElem?_getD, h]
  rfl

/-- Without wrap-around, the binary search for an ID in the range of field `k`
stops right after position `k`. -/
theorem upper_bound_fieldIDs (es : List (FieldInfo Ty)) (hW : fieldSpan es < UINT_SIZE)
    (x k : Nat) (hk : k < es.length) (hlo : fieldSpan (es.take k) < x)
    (hhi : x ≤ fieldSpan (es.take (k + 1))) :
    upper_bound (getFieldIDsStruct es).2 x = some (k + 1) := by
  apply upper_bound_eq
  · rw [getFieldIDsStruct_length]; omega
  · intro i hi
    rw [fieldIDs_getD es hW i (by omega)]
    have := fieldSpan_take_mono es (show i ≤ k by omega)
    omega
  · intro i hi hlen
    rw [getFieldIDsStruct_length] at hlen
    rw [fieldIDs_getD es hW i hlen]
    have := fieldSpan_take_mono es hi
    omega

/-- An ID below every field ID (0 in particular) sends the binary search to
the first position. -/
theorem upper_bound_fieldIDs_zero (es : List (FieldInfo Ty)) (hW : fieldSpan es < UINT_SIZE) :
    upper_bound (getFieldIDsStruct es).2 0 = some 0 := by
  apply upper_bound_eq
  · exact Nat.zero_le _
  · intro i hi; omega
  · intro i _ hlen
    rw [getFieldIDsStruct_length] at hlen
    rw [fieldIDs_getD es hW i hlen]
    omega

theorem getElem?_of_lt (es : List (FieldInfo Ty)) (i : Nat) (hi : i < es.length) :
    ∃ fi, es[i]? = some fi :=
  ⟨es[i], List.getElem?_eq_getElem hi⟩

/-- C4 (counterexample): for `<a: S, b: <x, y, z>>` with
`maxFieldID(S) = 2^32 - 2` the list of direct-field IDs is `[1, 0]`, which is not strictly increasing. -/
theorem fieldIDs_not_increasing_on_wrap :
    (getFieldIDsStruct wrapStruct).2 = [1, 0] ∧
      ¬ List.Pairwise (fun a b => a < b) (getFieldIDsStruct wrapStruct).2 := by
  refine ⟨wrapStruct_fieldIDs, ?_⟩
  rw [wrapStruct_fieldIDs]
  decide

/-- C4 (amended): for every struct whose sum `Σ (1 + maxFieldID(field type))`
over the direct fields is below `2^32`, the list produced by
`getFieldIDsStruct` has one ID per field, starts at 1 and is strictly
increasing; for field indices `i < j` the inclusive range
`[fieldID(i), fieldID(i) + maxFieldID(type i)]` ends before `fieldID(j)`; and an
ID lies in the range of some field exactly when it is in `1..maxFieldID(T)`. -/
theorem fieldIDs_layout (es : List (FieldInfo Ty))
    (hW : (es.map (fun field => 1 + FieldIdImpl.getMaxFieldID field.type)).sum < UINT_SIZE) :
    (getFieldIDsStruct es).2.length = es.length
      ∧ (es ≠ [] → (getFieldIDsStruct es).2.head? = some 1)
      ∧ List.Pairwise (fun a b => a < b) (getFieldIDsStruct es).2
      ∧ (∀ i j fi a b, i < j → es[i]? = some fi →
          StructType.getFieldID es i = some a → StructType.getFieldID es j = some b →
          a + FieldIdImpl.getMaxFieldID fi.type < b)
      ∧ (∀ x, (1 ≤ x ∧ x ≤ StructType.getMaxFieldID es) ↔
          ∃ k fk a, es[k]? = some fk ∧ StructType.getFieldID es k = some a ∧
            a ≤ x ∧ x ≤ a + FieldIdImpl.getMaxFieldID fk.type) := by
  have hW' : fieldSpan es < UINT_SIZE := hW
  have hmax : StructType.getMaxFieldID es = fieldSpan es := by
    rw [getMaxFieldID_eq, Nat.mod_eq_of_lt hW']
  have hdisj : ∀ i j fi a b, i < j → es[i]? = some fi →
      StructType.getFieldID es i = some a → StructType.getFieldID es j = some b →
      a + FieldIdImpl.getMaxFieldID fi.type < b := by
    intro i j fi a b hij hfi ha hb
    have hj : j < es.length := by
      by_contra hcon
      rw [getFieldID_none es j (by omega)] at hb
      exact Option.noConfusion hb
    rw [getFieldID_exact es hW' i (lt_length_of_getElem? hfi)] at ha
    rw [getFieldID_exact es hW' j hj] at hb
    have h := fieldSpan_take_lt es fi hfi hij
    simp only [Option.some.injEq] at ha hb
    omega
  refine ⟨getFieldIDsStruct_length es, ?_, ?_, hdisj, ?_⟩
  · intro hne
    have hpos : 0 < es.length := List.length_pos.mpr hne
    have h := getFieldID_exact es hW' 0 hpos
    unfold StructType.getFieldID at h
    rw [List.head?_eq_getElem?, h]
    simp [fieldSpan_nil]
  · rw [List.pairwise_iff_getElem]
    intro i j hi hj hij
    rw [getFieldIDsStruct_length] at hi hj
    obtain ⟨fi, hfi⟩ := getElem?_of_lt es i hi
    have ha : StructType.getFieldID es i = some (getFieldIDsStruct es).2[i] :=
      List.getElem?_eq_getElem _
    have hb : StructType.getFieldID es j = some (getFieldIDsStruct es).2[j] :=
      List.getElem?_eq_getElem _
    have := hdisj i j fi _ _ hij hfi ha hb
    omega
  · intro x
    rw [hmax]
    constructor
    · rintro ⟨h1, h2⟩
      obtain ⟨k, fk, hk, hlo, hhi⟩ := exists_field_of_id es x h1 h2
      refine ⟨k, fk, 1 + fieldSpan (es.take k), hk,
        getFieldID_exact es hW' k (lt_length_of_getElem? hk), by omega, ?_⟩
      rw [fieldSpan_take_succ es k fk hk] at hhi
      omega
    · rintro ⟨k, fk, a, hk, ha, hlo, hhi⟩
      rw [getFieldID_exact es hW' k (lt_length_of_getElem? hk)] at ha
      simp only [Option.some.injEq] at ha
      have h1 := fieldSpan_take_succ es k fk hk
      have h2 := fieldSpan_take_le es (k + 1)
      omega

/-- C4 (witness): the layout of `<a: bool, b: <x, y, z>, c: bool>`, whose
span 6 is below `2^32`: the IDs `[1, 2, 6]` start at 1 and increase
strictly. -/
theorem fieldIDs_layout_witness :
    (exampleStruct.map (fun field => 1 + FieldIdImpl.getMaxFieldID field.type)).sum
        < UINT_SIZE
      ∧ (getFieldIDsStruct exampleStruct).2 = [1, 2, 6]
      ∧ List.Pairwise (fun a b => a < b) (getFieldIDsStruct exampleStruct).2 :=
  ⟨by decide, by decide, (fieldIDs_layout exampleStruct (by decide)).2.2.1⟩

/-! ## The lookups without wrap-around -/

theorem usub_eq_sub (a b : Nat) (hba : b ≤ a) (ha : a < UINT_SIZE) : usub a b = a - b := by
  unfold usub UINT_SIZE at *
  rw [Nat.mod_eq_of_lt (show b < 4294967296 by omega)]
  omega

theorem getIndexForFieldID_eq (es : List (FieldInfo Ty)) (hW : fieldSpan es < UINT_SIZE)
    (x k : Nat) (hk : k < es.length) (hlo : fieldSpan (es.take k) < x)
    (hhi : x ≤ fieldSpan (es.take (k + 1))) :
    StructType.getIndexForFieldID es x = some k := by
  unfold StructType.getIndexForFieldID
  have hne : es.isEmpty = false := by
    cases es with
    | nil => simp at hk
    | cons e rest => rfl
  rw [hne, upper_bound_fieldIDs es hW x k hk hlo hhi]
  rfl

theorem getIndexAndSubfieldID_eq (es : List (FieldInfo Ty)) (hW : fieldSpan es < UINT_SIZE)
    (x k : Nat) (hk : k < es.length) (hlo : fieldSpan (es.take k) < x)
    (hhi : x ≤ fieldSpan (es.take (k + 1))) :
    StructType.getIndexAndSubfieldID es x = some (k, x - (1 + fieldSpan (es.take k))) := by
  unfold StructType.getIndexAndSubfieldID
  rw [getIndexForFieldID_eq es hW x k hk hlo hhi]
  simp only []
  rw [getFieldID_exact es hW k hk]
  simp only []
  have := fieldSpan_take_le es (k + 1)
  rw [usub_eq_sub _ _ (by omega) (by omega)]

theorem getSubTypeByFieldID_eq (es : List (FieldInfo Ty)) (hW : fieldSpan es < UINT_SIZE)
    (x k : Nat) (fk : FieldInfo Ty) (hk : es[k]? = some fk) (hlo : fieldSpan (es.take k) < x)
    (hhi : x ≤ fieldSpan (es.take (k + 1))) :
    StructType.getSubTypeByFieldID es x =
      some (fk.type, x - (1 + fieldSpan (es.take k))) := by
  have hklt := lt_length_of_getElem? hk
  have hfid := getFieldID_exact es hW k hklt
  unfold StructType.getFieldID at hfid
  unfold StructType.getSubTypeByFieldID
  rw [if_neg (by omega)]
  simp only []
  rw [upper_bound_fieldIDs es hW x k hklt hlo hhi]
  simp only [Option.some_bind, prev, hk, hfid]
  have := fieldSpan_take_le es (k + 1)
  rw [usub_eq_sub _ _ (by omega) (by omega)]

/-- C1 (counterexample): in `<a: S, b: <x, y, z>>` with
`maxFieldID(S) = 2^32 - 2` the field IDs are `[1, 0]`; the ID of field 0 is 1, and
`getIndexAndSubfieldID` at 1 returns `(1, 1)` instead of `(0, 0)`. -/
theorem getIndexAndSubfieldID_roundtrip_wraps :
    StructType.getFieldID wrapStruct 0 = some 1 ∧
      StructType.getIndexAndSubfieldID wrapStruct 1 = some (1, 1) ∧
      StructType.getIndexAndSubfieldID wrapStruct 1 ≠ some (0, 0) := by
  have hidx : StructType.getIndexForFieldID wrapStruct 1 = some 1 := by
    unfold StructType.getIndexForFieldID
    rw [wrapStruct_fieldIDs]
    have hub : upper_bound [1, 0] 1 = some 2 := by decide
    rw [hub]
    rfl
  have h : StructType.getIndexAndSubfieldID wrapStruct 1 = some (1, 1) := by
    unfold StructType.getIndexAndSubfieldID
    rw [hidx]
    simp only []
    rw [wrapStruct_fieldID_1]
    simp [usub, UINT_SIZE]
  refine ⟨wrapStruct_fieldID_0, h, ?_⟩
  rw [h]
  decide

/-- C1 (amended): for every struct whose sum `Σ (1 + maxFieldID(field type))`
over the direct fields is below `2^32` and every direct field index `i`,
`getFieldID(T, i)` is defined and `getIndexAndSubfieldID` at that ID returns
exactly `(i, 0)`, whatever the types of the fields are. -/
theorem getIndexAndSubfieldID_getFieldID (es : List (FieldInfo Ty))
    (hW : (es.map (fun field => 1 + FieldIdImpl.getMaxFieldID field.type)).sum < UINT_SIZE)
    (i : Nat) (hi : i < es.length) :
    ∃ a, StructType.getFieldID es i = some a ∧
      StructType.getIndexAndSubfieldID es a = some (i, 0) := by
  have hW' : fieldSpan es < UINT_SIZE := hW
  obtain ⟨fi, hfi⟩ := getElem?_of_lt es i hi
  refine ⟨1 + fieldSpan (es.take i), getFieldID_exact es hW' i hi, ?_⟩
  have h := fieldSpan_take_succ es i fi hfi
  rw [getIndexAndSubfieldID_eq es hW' _ i hi (by omega) (by omega)]
  simp

/-- C1 (witness): the round trip at field `b` (index 1, a nested struct) of
`<a: bool, b: <x, y, z>, c: bool>`. -/
theorem getIndexAndSubfieldID_getFieldID_witness :
    (exampleStruct.map (fun field => 1 + FieldIdImpl.getMaxFieldID field.type)).sum
        < UINT_SIZE
      ∧ 1 < exampleStruct.length
      ∧ ∃ a, StructType.getFieldID exampleStruct 1 = some a ∧
          StructType.getIndexAndSubfieldID exampleStruct a = some (1, 0) :=
  ⟨by decide, by decide,
    getIndexAndSubfieldID_getFieldID exampleStruct (by decide) 1 (by decide)⟩

/-- C5 (counterexample): in `T = <a: S, b: <x, y, z>>` with
`maxFieldID(S) = 2^32 - 2` the field IDs are `[1, 0]` and `maxFieldID(T) = 3`.
The ID 1 is within `maxFieldID(T)`, field 0 is the only field with the greatest
field ID not above 1, yet `getSubTypeByFieldID` at 1 returns the type of
field 1 with remainder 1, not `(S, 0)`. -/
theorem getSubTypeByFieldID_on_wrap :
    1 ≤ StructType.getMaxFieldID wrapStruct
      ∧ StructType.getFieldID wrapStruct 0 = some 1
      ∧ (∀ j b, StructType.getFieldID wrapStruct j = some b → b ≤ 1 → b ≤ 1 ∧ (b = 1 → j = 0))
      ∧ StructType.getSubTypeByFieldID wrapStruct 1 = some (Ty.struct innerStruct, 1)
      ∧ StructType.getSubTypeByFieldID wrapStruct 1 ≠ some (nestedPair 30, 1 - 1) := by
  have h : StructType.getSubTypeByFieldID wrapStruct 1 = some (Ty.struct innerStruct, 1) := by
    unfold StructType.getSubTypeByFieldID
    rw [if_neg (by decide)]
    simp only []
    rw [wrapStruct_fieldIDs]
    have hub : upper_bound [1, 0] 1 = some 2 := by decide
    rw [hub]
    simp [prev, wrapStruct, usub, UINT_SIZE]
  refine ⟨?_, wrapStruct_fieldID_0, ?_, h, ?_⟩
  · rw [getMaxFieldID_eq, wrapStruct_span]
    simp [UINT_SIZE]
  · intro j b hj hb
    refine ⟨hb, fun hb1 => ?_⟩
    match j with
    | 0 => rfl
    | 1 =>
      rw [wrapStruct_fieldID_1] at hj
      simp only [Option.some.injEq] at hj
      omega
    | k + 2 =>
      rw [getFieldID_none wrapStruct (k + 2) (by simp [wrapStruct])] at hj
      exact Option.noConfusion hj
  · rw [h]
    simp

/-- Without wrap-around, the field whose range holds `x` has the greatest field
ID not above `x`, and no other field has that ID. -/
theorem greatest_fieldID (es : List (FieldInfo Ty)) (hW : fieldSpan es < UINT_SIZE)
    (x k : Nat) (hhi : x ≤ fieldSpan (es.take (k + 1)))
    (j b : Nat) (hj : StructType.getFieldID es j = some b) (hb : b ≤ x) :
    b ≤ 1 + fieldSpan (es.take k) ∧ (b = 1 + fieldSpan (es.take k) → j = k) := by
  have hjlt : j < es.length := by
    by_contra hcon
    rw [getFieldID_none es j (by omega)] at hj
    exact Option.noConfusion hj
  rw [getFieldID_exact es hW j hjlt] at hj
  simp only [Option.some.injEq] at hj
  have hjk : j ≤ k := by
    by_contra hcon
    have := fieldSpan_take_mono es (show k + 1 ≤ j by omega)
    omega
  have hmono := fieldSpan_take_mono es hjk
  refine ⟨by omega, fun hba => ?_⟩
  by_contra hne
  obtain ⟨fj, hfj⟩ := getElem?_of_lt es j hjlt
  have := fieldSpan_take_lt es fj hfj (show j < k by omega)
  omega

/-- C5 (amended): for every struct whose sum `Σ (1 + maxFieldID(field type))`
over the direct fields is below `2^32` and every `id ≤ maxFieldID(T)`,
`getSubTypeByFieldID(T, id)` returns `(T, 0)` when `id = 0`, and otherwise
returns `(type of field k, id − fieldID(T, k))` where `k` is the unique direct
field index with the greatest `fieldID(T, k) ≤ id`. -/
theorem getSubTypeByFieldID_spec (es : List (FieldInfo Ty))
    (hW : (es.map (fun field => 1 + FieldIdImpl.getMaxFieldID field.type)).sum < UINT_SIZE)
    (id : Nat) (hid : id ≤ StructType.getMaxFieldID es) :
    (id = 0 → StructType.getSubTypeByFieldID es id = some (Ty.struct es, 0))
      ∧ (id ≠ 0 → ∃ k fk a, es[k]? = some fk ∧ StructType.getFieldID es k = some a ∧ a ≤ id
          ∧ (∀ j b, StructType.getFieldID es j = some b → b ≤ id → b ≤ a ∧ (b = a → j = k))
          ∧ StructType.getSubTypeByFieldID es id = some (fk.type, id - a)) := by
  have hW' : fieldSpan es < UINT_SIZE := hW
  rw [getMaxFieldID_eq, Nat.mod_eq_of_lt hW'] at hid
  constructor
  · intro h0
    simp [StructType.getSubTypeByFieldID, h0]
  · intro hne
    obtain ⟨k, fk, hk, hlo, hhi⟩ := exists_field_of_id es id (by omega) hid
    exact ⟨k, fk, 1 + fieldSpan (es.take k), hk,
      getFieldID_exact es hW' k (lt_length_of_getElem? hk), by omega,
      greatest_fieldID es hW' id k hhi,
      getSubTypeByFieldID_eq es hW' id k fk hk hlo hhi⟩

/-- C5 (witness): in `<a: bool, b: <x, y, z>, c: bool>` the ID 4 is within the
maximum 6 and resolves to field `b` with remainder 2. -/
theorem getSubTypeByFieldID_spec_witness :
    (exampleStruct.map (fun field => 1 + FieldIdImpl.getMaxFieldID field.type)).sum
        < UINT_SIZE
      ∧ 4 ≤ StructType.getMaxFieldID exampleStruct
      ∧ StructType.getSubTypeByFieldID exampleStruct 4 = some (Ty.struct innerStruct, 2)
      ∧ ∃ k fk a, exampleStruct[k]? = some fk ∧ StructType.getFieldID exampleStruct k = some a
          ∧ a ≤ 4
          ∧ (∀ j b, StructType.getFieldID exampleStruct j = some b → b ≤ 4 →
              b ≤ a ∧ (b = a → j = k))
          ∧ StructType.getSubTypeByFieldID exampleStruct 4 = some (fk.type, 4 - a) :=
  ⟨by decide, by decide, rfl,
    (getSubTypeByFieldID_spec exampleStruct (by decide) 4 (by decide)).2 (by decide)⟩

/-- C7 (counterexample): `<a: bool>` has one field and `0 ≤ maxFieldID = 1`,
but at `id = 0` the search stops at the first position, stepping back is
undefined and `getIndexAndSubfieldID` has no result. And in
`<a: bool, b: S, c: <x, y, z>, d: bool>` with `maxFieldID(S) = 2^32 - 2` the field
IDs wrap around to `[1, 2, 1, 5]`, which is not partitioned with respect to the
ID 1 (between 1 and the maximum 5): the search is undefined there and
`getIndexAndSubfieldID` has no result. -/
theorem getIndexAndSubfieldID_zero_undefined :
    0 ≤ StructType.getMaxFieldID [(⟨"a", Ty.bool⟩ : FieldInfo Ty)]
      ∧ upper_bound (getFieldIDsStruct [(⟨"a", Ty.bool⟩ : FieldInfo Ty)]).2 0 = some 0
      ∧ StructType.getIndexForFieldID [(⟨"a", Ty.bool⟩ : FieldInfo Ty)] 0 = none
      ∧ StructType.getIndexAndSubfieldID [(⟨"a", Ty.bool⟩ : FieldInfo Ty)] 0 = none
      ∧ 1 ≤ StructType.getMaxFieldID unsortedStruct
      ∧ (getFieldIDsStruct unsortedStruct).2 = [1, 2, 1, 5]
      ∧ upper_bound (getFieldIDsStruct unsortedStruct).2 1 = none
      ∧ StructType.getIndexAndSubfieldID unsortedStruct 1 = none := by
  have hub : upper_bound (getFieldIDsStruct unsortedStruct).2 1 = none := by
    rw [unsortedStruct_fieldIDs]
    decide
  refine ⟨by decide, by decide, by decide, by decide, ?_, unsortedStruct_fieldIDs, hub, ?_⟩
  · rw [unsortedStruct_maxFieldID]
    decide
  · unfold StructType.getIndexAndSubfieldID StructType.getIndexForFieldID
    rw [hub]
    rfl

theorem wrapLastStruct_fieldID_1 : StructType.getFieldID wrapLastStruct 1 = some 2 := by
  rw [getFieldID_eq wrapLastStruct 1 (by decide)]
  simp only [wrapLastStruct, List.take_succ_cons, List.take_zero, fieldSpan_cons, fieldSpan_nil,
    getMaxFieldID_bool, UINT_SIZE]

theorem wrapLastStruct_span : fieldSpan wrapLastStruct = 4294967296 := by
  simp only [wrapLastStruct, fieldSpan_cons, fieldSpan_nil, getMaxFieldID_nestedPair_30,
    getMaxFieldID_bool]

/-- C6 (counterexample): in `<a: bool, b: S>` with `maxFieldID(S) = 2^32 - 2`,
field 1 has ID 2 and the ID 5 lies in `[2, 2 + maxFieldID(S)]`, yet
`projectToChildFieldID(T, 5, 1)` reports `inRange = false`: the struct's maximum
ID, the code's range end for the last field, has wrapped around to 0. -/
theorem projectToChildFieldID_on_wrap :
    StructType.getFieldID wrapLastStruct 1 = some 2
      ∧ (2 ≤ 5 ∧ 5 ≤ 2 + FieldIdImpl.getMaxFieldID (nestedPair 30))
      ∧ StructType.projectToChildFieldID wrapLastStruct 5 1 = some (3, false) := by
  refine ⟨wrapLastStruct_fieldID_1, ⟨by decide, ?_⟩, ?_⟩
  · rw [getMaxFieldID_nestedPair_30]; decide
  · have h := wrapLastStruct_fieldID_1
    unfold StructType.getFieldID at h
    unfold StructType.projectToChildFieldID
    simp only [h, getFieldIDsStruct_fst, wrapLastStruct_span]
    simp [wrapLastStruct, uadd, usub, UINT_SIZE]

/-- C6 (amended): for every struct with fewer than `2^32` fields, every child
index `k` below the number of fields and every 32-bit `id`,
`projectToChildFieldID(T, id, k)` returns `inRange = true` if and only if
`fieldID(T,k) ≤ id ≤ (fieldID(T,k) + maxFieldID(type of field k)) mod 2^32`;
that bound is the sum itself whenever `Σ (1 + maxFieldID(field type))` over the
direct fields is below `2^32`; and whenever `inRange` is true the returned
relative ID is `id − fieldID(T,k)`. -/
theorem projectToChildFieldID_spec (es : List (FieldInfo Ty)) (hn : es.length < UINT_SIZE)
    (k : Nat) (hk : k < es.length) (id : Nat) (hid : id < UINT_SIZE) :
    ∃ fk a rel inRange, es[k]? = some fk ∧ StructType.getFieldID es k = some a
      ∧ StructType.projectToChildFieldID es id k = some (rel, inRange)
      ∧ (inRange = true ↔
          a ≤ id ∧ id ≤ (a + FieldIdImpl.getMaxFieldID fk.type) % UINT_SIZE)
      ∧ (inRange = true → rel = id - a)
      ∧ ((es.map (fun field => 1 + FieldIdImpl.getMaxFieldID field.type)).sum < UINT_SIZE →
          (a + FieldIdImpl.getMaxFieldID fk.type) % UINT_SIZE
            = a + FieldIdImpl.getMaxFieldID fk.type) := by
  obtain ⟨fk, hfk⟩ := getElem?_of_lt es k hk
  have ha := getFieldID_eq es k hk
  have hsucc := fieldSpan_take_succ es k fk hfk
  have hk1 : uadd k 1 = k + 1 := Nat.mod_eq_of_lt (by omega)
  have halt : (1 + fieldSpan (es.take k)) % UINT_SIZE < UINT_SIZE := Nat.mod_lt _ (by decide)
  have hrel : ∀ inRange : Bool,
      (inRange = true ↔ (1 + fieldSpan (es.take k)) % UINT_SIZE ≤ id ∧
        id ≤ ((1 + fieldSpan (es.take k)) % UINT_SIZE
          + FieldIdImpl.getMaxFieldID fk.type) % UINT_SIZE) →
      inRange = true →
        usub id ((1 + fieldSpan (es.take k)) % UINT_SIZE)
          = id - (1 + fieldSpan (es.take k)) % UINT_SIZE := by
    intro inRange hiff hin
    exact usub_eq_sub _ _ (hiff.mp hin).1 hid
  have hexact : (es.map (fun field => 1 + FieldIdImpl.getMaxFieldID field.type)).sum
        < UINT_SIZE →
      ((1 + fieldSpan (es.take k)) % UINT_SIZE + FieldIdImpl.getMaxFieldID fk.type) % UINT_SIZE
        = (1 + fieldSpan (es.take k)) % UINT_SIZE + FieldIdImpl.getMaxFieldID fk.type := by
    intro hW
    have hW' : fieldSpan es < UINT_SIZE := hW
    have hle := fieldSpan_take_le es (k + 1)
    rw [Nat.mod_eq_of_lt (show 1 + fieldSpan (es.take k) < UINT_SIZE by omega)]
    exact Nat.mod_eq_of_lt (by omega)
  have ha' := ha
  unfold StructType.getFieldID at ha'
  by_cases hlast : k + 1 ≥ es.length
  · have hkn : k + 1 = es.length := by omega
    have hspan : fieldSpan es = fieldSpan (es.take k) + (1 + FieldIdImpl.getMaxFieldID fk.type) := by
      rw [← hsucc, hkn, fieldSpan_take_length]
    have hiff : (decide (id ≥ (1 + fieldSpan (es.take k)) % UINT_SIZE ∧
          id ≤ (getFieldIDsStruct es).1) = true ↔
        (1 + fieldSpan (es.take k)) % UINT_SIZE ≤ id ∧
          id ≤ ((1 + fieldSpan (es.take k)) % UINT_SIZE
            + FieldIdImpl.getMaxFieldID fk.type) % UINT_SIZE) := by
      rw [getFieldIDsStruct_fst, hspan, decide_eq_true_iff]
      simp only [UINT_SIZE]
      constructor <;> intro h <;> omega
    refine ⟨fk, _, _, _, hfk, ha, ?_, hiff, hrel _ hiff, hexact⟩
    unfold StructType.projectToChildFieldID
    simp only [ha', hk1]
    rw [if_pos hlast]
  · obtain ⟨fk1, hfk1⟩ := getElem?_of_lt es (k + 1) (by omega)
    have hnext := getFieldID_eq es (k + 1) (by omega)
    unfold StructType.getFieldID at hnext
    have hiff : (decide (id ≥ (1 + fieldSpan (es.take k)) % UINT_SIZE ∧
          id ≤ usub ((1 + fieldSpan (es.take (k + 1))) % UINT_SIZE) 1) = true ↔
        (1 + fieldSpan (es.take k)) % UINT_SIZE ≤ id ∧
          id ≤ ((1 + fieldSpan (es.take k)) % UINT_SIZE
            + FieldIdImpl.getMaxFieldID fk.type) % UINT_SIZE) := by
      rw [hsucc, decide_eq_true_iff]
      simp only [usub, UINT_SIZE]
      constructor <;> intro h <;> omega
    refine ⟨fk, _, _, _, hfk, ha, ?_, hiff, hrel _ hiff, hexact⟩
    unfold StructType.projectToChildFieldID
    simp only [ha', hk1, hnext]
    rw [if_neg hlast]

/-- C6 (witness): the projection of ID 4 to child 1 of
`<a: bool, b: <x, y, z>, c: bool>` is in range with relative ID 2. -/
theorem projectToChildFieldID_spec_witness :
    exampleStruct.length < UINT_SIZE ∧ 1 < exampleStruct.length ∧ 4 < UINT_SIZE
      ∧ StructType.projectToChildFieldID exampleStruct 4 1 = some (2, true)
      ∧ ∃ fk a rel inRange, exampleStruct[1]? = some fk
          ∧ StructType.getFieldID exampleStruct 1 = some a
          ∧ StructType.projectToChildFieldID exampleStruct 4 1 = some (rel, inRange)
          ∧ (inRange = true ↔
              a ≤ 4 ∧ 4 ≤ (a + FieldIdImpl.getMaxFieldID fk.type) % UINT_SIZE)
          ∧ (inRange = true → rel = 4 - a)
          ∧ ((exampleStruct.map
                (fun field => 1 + FieldIdImpl.getMaxFieldID field.type)).sum < UINT_SIZE →
              (a + FieldIdImpl.getMaxFieldID fk.type) % UINT_SIZE
                = a + FieldIdImpl.getMaxFieldID fk.type) :=
  ⟨by decide, by decide, by decide, by decide,
    projectToChildFieldID_spec exampleStruct (by decide) 1 (by decide) 4 (by decide)⟩

/-! ## Struct verification: the claim -/

/-- The state of the loop of `StructType::verify` after all the elements: the
set holds the names seen, the result is `success` exactly without a repeated
name, and there is one diagnostic for every field index whose name occurs among
the earlier fields, in field order. -/
theorem verifyStep_foldl (es : List (FieldInfo Ty)) :
    (∀ s, s ∈ (es.foldl StructType.verifyStep ⟨[], .success, []⟩).fieldNameSet ↔
        s ∈ es.map (fun e => e.name))
      ∧ ((es.foldl StructType.verifyStep ⟨[], .success, []⟩).result = .success ↔
          (es.map (fun e => e.name)).Nodup)
      ∧ (es.foldl StructType.verifyStep ⟨[], .success, []⟩).diagnostics =
          (List.range es.length).filterMap (fun i => (es[i]?).bind (fun e =>
            if e.name ∈ (es.take i).map (fun e => e.name)
            then some (duplicateFieldName e.name) else none)) := by
  induction es using List.reverseRecOn with
  | nil => simp
  | append_singleton l a ih =>
    obtain ⟨hset, hres, hdiag⟩ := ih
    have hcongr : (List.range l.length).filterMap (fun i => ((l ++ [a])[i]?).bind (fun e =>
          if e.name ∈ ((l ++ [a]).take i).map (fun e => e.name)
          then some (duplicateFieldName e.name) else none)) =
        (List.range l.length).filterMap (fun i => (l[i]?).bind (fun e =>
          if e.name ∈ (l.take i).map (fun e => e.name)
          then some (duplicateFieldName e.name) else none)) := by
      apply List.filterMap_congr
      intro i hi
      rw [List.mem_range] at hi
      rw [List.getElem?_append_left hi, List.take_append_of_le_length (le_of_lt hi)]
    have hlast : ((l ++ [a])[l.length]?).bind (fun e =>
          if e.name ∈ ((l ++ [a]).take l.length).map (fun e => e.name)
          then some (duplicateFieldName e.name) else none) =
        if a.name ∈ l.map (fun e => e.name) then some (duplicateFieldName a.name) else none := by
      rw [List.getElem?_append_right (le_refl _), List.take_append_of_le_length (le_refl _),
        List.take_length]
      simp
    rw [List.foldl_append, List.length_append, List.length_singleton, List.range_succ,
      List.filterMap_append, hcongr, ← hdiag]
    simp only [List.foldl_cons, List.foldl_nil, List.filterMap_cons, List.filterMap_nil, hlast]
    generalize l.foldl StructType.verifyStep ⟨[], .success, []⟩ = st at hset hres ⊢
    unfold StructType.verifyStep
    by_cases hmem : a.name ∈ l.map (fun e => e.name)
    · have hmem' := (hset a.name).mpr hmem
      rw [if_pos hmem', if_pos hmem]
      refine ⟨?_, ?_, rfl⟩
      · intro s
        rw [hset s, List.map_append, List.mem_append]
        constructor
        · exact Or.inl
        · rintro (h | h)
          · exact h
          · simp only [List.map_cons, List.map_nil, List.mem_singleton] at h
            rw [h]; exact hmem
      · constructor
        · intro h; exact LogicalResult.noConfusion h
        · intro h
          rw [List.map_append, List.nodup_append] at h
          exact absurd (List.mem_singleton.mpr rfl) (fun hs => h.2.2 hmem hs)
    · have hmem' : a.name ∉ st.fieldNameSet := fun h => hmem ((hset a.name).mp h)
      rw [if_neg hmem', if_neg hmem]
      refine ⟨?_, ?_, by simp⟩
      · intro s
        simp only [List.mem_cons, hset s, List.map_append, List.mem_append, List.map_cons,
          List.map_nil, List.mem_singleton]
        tauto
      · simp only [hres, List.map_append, List.map_cons, List.map_nil]
        rw [List.nodup_append]
        constructor
        · intro h
          refine ⟨h, List.nodup_singleton _, ?_⟩
          intro s hs hs'
          rw [List.mem_singleton] at hs'
          rw [hs'] at hs
          exact hmem hs
        · intro h; exact h.1

/-- C8: for every list of fields, `StructType::verify` succeeds if and only if
the field names are pairwise distinct; it emits exactly one
`duplicate field name` diagnostic, naming the field, for every field whose name
already occurred earlier in the list, in field order; `[(a, bool), (a, bit<8>)]`
fails naming `a` and `[(a, bool), (b, bit<8>)]` succeeds, and in
`a, b, a, c, b, a` each of the three repeated occurrences is reported. -/
theorem StructType_verify_spec (es : List (FieldInfo Ty)) :
    ((StructType.verify es).1 = .success ↔ (es.map (fun e => e.name)).Nodup)
      ∧ ((StructType.verify es).1 = .failure ↔ ¬ (es.map (fun e => e.name)).Nodup)
      ∧ (StructType.verify es).2 =
          (List.range es.length).filterMap (fun i => (es[i]?).bind (fun e =>
            if e.name ∈ (es.take i).map (fun e => e.name)
            then some (duplicateFieldName e.name) else none))
      ∧ StructType.verify [⟨"a", .bool⟩, ⟨"a", .bits 8 false⟩] =
          (.failure, ["duplicate field name 'a' in hw.struct type"])
      ∧ StructType.verify [⟨"a", .bool⟩, ⟨"b", .bits 8 false⟩] = (.success, [])
      ∧ StructType.verify (boolFields ["a", "b", "a", "c", "b", "a"]) =
          (.failure, ["duplicate field name 'a' in hw.struct type",
            "duplicate field name 'b' in hw.struct type",
            "duplicate field name 'a' in hw.struct type"]) := by
  obtain ⟨_, hres, hdiag⟩ := verifyStep_foldl es
  refine ⟨hres, ?_, hdiag, by decide, by decide, by decide⟩
  rw [← hres]
  show (StructType.verify es).1 = .failure ↔ ¬ (StructType.verify es).1 = .success
  cases (StructType.verify es).1 <;> simp

/-! ## Operation verifiers: the claims -/

/-- C9: for all `Bits` operand types and `Bits` result type with
`lhs.width + rhs.width < 2^32`, `ConcatOp::verify` is defined and succeeds if and
only if `result.width = lhs.width + rhs.width` and
`result.signed = lhs.signed`, whatever the signedness of `rhs`; otherwise it
fails with one diagnostic. So `bit<4>` with `bit<8>` verifies for `bit<12>` and
fails for `int<12>` and for `bit<11>`. -/
theorem ConcatOp_verify_spec (lhsWidth rhsWidth resultWidth : Nat)
    (lhsSigned rhsSigned resultSigned : Bool) (hsum : lhsWidth + rhsWidth < UINT_SIZE) :
    (ConcatOp.verify (.bits lhsWidth lhsSigned) (.bits rhsWidth rhsSigned)
          (.bits resultWidth resultSigned) = some success ↔
        resultWidth = lhsWidth + rhsWidth ∧ resultSigned = lhsSigned)
      ∧ (∃ result diagnostics,
          ConcatOp.verify (.bits lhsWidth lhsSigned) (.bits rhsWidth rhsSigned)
            (.bits resultWidth resultSigned) = some (result, diagnostics)
          ∧ (result = .success ↔
              resultWidth = lhsWidth + rhsWidth ∧ resultSigned = lhsSigned)
          ∧ (result = .failure → diagnostics.length = 1))
      ∧ ConcatOp.verify (.bits lhsWidth lhsSigned) (.bits rhsWidth rhsSigned)
          (.bits resultWidth resultSigned) =
        ConcatOp.verify (.bits lhsWidth lhsSigned) (.bits rhsWidth (!rhsSigned))
          (.bits resultWidth resultSigned)
      ∧ ConcatOp.verify (.bits 4 false) (.bits 8 false) (.bits 12 false) = some success
      ∧ (ConcatOp.verify (.bits 4 false) (.bits 8 false) (.bits 12 true)).map (fun r => r.1)
          = some .failure
      ∧ (ConcatOp.verify (.bits 4 false) (.bits 8 false) (.bits 11 false)).map (fun r => r.1)
          = some .failure := by
  have hexp : uadd lhsWidth rhsWidth = lhsWidth + rhsWidth := Nat.mod_eq_of_lt hsum
  refine ⟨?_, ?_, rfl, by decide, by decide, by decide⟩
  · simp only [ConcatOp.verify, hexp]
    by_cases hw : resultWidth = lhsWidth + rhsWidth
    · by_cases hs : resultSigned = lhsSigned
      · simp [hw, hs]
      · simp [hw, hs, emitOpError, success]
    · simp [hw, emitOpError, success]
  · simp only [ConcatOp.verify, hexp, emitOpError, success]
    by_cases hw : resultWidth = lhsWidth + rhsWidth
    · by_cases hs : resultSigned = lhsSigned
      · rw [if_neg (by simpa using hw), if_neg (by simpa using hs)]
        exact ⟨_, _, rfl, by simp [hw, hs], by simp⟩
      · rw [if_neg (by simpa using hw), if_pos (by simpa using hs)]
        exact ⟨_, _, rfl, by simp [hs], by simp⟩
    · rw [if_pos (by simpa using hw)]
      exact ⟨_, _, rfl, by simp [hw], by simp⟩

/-- C9 (witness): `bit<4>` concatenated with `bit<8>`, of width sum 12 below
`2^32`, verifies for the result `bit<12>`. -/
theorem ConcatOp_verify_spec_witness :
    4 + 8 < UINT_SIZE ∧
      (ConcatOp.verify (.bits 4 false) (.bits 8 false) (.bits 12 false) = some success ↔
        12 = 4 + 8 ∧ false = false) :=
  ⟨by decide, (ConcatOp_verify_spec 4 8 12 false false false (by decide)).1⟩

/-- C10: for `ShlOp` and `ShrOp`, verification fails, with the
`must be unsigned` diagnostic, if and only if the type of the shift amount
(operand 1) is a `Bits` type with `signed = true`; it succeeds for an unsigned
`Bits` or an `InfInt` amount; and the outcome is the same for every type of the
shifted value and of the result. -/
theorem shift_verify_spec (operand0 operand1 result : Ty) :
    ((ShlOp.verify operand0 operand1 result).1 = .failure ↔ ∃ width, operand1 = .bits width true)
      ∧ ((ShrOp.verify operand0 operand1 result).1 = .failure ↔
          ∃ width, operand1 = .bits width true)
      ∧ ((∃ width, operand1 = .bits width true) →
          ShlOp.verify operand0 operand1 result =
              (.failure,
                ["the right-hand side operand of an arithmetic shift must be unsigned"])
            ∧ ShrOp.verify operand0 operand1 result =
              (.failure,
                ["the right-hand side operand of an arithmetic shift must be unsigned"]))
      ∧ ((¬ ∃ width, operand1 = .bits width true) →
          ShlOp.verify operand0 operand1 result = (.success, [])
            ∧ ShrOp.verify operand0 operand1 result = (.success, []))
      ∧ (∀ width, ShlOp.verify operand0 (.bits width false) result = (.success, [])
          ∧ ShrOp.verify operand0 (.bits width false) result = (.success, []))
      ∧ (ShlOp.verify operand0 .infint result = (.success, [])
          ∧ ShrOp.verify operand0 .infint result = (.success, []))
      ∧ (∀ operand0' result',
          ShlOp.verify operand0' operand1 result' = ShlOp.verify operand0 operand1 result
            ∧ ShrOp.verify operand0' operand1 result' = ShrOp.verify operand0 operand1 result) := by
  have key : (∃ width, operand1 = Ty.bits width true) ∨
      ((¬ ∃ width, operand1 = Ty.bits width true) ∧
        ∀ r, verifyArithmeticShiftOperation operand1 r = (.success, [])) := by
    cases operand1 with
    | bits w s =>
      cases s with
      | true => exact Or.inl ⟨w, rfl⟩
      | false =>
        refine Or.inr ⟨?_, fun r => rfl⟩
        rintro ⟨w', h⟩
        cases h
    | bool => exact Or.inr ⟨(by rintro ⟨w', h⟩; cases h), fun r => rfl⟩
    | infint => exact Or.inr ⟨(by rintro ⟨w', h⟩; cases h), fun r => rfl⟩
    | void => exact Or.inr ⟨(by rintro ⟨w', h⟩; cases h), fun r => rfl⟩
    | struct es => exact Or.inr ⟨(by rintro ⟨w', h⟩; cases h), fun r => rfl⟩
    | func i o => exact Or.inr ⟨(by rintro ⟨w', h⟩; cases h), fun r => rfl⟩
  refine ⟨?_, ?_, ?_, ?_, fun w => ⟨rfl, rfl⟩, ⟨rfl, rfl⟩, fun _ _ => ⟨rfl, rfl⟩⟩
  · rcases key with ⟨w, rfl⟩ | ⟨hn, hs⟩
    · exact ⟨fun _ => ⟨w, rfl⟩, fun _ => rfl⟩
    · simp only [ShlOp.verify, hs, hn, iff_false]
      exact fun h => LogicalResult.noConfusion h
  · rcases key with ⟨w, rfl⟩ | ⟨hn, hs⟩
    · exact ⟨fun _ => ⟨w, rfl⟩, fun _ => rfl⟩
    · simp only [ShrOp.verify, hs, hn, iff_false]
      exact fun h => LogicalResult.noConfusion h
  · rintro ⟨w, rfl⟩
    exact ⟨rfl, rfl⟩
  · intro hn
    rcases key with h | ⟨_, hs⟩
    · exact absurd h hn
    · exact ⟨hs result, hs result⟩

/-! ## Function types: the claims -/

/-- C18: for every `FuncType` whose stored return type is absent or not `Void`,
in either build mode, `isVoid()` is defined and true exactly when the stored
return type is absent; `getReturnType()` is `Void` when `isVoid()` and the
stored type otherwise, so it is never absent and is `Void` if and only if
`isVoid()`; and `getReturnTypes()` is the empty list when `isVoid()` and the
one-element list of the stored type otherwise. -/
theorem FuncType_accessors (NDEBUG : Bool) (ft : FuncType)
    (hinv : ft.optionalReturnType ≠ some Ty.void) :
    (ft.isVoid NDEBUG = some true ↔ ft.optionalReturnType = none)
      ∧ (ft.isVoid NDEBUG = some false ↔ ft.optionalReturnType ≠ none)
      ∧ (ft.optionalReturnType = none → ft.getReturnType NDEBUG = some Ty.void)
      ∧ (∀ rt, ft.optionalReturnType = some rt → ft.getReturnType NDEBUG = some rt)
      ∧ ft.getReturnType NDEBUG ≠ none
      ∧ (ft.getReturnType NDEBUG = some Ty.void ↔ ft.isVoid NDEBUG = some true)
      ∧ (ft.optionalReturnType = none → ft.getReturnTypes NDEBUG = some [])
      ∧ (∀ rt, ft.optionalReturnType = some rt → ft.getReturnTypes NDEBUG = some [rt]) := by
  obtain ⟨inputs, stored⟩ := ft
  cases stored with
  | none => simp [FuncType.isVoid, FuncType.getReturnType, FuncType.getReturnTypes]
  | some rt =>
    have hrt : rt ≠ Ty.void := fun h => hinv (by rw [h])
    simp [FuncType.isVoid, FuncType.getReturnType, FuncType.getReturnTypes, hrt]

/-- C18 (witness): the function type `bit<16> ()` stores a non-`Void` return
type; it is not void and its return type is `bit<16>`. -/
theorem FuncType_accessors_witness :
    (⟨[], some (Ty.bits 16 false)⟩ : FuncType).optionalReturnType ≠ some Ty.void
      ∧ (⟨[], some (Ty.bits 16 false)⟩ : FuncType).isVoid false = some false
      ∧ (⟨[], some (Ty.bits 16 false)⟩ : FuncType).getReturnType false
          = some (Ty.bits 16 false) :=
  ⟨by decide, by decide,
    (FuncType_accessors false ⟨[], some (Ty.bits 16 false)⟩ (by decide)).2.2.2.1 _ rfl⟩

/-- C17 (counterexample): with assertions compiled in, `FuncOp::verifyType` on a
function `@f` whose type `!p4hir.void ()` stores an explicit `Void` return type
has no result: the `assert` of `FuncType::isVoid`, reached through
`getReturnTypes`, stops the program before the check, and the
`should be empty instead of an explicit !p4hir.void` error is not emitted. -/
theorem FuncOp_verifyType_aborts_on_void :
    (⟨[], some Ty.void⟩ : FuncType).isVoid false = none
      ∧ FuncOp.verifyType false ⟨"f", ⟨[], some Ty.void⟩, false⟩ = none
      ∧ FuncOp.verifyType false ⟨"f", ⟨[], some Ty.void⟩, false⟩ ≠
          some (.failure, ["The return type for a function returning void should " ++
            "be empty instead of an explicit !p4hir.void"]) := by
  decide

/-- C17 (amended): on a function type that stores an explicit `Void` return
type, `FuncOp::verifyType` fails with the
`should be empty instead of an explicit !p4hir.void` error in a build without
assertions (`NDEBUG`), and has no result when assertions are compiled in (the
`assert` of `FuncType::isVoid`, reached through `getReturnTypes`, fails before
the check); it succeeds, in either build mode, for every function type whose
stored return type is absent or not `Void`. -/
theorem FuncOp_verifyType_explicit_void (symName : String) (inputs : List Ty) (action : Bool) :
    FuncOp.verifyType false ⟨symName, ⟨inputs, some Ty.void⟩, action⟩ = none
      ∧ FuncOp.verifyType true ⟨symName, ⟨inputs, some Ty.void⟩, action⟩ =
          some (.failure, ["The return type for a function returning void should " ++
            "be empty instead of an explicit !p4hir.void"])
      ∧ (∀ NDEBUG, FuncOp.verifyType NDEBUG ⟨symName, ⟨inputs, none⟩, action⟩ =
          some (.success, []))
      ∧ (∀ NDEBUG rt, rt ≠ Ty.void →
          FuncOp.verifyType NDEBUG ⟨symName, ⟨inputs, some rt⟩, action⟩ =
            some (.success, [])) := by
  refine ⟨rfl, rfl, fun _ => rfl, ?_⟩
  intro NDEBUG rt hrt
  simp [FuncOp.verifyType, FuncType.getReturnTypes, FuncType.isVoid, hrt, success]

/-- C16: a `FuncOp` with the `action` flag set and a non-`Void` stored return
type passes both `FuncOp::verifyType` and `FuncOp::verify`, in either build
mode, whereas the check of `FuncOp::parse` rejects an action with a result
type. -/
theorem FuncOp_verify_action_with_result (NDEBUG : Bool) (symName : String)
    (inputs : List Ty) :
    (∀ rt, rt ≠ Ty.void →
        FuncOp.verifyType NDEBUG ⟨symName, ⟨inputs, some rt⟩, true⟩ = some (.success, [])
          ∧ FuncOp.verify ⟨symName, ⟨inputs, some rt⟩, true⟩ = (.success, []))
      ∧ FuncOp.verifyType NDEBUG ⟨symName, ⟨inputs, some (Ty.bits 8 false)⟩, true⟩
          = some (.success, [])
      ∧ (∀ rt, FuncOp.parseResultTypes true [rt] =
          (.failure, ["actions should not produce any results"])) := by
  refine ⟨?_, by simp [FuncOp.verifyType, FuncType.getReturnTypes, FuncType.isVoid, success],
    fun _ => rfl⟩
  intro rt hrt
  exact ⟨by simp [FuncOp.verifyType, FuncType.getReturnTypes, FuncType.isVoid, hrt, success],
    rfl⟩

/-! ## Constant and return verifiers: the claims -/

/-- C11: for every result type and attribute, `checkConstantTypes` (which is
`ConstOp::verify`) succeeds if and only if the attribute is a `BoolAttr` and
the result type is `Bool`, or the attribute is an `IntAttr` and the result type
is `Bits` or `InfInt`; for any other typed attribute it fails with the
`constant with type ... not supported` error carrying the attribute's own
declared type; only an attribute without a type, which the `assert` excludes,
has no result. -/
theorem checkConstantTypes_spec (opType : Ty) (attrType : Attribute) :
    ((checkConstantTypes opType attrType).map (fun r => r.1) = some .success ↔
        ((∃ value, attrType = .boolAttr value) ∧ opType = Ty.bool) ∨
        ((∃ type value, attrType = .intAttr type value) ∧
          ((∃ width isSigned, opType = Ty.bits width isSigned) ∨ opType = Ty.infint)))
      ∧ (∀ type, checkConstantTypes opType (.typed type) =
          some (.failure,
            [[.string "constant with type ", .type type, .string " not supported"]]))
      ∧ (checkConstantTypes opType attrType = none ↔ attrType = .untyped)
      ∧ ConstOp.verify opType attrType = checkConstantTypes opType attrType := by
  refine ⟨?_, fun _ => rfl, ?_, rfl⟩
  · cases attrType <;> cases opType <;> simp [checkConstantTypes, emitOpErrorArgs]
  · cases attrType <;> cases opType <;> simp [checkConstantTypes, emitOpErrorArgs]

theorem enclosingFuncOp_append (inner outer : List Operation) (fn : FuncOp) (body : Region)
    (hinner : ∀ op ∈ inner, ∀ fn' body', op ≠ Operation.funcOp fn' body') :
    enclosingFuncOp (inner ++ Operation.funcOp fn body :: outer) = some fn := by
  induction inner with
  | nil => rfl
  | cons op rest ih =>
    have hrest : ∀ op ∈ rest, ∀ fn' body', op ≠ Operation.funcOp fn' body' :=
      fun o ho => hinner o (List.mem_cons_of_mem _ ho)
    have hop := hinner op (List.mem_cons_self _ _)
    cases op with
    | funcOp fn' body' => exact absurd rfl (hop fn' body')
    | yieldOp _ => exact ih hrest
    | returnOp _ => exact ih hrest
    | op _ _ _ _ => exact ih hrest

/-- C12: for every `Return` whose chain of parents reaches a `FuncOp` after any
number of other operations, in either build mode, `ReturnOp::verify` succeeds if
and only if there is at most one operand and the actual type (the operand's
type, or `Void` without operand) equals `getReturnType()` of that function's
type; on a mismatch the diagnostic carries the actual and the expected type,
as when a `bit<32>` value is returned from a function returning `bit<16>`. -/
theorem ReturnOp_verify_spec (NDEBUG : Bool) (inner outer : List Operation) (fn : FuncOp)
    (body : Region) (operands : List Ty)
    (hinner : ∀ op ∈ inner, ∀ fn' body', op ≠ Operation.funcOp fn' body') :
    ((ReturnOp.verify NDEBUG (inner ++ Operation.funcOp fn body :: outer) operands).map
          (fun r => r.1) = some .success ↔
        operands.length ≤ 1 ∧
          fn.functionType.getReturnType NDEBUG = some (operands.headD Ty.void))
      ∧ (1 < operands.length →
          ReturnOp.verify NDEBUG (inner ++ Operation.funcOp fn body :: outer) operands =
            some (.failure, [[.string "expects at most 1 return operand"]]))
      ∧ (∀ expectedTy, operands.length ≤ 1 →
          fn.functionType.getReturnType NDEBUG = some expectedTy →
          operands.headD Ty.void ≠ expectedTy →
          ReturnOp.verify NDEBUG (inner ++ Operation.funcOp fn body :: outer) operands =
            some (.failure, [[.string "returns ", .type (operands.headD Ty.void),
              .string " but enclosing function returns ", .type expectedTy]]))
      ∧ ReturnOp.verify NDEBUG
          [Operation.funcOp ⟨"f", ⟨[], some (Ty.bits 16 false)⟩, false⟩ []]
          [Ty.bits 32 false] =
        some (.failure, [[.string "returns ", .type (Ty.bits 32 false),
          .string " but enclosing function returns ", .type (Ty.bits 16 false)]]) := by
  have henc := enclosingFuncOp_append inner outer fn body hinner
  have hhead : (match operands with | [] => Ty.void | operand0 :: _ => operand0)
      = operands.headD Ty.void := by cases operands <;> rfl
  refine ⟨?_, ?_, ?_, ?_⟩
  · simp only [ReturnOp.verify, henc, hhead]
    generalize operands.headD Ty.void = actualTy
    by_cases hlen : operands.length > 1
    · have hlen' : ¬ operands.length ≤ 1 := by omega
      simp [hlen, hlen', emitOpErrorArgs]
    · have hlen' : operands.length ≤ 1 := by omega
      cases hret : fn.functionType.getReturnType NDEBUG with
      | none => simp [hlen]
      | some expectedTy =>
        by_cases heq : actualTy = expectedTy
        · simp [hlen, hlen', heq]
        · have heq' : ¬ expectedTy = actualTy := fun h => heq h.symm
          simp [hlen, hlen', heq, heq', emitOpErrorArgs]
  · intro hlen
    simp [ReturnOp.verify, henc, hlen, emitOpErrorArgs]
  · intro expectedTy hlen hret hne
    have hlen' : ¬ operands.length > 1 := by omega
    simp only [ReturnOp.verify, henc, hhead, hret]
    generalize operands.headD Ty.void = actualTy at hne
    simp [hlen', hne, emitOpErrorArgs]
  · cases NDEBUG <;> rfl

/-- C12 (witness): a `Return` of a `bit<16>` value inside an `if` inside a scope
inside a function returning `bit<16>` verifies. -/
theorem ReturnOp_verify_spec_witness :
    (∀ op ∈ [Operation.op .ifOp [Ty.bool] [] [], Operation.op .scopeOp [] [] []],
        ∀ fn' body', op ≠ Operation.funcOp fn' body')
      ∧ ((ReturnOp.verify false
            ([Operation.op .ifOp [Ty.bool] [] [], Operation.op .scopeOp [] [] []] ++
              Operation.funcOp ⟨"f", ⟨[], some (Ty.bits 16 false)⟩, false⟩ [] :: [])
            [Ty.bits 16 false]).map (fun r => r.1) = some .success ↔
          [Ty.bits 16 false].length ≤ 1 ∧
            (⟨[], some (Ty.bits 16 false)⟩ : FuncType).getReturnType false
              = some ([Ty.bits 16 false].headD Ty.void)) :=
  ⟨by simp,
    (ReturnOp_verify_spec false [Operation.op .ifOp [Ty.bool] [] [],
      Operation.op .scopeOp [] [] []] [] ⟨"f", ⟨[], some (Ty.bits 16 false)⟩, false⟩ []
      [Ty.bits 16 false] (by simp)).1⟩

/-- C13 (counterexample): in a void function a `Return` whose single operand has
type `Void` verifies, in either build mode: the actual type `Void` equals the
`Void` that `getReturnType()` synthesizes. -/
theorem ReturnOp_verify_void_operand :
    (⟨[], none⟩ : FuncType).isVoid false = some true
      ∧ ReturnOp.verify false [Operation.funcOp ⟨"f", ⟨[], none⟩, false⟩ []] [Ty.void]
          = some (.success, [])
      ∧ ReturnOp.verify true [Operation.funcOp ⟨"f", ⟨[], none⟩, false⟩ []] [Ty.void]
          = some (.success, []) := by
  refine ⟨rfl, rfl, rfl⟩

/-- C13 (amended): in a void function (no stored return type), in either build
mode, `ReturnOp::verify` succeeds for a `Return` with no operand, fails for a
`Return` with one operand of any type other than `Void` and for a `Return` with
more than one operand, and succeeds for a `Return` whose single operand has
type `Void`. -/
theorem ReturnOp_verify_in_void_function (NDEBUG : Bool) (inner outer : List Operation)
    (symName : String) (inputs : List Ty) (action : Bool) (body : Region)
    (hinner : ∀ op ∈ inner, ∀ fn' body', op ≠ Operation.funcOp fn' body') :
    ReturnOp.verify NDEBUG
        (inner ++ Operation.funcOp ⟨symName, ⟨inputs, none⟩, action⟩ body :: outer) []
        = some (.success, [])
      ∧ (∀ operandTy, operandTy ≠ Ty.void →
          ReturnOp.verify NDEBUG
            (inner ++ Operation.funcOp ⟨symName, ⟨inputs, none⟩, action⟩ body :: outer)
            [operandTy] =
          some (.failure, [[.string "returns ", .type operandTy,
            .string " but enclosing function returns ", .type Ty.void]]))
      ∧ (∀ operands, 1 < operands.length →
          ReturnOp.verify NDEBUG
            (inner ++ Operation.funcOp ⟨symName, ⟨inputs, none⟩, action⟩ body :: outer)
            operands =
          some (.failure, [[.string "expects at most 1 return operand"]]))
      ∧ ReturnOp.verify NDEBUG
          (inner ++ Operation.funcOp ⟨symName, ⟨inputs, none⟩, action⟩ body :: outer)
          [Ty.void] = some (.success, []) := by
  have henc := enclosingFuncOp_append inner outer
    ⟨symName, ⟨inputs, none⟩, action⟩ body hinner
  refine ⟨?_, ?_, ?_, ?_⟩
  · simp [ReturnOp.verify, henc, FuncType.getReturnType, FuncType.isVoid]
  · intro operandTy hne
    simp [ReturnOp.verify, henc, FuncType.getReturnType, FuncType.isVoid, hne, emitOpErrorArgs]
  · intro operands hlen
    simp [ReturnOp.verify, henc, hlen, emitOpErrorArgs]
  · simp [ReturnOp.verify, henc, FuncType.getReturnType, FuncType.isVoid]

/-- C13 (witness): inside an `if` in the void function `f`, a `Return` without
operand verifies. -/
theorem ReturnOp_verify_in_void_function_witness :
    (∀ op ∈ [Operation.op .ifOp [Ty.bool] [] []],
        ∀ fn' body', op ≠ Operation.funcOp fn' body')
      ∧ ReturnOp.verify false
          ([Operation.op .ifOp [Ty.bool] [] []] ++
            Operation.funcOp ⟨"f", ⟨[], none⟩, false⟩ [] :: []) []
          = some (.success, []) :=
  ⟨by simp,
    (ReturnOp_verify_in_void_function false [Operation.op .ifOp [Ty.bool] [] []] [] "f" []
      false [] (by simp)).1⟩

/-! ## Call verifier: the claim -/

theorem operandMismatch_none (inputs operands : List Ty) (i : Nat)
    (hlen : inputs.length = operands.length) :
    operandMismatch inputs operands i = none ↔ operands = inputs := by
  induction inputs generalizing operands i with
  | nil =>
    cases operands with
    | nil => simp [operandMismatch]
    | cons o os => simp at hlen
  | cons input rest ih =>
    cases operands with
    | nil => simp at hlen
    | cons o os =>
      have hlen' : rest.length = os.length := by simpa using hlen
      by_cases ho : o = input
      · simp [operandMismatch, ho, ih os (i + 1) hlen']
      · simp [operandMismatch, ho]

theorem operandMismatch_some_le (inputs operands : List Ty) (i j : Nat) (expected provided : Ty)
    (h : operandMismatch inputs operands i = some (j, expected, provided)) :
    i ≤ j ∧ inputs[j - i]? = some expected ∧ operands[j - i]? = some provided ∧
      provided ≠ expected ∧ ∀ k, k < j - i → operands[k]? = inputs[k]? := by
  induction inputs generalizing operands i with
  | nil => simp [operandMismatch] at h
  | cons input rest ih =>
    cases operands with
    | nil => simp [operandMismatch] at h
    | cons o os =>
      by_cases ho : o = input
      · simp only [operandMismatch, ho, ne_eq, not_true_eq_false, if_false] at h
        obtain ⟨h1, h2, h3, h4, h5⟩ := ih os (i + 1) h
        have hji : j - i = (j - (i + 1)) + 1 := by omega
        refine ⟨by omega, ?_, ?_, h4, ?_⟩
        · rw [hji]; simpa using h2
        · rw [hji]; simpa using h3
        · intro k hk
          cases k with
          | zero => simp [ho]
          | succ k' =>
            simp only [List.getElem?_cons_succ]
            exact h5 k' (by omega)
      · simp only [operandMismatch, ho, ne_eq, not_false_eq_true, if_true, Option.some.injEq,
          Prod.mk.injEq] at h
        obtain ⟨hj, he, hp⟩ := h
        subst hj he hp
        simp [ho]
/-- With as many operands as inputs the loop of `CallOp::verifySymbolUses` reads
within bounds from every position on, and finds the first mismatch. -/
theorem operandLoop_drop (inputs operands : List Ty) (turns i : Nat)
    (hlen : inputs.length = operands.length) (hi : i + turns = inputs.length) :
    operandLoop inputs operands turns i =
      some (operandMismatch (inputs.drop i) (operands.drop i) i) := by
  induction turns generalizing i with
  | zero =>
    rw [List.drop_of_length_le (by omega), List.drop_of_length_le (by omega)]
    rfl
  | succ turns ih =>
    have hin : i < inputs.length := by omega
    have hop : i < operands.length := by omega
    rw [List.drop_eq_getElem_cons hin, List.drop_eq_getElem_cons hop]
    unfold operandLoop operandMismatch
    rw [List.getElem?_eq_getElem hin, List.getElem?_eq_getElem hop]
    simp only []
    by_cases hne : operands[i] ≠ inputs[i]
    · rw [if_pos hne, if_pos hne]
    · rw [if_neg hne, if_neg hne]
      exact ih (i + 1) (by omega)

theorem operandLoop_eq (inputs operands : List Ty) (hlen : inputs.length = operands.length) :
    operandLoop inputs operands inputs.length 0 = some (operandMismatch inputs operands 0) :=
  operandLoop_drop inputs operands inputs.length 0 hlen (by omega)

theorem getElem?_eq_iff (xs ys : List Ty) : (∀ i : Nat, xs[i]? = ys[i]?) ↔ xs = ys :=
  ⟨List.ext_getElem?, fun h i => by rw [h]⟩

/-- C14: in either build mode, `CallOp::verifySymbolUses` succeeds if and only
if the callee symbol resolves to a `FuncOp`, the number of operands equals the
number of callee inputs, each operand type equals the input type at the same
position, an action callee comes with 0 results, a void callee type comes with 0
results, and a non-void callee type comes with exactly 1 result whose type
equals the callee's return type. So a call with one operand to a two-input
function fails, and so does a call with a result to a void or to an action
callee. -/
theorem CallOp_verifySymbolUses_spec (NDEBUG : Bool) (symbolTable : String → Option Operation)
    (callee : Option String) (operands resultTypes : List Ty) :
    ((CallOp.verifySymbolUses NDEBUG symbolTable callee operands resultTypes).map
          (fun r => r.1) = some .success ↔
        ∃ fnAttr fn, callee = some fnAttr ∧
          lookupNearestSymbolFrom symbolTable fnAttr = some fn
          ∧ operands.length = fn.functionType.inputs.length
          ∧ (∀ i : Nat, operands[i]? = fn.functionType.inputs[i]?)
          ∧ (fn.action = true → resultTypes = [])
          ∧ ((fn.functionType.isVoid NDEBUG = some true ∧ resultTypes = []) ∨
              (fn.functionType.isVoid NDEBUG = some false ∧
                ∃ rt, resultTypes = [rt] ∧ fn.functionType.getReturnType NDEBUG = some rt)))
      ∧ (∀ fnAttr fn a b x, callee = some fnAttr →
          lookupNearestSymbolFrom symbolTable fnAttr = some fn →
          fn.functionType.inputs = [a, b] → operands = [x] →
          CallOp.verifySymbolUses NDEBUG symbolTable callee operands resultTypes =
            some (.failure, [[.string "incorrect number of operands for callee"]]))
      ∧ (∀ fnAttr fn, callee = some fnAttr →
          lookupNearestSymbolFrom symbolTable fnAttr = some fn →
          fn.action = true → resultTypes ≠ [] →
          (CallOp.verifySymbolUses NDEBUG symbolTable callee operands resultTypes).map
            (fun r => r.1) = some .failure)
      ∧ (∀ fnAttr fn, callee = some fnAttr →
          lookupNearestSymbolFrom symbolTable fnAttr = some fn →
          fn.functionType.optionalReturnType = none → resultTypes ≠ [] →
          (CallOp.verifySymbolUses NDEBUG symbolTable callee operands resultTypes).map
            (fun r => r.1) = some .failure) := by
  refine ⟨?_, ?_, ?_, ?_⟩
  · cases callee with
    | none => simp [CallOp.verifySymbolUses, emitOpErrorArgs]
    | some fnAttr =>
      cases hlk : lookupNearestSymbolFrom symbolTable fnAttr with
      | none => simp [CallOp.verifySymbolUses, hlk, emitOpErrorArgs]
      | some fn =>
        simp only [CallOp.verifySymbolUses, hlk, Option.some.injEq, exists_and_left,
          exists_eq_left', getElem?_eq_iff]
        by_cases hlen : fn.functionType.inputs.length = operands.length
        · have hmm := operandMismatch_none fn.functionType.inputs operands 0 hlen
          rw [operandLoop_eq fn.functionType.inputs operands hlen]
          cases hm : operandMismatch fn.functionType.inputs operands 0 with
          | some m =>
            have hne : operands ≠ fn.functionType.inputs := by
              intro h
              rw [hmm.mpr h] at hm
              exact Option.noConfusion hm
            obtain ⟨i, expected, provided⟩ := m
            simp [hlen, hne, emitOpErrorArgs]
          | none =>
            have hops : operands = fn.functionType.inputs := hmm.mp hm
            have hlen' : operands.length = fn.functionType.inputs.length := hlen.symm
            obtain ⟨symName, ⟨inputs, stored⟩, action⟩ := fn
            simp only at hops hlen hlen' hm ⊢
            cases resultTypes with
            | nil =>
              cases stored with
              | none => simp [hlen, hops, FuncType.isVoid, FuncType.getReturnType]
              | some rt =>
                by_cases hv : rt = Ty.void <;> cases NDEBUG <;>
                  simp [hlen, hops, FuncType.isVoid, FuncType.getReturnType, hv,
                    emitOpErrorArgs]
            | cons r rs =>
              cases action with
              | true => simp [hlen, hops, emitOpErrorArgs]
              | false =>
                cases stored with
                | none =>
                  simp [hlen, hops, FuncType.isVoid, FuncType.getReturnType, emitOpErrorArgs]
                | some rt =>
                  cases rs with
                  | cons r2 rs2 =>
                    by_cases hv : rt = Ty.void <;> cases NDEBUG <;>
                      simp [hlen, hops, FuncType.isVoid, FuncType.getReturnType, hv,
                        emitOpErrorArgs]
                  | nil =>
                    by_cases hr : r = rt
                    · subst hr
                      by_cases hv : r = Ty.void <;> cases NDEBUG <;>
                        simp [hlen, hops, FuncType.isVoid, FuncType.getReturnType, hv,
                          emitOpErrorArgs]
                    · have hr' : ¬ rt = r := fun h => hr h.symm
                      by_cases hv : rt = Ty.void
                      · subst hv
                        cases NDEBUG <;>
                          simp [hlen, hops, FuncType.isVoid, FuncType.getReturnType, hr, hr',
                            emitOpErrorArgs]
                      · cases NDEBUG <;>
                          simp [hlen, hops, FuncType.isVoid, FuncType.getReturnType, hv, hr,
                            hr', emitOpErrorArgs]
        · have hlen' : ¬ operands.length = fn.functionType.inputs.length :=
            fun h => hlen h.symm
          simp [hlen, hlen', emitOpErrorArgs]
  · intro fnAttr fn a b x hc hlk hin hop
    subst hc hop
    simp [CallOp.verifySymbolUses, hlk, hin, emitOpErrorArgs]
  · intro fnAttr fn hc hlk hact hres
    subst hc
    have hres' : resultTypes.length ≠ 0 := by
      cases resultTypes with
      | nil => exact absurd rfl hres
      | cons _ _ => simp
    simp only [CallOp.verifySymbolUses, hlk]
    by_cases hlen : fn.functionType.inputs.length = operands.length
    · rw [operandLoop_eq fn.functionType.inputs operands hlen]
      cases hm : operandMismatch fn.functionType.inputs operands 0 with
      | some m =>
        obtain ⟨i, expected, provided⟩ := m
        simp [hlen, emitOpErrorArgs]
      | none => simp [hlen, hact, hres', emitOpErrorArgs]
    · simp [hlen, emitOpErrorArgs]
  · intro fnAttr fn hc hlk hvoid hres
    subst hc
    have hres' : resultTypes.length ≠ 0 := by
      cases resultTypes with
      | nil => exact absurd rfl hres
      | cons _ _ => simp
    simp only [CallOp.verifySymbolUses, hlk]
    by_cases hlen : fn.functionType.inputs.length = operands.length
    · rw [operandLoop_eq fn.functionType.inputs operands hlen]
      cases hm : operandMismatch fn.functionType.inputs operands 0 with
      | some m =>
        obtain ⟨i, expected, provided⟩ := m
        simp [hlen, emitOpErrorArgs]
      | none =>
        by_cases hact : fn.action = true
        · simp [hlen, hact, hres', emitOpErrorArgs]
        · simp [hlen, hact, hres', FuncType.isVoid, hvoid, emitOpErrorArgs]
    · simp [hlen, emitOpErrorArgs]

/-! ## Regions and terminators: the claims -/

theorem back_append_singleton {α : Type} (init : List α) (a : α) :
    back (init ++ [a]) = some a := by
  induction init with
  | nil => rfl
  | cons x rest ih =>
    cases rest with
    | nil => rfl
    | cons y ys => simpa [back] using ih

theorem back_eq_none {α : Type} (l : List α) : back l = none ↔ l = [] := by
  constructor
  · intro h
    cases l using List.reverseRecOn with
    | nil => rfl
    | append_singleton init a =>
      rw [back_append_singleton] at h
      exact Option.noConfusion h
  · intro h; rw [h]; rfl

theorem back_eq_some {α : Type} (l : List α) (a : α) :
    back l = some a ↔ ∃ init, l = init ++ [a] := by
  constructor
  · intro h
    cases l using List.reverseRecOn with
    | nil => exact Option.noConfusion h
    | append_singleton init b =>
      rw [back_append_singleton] at h
      cases h
      exact ⟨init, rfl⟩
  · rintro ⟨init, rfl⟩
    exact back_append_singleton init a

theorem mightHaveTrait_of_hasTrait (operation : Operation)
    (h : operation.hasTraitIsTerminator = true) :
    operation.mightHaveTraitIsTerminator = true := by
  unfold Operation.mightHaveTraitIsTerminator
  split
  · rfl
  · exact h

/-- C15: in either build mode, `ScopeOp::verify` succeeds if and only if the scope
region has at least one block and its last block is not empty and ends in an
operation with the terminator trait; it fails with the `must not be empty`
error when the region has no blocks, and with
`last block of p4hir.scope must be terminated` in every other case. -/
theorem ScopeOp_verify_spec (NDEBUG : Bool) (scopeRegion : Region) :
    (ScopeOp.verify NDEBUG scopeRegion = some (.success, []) ↔
        ∃ blocks operations terminator,
          scopeRegion = blocks ++ [operations ++ [terminator]] ∧
            terminator.hasTraitIsTerminator = true)
      ∧ (scopeRegion = [] →
          ScopeOp.verify NDEBUG scopeRegion =
            some (.failure, ["p4hir.scope must not be empty since it should " ++
              "include at least an implicit p4hir.yield "]))
      ∧ (scopeRegion ≠ [] →
          (¬ ∃ blocks operations terminator,
            scopeRegion = blocks ++ [operations ++ [terminator]] ∧
              terminator.hasTraitIsTerminator = true) →
          ScopeOp.verify NDEBUG scopeRegion =
            some (.failure, ["last block of p4hir.scope must be terminated"])) := by
  have hkey : ∀ blocks (block : Block),
      (ScopeOp.verify NDEBUG (blocks ++ [block]) = some (.success, []) ↔
        ∃ operations terminator, block = operations ++ [terminator] ∧
          terminator.hasTraitIsTerminator = true) ∧
      ((¬ ∃ operations terminator, block = operations ++ [terminator] ∧
          terminator.hasTraitIsTerminator = true) →
        ScopeOp.verify NDEBUG (blocks ++ [block]) =
          some (.failure, ["last block of p4hir.scope must be terminated"])) := by
    intro blocks block
    unfold ScopeOp.verify
    rw [back_append_singleton]
    cases block using List.reverseRecOn with
    | nil => simp [emitOpError]
    | append_singleton operations terminator =>
      have hne : (operations ++ [terminator]).isEmpty = false := by
        cases operations <;> rfl
      by_cases ht : terminator.hasTraitIsTerminator = true
      · have hm := mightHaveTrait_of_hasTrait terminator ht
        have hex : ∃ operations' terminator',
            operations ++ [terminator] = operations' ++ [terminator'] ∧
              terminator'.hasTraitIsTerminator = true := ⟨operations, terminator, rfl, ht⟩
        simp [hne, Block.mightHaveTerminator, Block.getTerminator, back_append_singleton, hm, ht,
          success, hex]
      · have hex : ¬ ∃ operations' terminator',
            operations ++ [terminator] = operations' ++ [terminator'] ∧
              terminator'.hasTraitIsTerminator = true := by
          rintro ⟨operations', terminator', heq, ht'⟩
          have h1 := back_append_singleton operations terminator
          rw [heq, back_append_singleton] at h1
          cases h1
          exact ht ht'
        have ht' : terminator.hasTraitIsTerminator = false := by
          cases h : terminator.hasTraitIsTerminator
          · rfl
          · exact absurd h ht
        by_cases hm : terminator.mightHaveTraitIsTerminator = true
        · simp [hne, Block.mightHaveTerminator, Block.getTerminator, back_append_singleton, hm,
            ht', emitOpError, hex]
        · have hm' : terminator.mightHaveTraitIsTerminator = false := by
            cases h : terminator.mightHaveTraitIsTerminator
            · rfl
            · exact absurd h hm
          simp [hne, Block.mightHaveTerminator, back_append_singleton, hm', emitOpError, hex]
  have hsplit : ∀ blocks (block : Block),
      (∃ blocks' operations terminator,
          blocks ++ [block] = blocks' ++ [operations ++ [terminator]] ∧
            terminator.hasTraitIsTerminator = true) ↔
      ∃ operations terminator, block = operations ++ [terminator] ∧
          terminator.hasTraitIsTerminator = true := by
    intro blocks block
    constructor
    · rintro ⟨blocks', operations, terminator, heq, ht⟩
      have h1 := back_append_singleton blocks block
      rw [heq, back_append_singleton] at h1
      cases h1
      exact ⟨operations, terminator, rfl, ht⟩
    · rintro ⟨operations, terminator, heq, ht⟩
      exact ⟨blocks, operations, terminator, by rw [heq], ht⟩
  refine ⟨?_, ?_, ?_⟩
  · cases scopeRegion using List.reverseRecOn with
    | nil => simp [ScopeOp.verify, back, emitOpError]
    | append_singleton blocks block =>
      rw [hsplit]
      exact (hkey blocks block).1
  · intro h
    rw [h]
    rfl
  · intro hne hnot
    cases scopeRegion using List.reverseRecOn with
    | nil => exact absurd rfl hne
    | append_singleton blocks block =>
      rw [hsplit] at hnot
      exact (hkey blocks block).2 hnot

theorem omitRegionTerm_single (NDEBUG : Bool) (operations : List Operation)
    (terminator : Operation) :
    omitRegionTerm NDEBUG [operations ++ [terminator]] =
      match Block.getTerminator NDEBUG (operations ++ [terminator]) with
      | none => none
      | some (.yieldOp args) => some args.isEmpty
      | some _ => some false := by
  have hne : (operations ++ [terminator]).isEmpty = false := by cases operations <;> rfl
  simp [omitRegionTerm, back, hne]

/-- C19: in either build mode, `omitRegionTerm(r)` returns true if and only if
the region has exactly one block, that block is not empty, and its last
operation is a `Yield` with zero operands; it returns false for a region with
no blocks, with several blocks, or whose single block is empty, in which cases
`yieldsNothing` is not evaluated. -/
theorem omitRegionTerm_spec (NDEBUG : Bool) (r : Region) :
    (omitRegionTerm NDEBUG r = some true ↔
        ∃ operations, r = [operations ++ [Operation.yieldOp []]])
      ∧ (r = [] → omitRegionTerm NDEBUG r = some false)
      ∧ (2 ≤ r.length → omitRegionTerm NDEBUG r = some false)
      ∧ (r = [[]] → omitRegionTerm NDEBUG r = some false) := by
  refine ⟨?_, ?_, ?_, ?_⟩
  · constructor
    · intro h
      match r, h with
      | [], h => simp [omitRegionTerm] at h
      | _ :: _ :: _, h => simp [omitRegionTerm] at h
      | [block], h =>
        cases block using List.reverseRecOn with
        | nil => simp [omitRegionTerm, back] at h
        | append_singleton operations terminator =>
          rw [omitRegionTerm_single] at h
          unfold Block.getTerminator at h
          rw [back_append_singleton] at h
          split at h
          · exact Option.noConfusion h
          · rename_i args heq
            split at heq
            · exact Option.noConfusion heq
            · cases heq
              simp only [Option.some.injEq, List.isEmpty_iff] at h
              exact ⟨operations, by rw [h]⟩
          · simp at h
    · rintro ⟨operations, rfl⟩
      rw [omitRegionTerm_single]
      simp [Block.getTerminator, Block.mightHaveTerminator, back_append_singleton,
        Operation.mightHaveTraitIsTerminator, Operation.hasTraitIsTerminator]
  · intro h; rw [h]; rfl
  · intro h
    match r, h with
    | [], h => simp at h
    | [_], h => simp at h
    | _ :: _ :: _, _ => simp [omitRegionTerm]
  · intro h; rw [h]; rfl

/-- C20: for every region with `omitRegionTerm(r) = true` in which no operation
before the last one of a block is a terminator, the region left by dropping the
trailing zero-operand `Yield` is turned back into `r` by `ensureRegionTerm`,
which succeeds without a diagnostic: one block with the same operations in the
same order followed by one zero-operand `Yield`. The same holds when the
dropped body is empty and is read back as a region with no block. For
`{ %0 = const true; yield }` the result has the constant and one zero-operand
`Yield`. -/
theorem ensureRegionTerm_roundtrip (NDEBUG : Bool) (r : Region)
    (homit : omitRegionTerm NDEBUG r = some true)
    (hterm : ∀ block ∈ r, ∀ operation ∈ block.dropLast,
      operation.hasTraitIsTerminator = false) :
    ensureRegionTerm (r.map List.dropLast) = (.success, [], r)
      ∧ (r.map List.dropLast = [[]] → ensureRegionTerm [] = (.success, [], r))
      ∧ (∃ operations, r = [operations ++ [Operation.yieldOp []]]
          ∧ r.map List.dropLast = [operations])
      ∧ ensureRegionTerm [[Operation.op (.constOp (.boolAttr true)) [] [Ty.bool] []]] =
          (.success, [],
            [[Operation.op (.constOp (.boolAttr true)) [] [Ty.bool] [],
              Operation.yieldOp []]]) := by
  obtain ⟨operations, rfl⟩ := (omitRegionTerm_spec NDEBUG r).1.mp homit
  have hdrop : List.map List.dropLast [operations ++ [Operation.yieldOp []]] = [operations] := by
    simp
  have hops : ∀ operation ∈ operations, operation.hasTraitIsTerminator = false := by
    intro operation hmem
    have h := hterm (operations ++ [Operation.yieldOp []]) (List.mem_singleton.mpr rfl)
      operation
    rw [List.dropLast_concat] at h
    exact h hmem
  refine ⟨?_, ?_, ⟨operations, rfl, hdrop⟩, rfl⟩
  · rw [hdrop]
    cases operations using List.reverseRecOn with
    | nil => rfl
    | append_singleton init last =>
      have hlast := hops last (by simp)
      have hne : (init ++ [last]).isEmpty = false := by cases init <;> rfl
      simp [ensureRegionTerm, back, back_append_singleton, hne, hlast]
  · rw [hdrop]
    intro h
    simp only [List.cons.injEq, and_true] at h
    rw [h]
    rfl

/-- C20 (witness): the body `{ %0 = const true; yield }` has its terminator
omitted, no terminator before the last operation, and is rebuilt from
`{ %0 = const true }`. -/
theorem ensureRegionTerm_roundtrip_witness :
    omitRegionTerm false exampleScopeBody = some true
      ∧ (∀ block ∈ exampleScopeBody, ∀ operation ∈ block.dropLast,
          operation.hasTraitIsTerminator = false)
      ∧ ensureRegionTerm (exampleScopeBody.map List.dropLast) =
          (.success, [], exampleScopeBody) :=
  ⟨by decide, by simp [exampleScopeBody, Operation.hasTraitIsTerminator],
    (ensureRegionTerm_roundtrip false exampleScopeBody (by decide)
      (by simp [exampleScopeBody, Operation.hasTraitIsTerminator])).1⟩

/-! ## Terminator insertion: the claims -/

theorem lastBlockTerminated_append (blocks : List Block) (block : Block) :
    lastBlockTerminated (blocks ++ [block]) ↔
      ∃ operations terminator, block = operations ++ [terminator] ∧
        terminator.hasTraitIsTerminator = true := by
  constructor
  · rintro ⟨blocks', operations, terminator, heq, ht⟩
    have h1 := back_append_singleton blocks block
    rw [heq, back_append_singleton] at h1
    cases h1
    exact ⟨operations, terminator, rfl, ht⟩
  · rintro ⟨operations, terminator, heq, ht⟩
    exact ⟨blocks, operations, terminator, by rw [heq], ht⟩

theorem not_lastBlockTerminated_nil : ¬ lastBlockTerminated [] := by
  rintro ⟨blocks, operations, terminator, heq, _⟩
  cases blocks <;> simp at heq

/-- The check `!block.empty() && block.back().hasTrait<IsTerminator>()` of
`ensureRegionTerm` on the last block. -/
theorem terminated_check (block : Block) :
    (!block.isEmpty ∧ ((back block).map Operation.hasTraitIsTerminator) = some true) ↔
      ∃ operations terminator, block = operations ++ [terminator] ∧
        terminator.hasTraitIsTerminator = true := by
  cases block using List.reverseRecOn with
  | nil => simp [back]
  | append_singleton operations terminator =>
    have hne : (operations ++ [terminator]).isEmpty = false := by cases operations <;> rfl
    rw [back_append_singleton]
    constructor
    · rintro ⟨_, h⟩
      exact ⟨operations, terminator, rfl, by simpa using h⟩
    · rintro ⟨operations', terminator', heq, ht⟩
      have h1 := back_append_singleton operations terminator
      rw [heq, back_append_singleton] at h1
      cases h1
      simp [hne, ht]

/-- The three outcomes of `ensureRegionTerm` on a region given by its blocks
before the last one and its last block. -/
theorem ensureRegionTerm_append (blocks : List Block) (block : Block) :
    ((∃ operations terminator, block = operations ++ [terminator] ∧
          terminator.hasTraitIsTerminator = true) →
        ensureRegionTerm (blocks ++ [block]) = (.success, [], blocks ++ [block]))
      ∧ ((¬ ∃ operations terminator, block = operations ++ [terminator] ∧
          terminator.hasTraitIsTerminator = true) → blocks ≠ [] →
        ensureRegionTerm (blocks ++ [block]) =
          (.failure, ["multi-block region must not omit terminator"], blocks ++ [block]))
      ∧ ((¬ ∃ operations terminator, block = operations ++ [terminator] ∧
          terminator.hasTraitIsTerminator = true) → blocks = [] →
        ensureRegionTerm (blocks ++ [block]) =
          (.success, [], [block ++ [Operation.yieldOp []]])) := by
  have hne : (blocks ++ [block]).isEmpty = false := by cases blocks <;> rfl
  have hcheck := terminated_check block
  refine ⟨?_, ?_, ?_⟩
  · intro h
    have h' := hcheck.mpr h
    have hb := back_append_singleton blocks block
    simp only [ensureRegionTerm, hne, hb, Option.getD_some, Bool.false_eq_true, if_false]
    rw [if_pos h']
  · intro h hb
    have h' : ¬ (!block.isEmpty ∧
        ((back block).map Operation.hasTraitIsTerminator) = some true) :=
      fun hc => h (hcheck.mp hc)
    have hlen : (blocks ++ [block]).length ≠ 1 := by
      cases blocks with
      | nil => exact absurd rfl hb
      | cons b bs => simp
    have hbk := back_append_singleton blocks block
    simp only [ensureRegionTerm, hne, hbk, Option.getD_some, Bool.false_eq_true, if_false]
    rw [if_neg h', if_pos hlen]
  · intro h hb
    subst hb
    have h' : ¬ (!block.isEmpty ∧
        ((back block).map Operation.hasTraitIsTerminator) = some true) :=
      fun hc => h (hcheck.mp hc)
    simp only [ensureRegionTerm, List.nil_append, back, Option.getD_some, List.isEmpty_cons]
    simp only [Bool.false_eq_true, if_false]
    rw [if_neg h']
    simp

/-- `ScopeOp::verify` accepts every region whose last block ends in a
terminator. -/
theorem ScopeOp_verify_of_terminated (NDEBUG : Bool) (region : Region)
    (h : lastBlockTerminated region) : ScopeOp.verify NDEBUG region = some (.success, []) := by
  obtain ⟨blocks, operations, terminator, rfl, ht⟩ := h
  have hne : (operations ++ [terminator]).isEmpty = false := by
    cases operations <;> rfl
  have hm := mightHaveTrait_of_hasTrait terminator ht
  unfold ScopeOp.verify
  rw [back_append_singleton]
  simp [hne, Block.mightHaveTerminator, Block.getTerminator, back_append_singleton, hm, ht,
    success]

/-- C21 (counterexample): a region of two blocks whose first block holds only a
constant, so does not end in a terminator, and whose last block is a `Yield`:
`ensureRegionTerm` succeeds and leaves it as it is. -/
theorem ensureRegionTerm_ignores_first_block :
    1 < unterminatedFirstBlock.length
      ∧ ¬ lastBlockTerminated (unterminatedFirstBlock.take 1)
      ∧ ensureRegionTerm unterminatedFirstBlock = (.success, [], unterminatedFirstBlock) := by
  refine ⟨by decide, ?_, rfl⟩
  show ¬ lastBlockTerminated ([] ++ [[Operation.op (.constOp (.boolAttr true)) [] [Ty.bool] []]])
  rw [lastBlockTerminated_append]
  rintro ⟨operations, terminator, heq, ht⟩
  have h1 := back_append_singleton operations terminator
  rw [← heq] at h1
  cases h1
  simp [Operation.hasTraitIsTerminator] at ht

/-- C21 (amended): for every region with more than one block, `ensureRegionTerm`
succeeds if and only if the last block of the region ends in a terminator; a
multi-block region whose last block omits its terminator is rejected with the
`multi-block region must not omit terminator` error and left unchanged; the
blocks before the last one are not inspected. -/
theorem ensureRegionTerm_multi_block (region : Region) (hlen : 1 < region.length) :
    ((ensureRegionTerm region).1 = .success ↔ lastBlockTerminated region)
      ∧ (lastBlockTerminated region → ensureRegionTerm region = (.success, [], region))
      ∧ (¬ lastBlockTerminated region →
          ensureRegionTerm region =
            (.failure, ["multi-block region must not omit terminator"], region))
      ∧ (∀ blocks blocks' : List Block, ∀ block : Block,
          region = blocks ++ [block] → blocks' ≠ [] →
          (ensureRegionTerm (blocks' ++ [block])).1 = (ensureRegionTerm region).1) := by
  cases region using List.reverseRecOn with
  | nil => simp at hlen
  | append_singleton blocks block =>
    have hne : blocks ≠ [] := by
      intro h
      rw [h] at hlen
      simp at hlen
    obtain ⟨h1, h2, _⟩ := ensureRegionTerm_append blocks block
    have hiff := lastBlockTerminated_append blocks block
    have hyes : lastBlockTerminated (blocks ++ [block]) →
        ensureRegionTerm (blocks ++ [block]) = (.success, [], blocks ++ [block]) :=
      fun h => h1 (hiff.mp h)
    have hno : ¬ lastBlockTerminated (blocks ++ [block]) →
        ensureRegionTerm (blocks ++ [block]) =
          (.failure, ["multi-block region must not omit terminator"], blocks ++ [block]) :=
      fun h => h2 (fun hc => h (hiff.mpr hc)) hne
    refine ⟨?_, hyes, hno, ?_⟩
    · by_cases h : lastBlockTerminated (blocks ++ [block])
      · simp [hyes h, h]
      · simp [hno h, h]
    · intro bs bs' b heq hne'
      have hb : b = block := by
        have h := back_append_singleton bs b
        rw [← heq, back_append_singleton] at h
        cases h
        rfl
      subst hb
      obtain ⟨h1', h2', _⟩ := ensureRegionTerm_append bs' b
      by_cases h : ∃ operations terminator, b = operations ++ [terminator] ∧
          terminator.hasTraitIsTerminator = true
      · rw [h1' h, h1 h]
      · rw [h2' h hne', h2 h hne]

/-- C21 (witness): the two-block region `{ const } { yield }` has more than one
block and its last block is terminated, so `ensureRegionTerm` succeeds. -/
theorem ensureRegionTerm_multi_block_witness :
    1 < unterminatedFirstBlock.length
      ∧ ((ensureRegionTerm unterminatedFirstBlock).1 = .success ↔
          lastBlockTerminated unterminatedFirstBlock) :=
  ⟨by decide, (ensureRegionTerm_multi_block unterminatedFirstBlock (by decide)).1⟩

/-- C23: `ensureRegionTerm` fails if and only if the region has more than one
block and its last block does not end in a terminator, and then the region is
unchanged; otherwise it succeeds without a diagnostic and the last block of the
resulting region is not empty and ends in a terminator, so that
`ScopeOp::verify` accepts it; a region without blocks becomes one block holding
a zero-operand `Yield`, a single unterminated block gains one zero-operand
`Yield`, a region whose last block is terminated is unchanged; and applying
`ensureRegionTerm` to its own result gives the same outcome. -/
theorem ensureRegionTerm_spec (NDEBUG : Bool) (region : Region) :
    ((ensureRegionTerm region).1 = .failure ↔
        1 < region.length ∧ ¬ lastBlockTerminated region)
      ∧ ((ensureRegionTerm region).1 = .failure →
          ensureRegionTerm region =
            (.failure, ["multi-block region must not omit terminator"], region))
      ∧ ((ensureRegionTerm region).1 = .success →
          (ensureRegionTerm region).2.1 = []
            ∧ lastBlockTerminated (ensureRegionTerm region).2.2
            ∧ ScopeOp.verify NDEBUG (ensureRegionTerm region).2.2 = some (.success, []))
      ∧ (region = [] → ensureRegionTerm region = (.success, [], [[Operation.yieldOp []]]))
      ∧ (∀ block : Block, region = [block] → ¬ lastBlockTerminated region →
          ensureRegionTerm region = (.success, [], [block ++ [Operation.yieldOp []]]))
      ∧ (lastBlockTerminated region → ensureRegionTerm region = (.success, [], region))
      ∧ ensureRegionTerm (ensureRegionTerm region).2.2 = ensureRegionTerm region := by
  have hyield : lastBlockTerminated [[Operation.yieldOp []]] :=
    ⟨[], [], Operation.yieldOp [], rfl, rfl⟩
  have hverify : ∀ r : Region, lastBlockTerminated r →
      ScopeOp.verify NDEBUG r = some (.success, []) :=
    fun r h => ScopeOp_verify_of_terminated NDEBUG r h
  rcases List.eq_nil_or_concat' region with rfl | ⟨blocks, block, rfl⟩
  · have hnil : ensureRegionTerm [] = (.success, [], [[Operation.yieldOp []]]) := rfl
    have hfix : ensureRegionTerm [[Operation.yieldOp []]] =
        (.success, [], [[Operation.yieldOp []]]) := rfl
    refine ⟨?_, ?_, ?_, fun _ => hnil, ?_, ?_, ?_⟩
    · simp [hnil]
    · simp [hnil]
    · intro _
      rw [hnil]
      exact ⟨rfl, hyield, hverify _ hyield⟩
    · intro block h
      simp at h
    · intro h
      exact absurd h not_lastBlockTerminated_nil
    · rw [hnil]
      exact hfix
  · obtain ⟨h1, h2, h3⟩ := ensureRegionTerm_append blocks block
    have hiff := lastBlockTerminated_append blocks block
    have hlen : 1 < (blocks ++ [block]).length ↔ blocks ≠ [] := by
      cases blocks <;> simp
    by_cases ht : lastBlockTerminated (blocks ++ [block])
    · have hres := h1 (hiff.mp ht)
      refine ⟨?_, ?_, ?_, ?_, ?_, fun _ => hres, ?_⟩
      · simp [hres, ht]
      · simp [hres]
      · intro _
        rw [hres]
        exact ⟨rfl, ht, hverify _ ht⟩
      · intro h
        simp at h
      · intro b _ hn
        exact absurd ht hn
      · rw [hres]
        exact hres
    · have hnt : ¬ ∃ operations terminator, block = operations ++ [terminator] ∧
          terminator.hasTraitIsTerminator = true := fun hc => ht (hiff.mpr hc)
      by_cases hb : blocks = []
      · subst hb
        simp only [List.nil_append] at ht ⊢
        have hres : ensureRegionTerm [block] =
            (.success, [], [block ++ [Operation.yieldOp []]]) := h3 hnt rfl
        have hnew : lastBlockTerminated [block ++ [Operation.yieldOp []]] :=
          ⟨[], block, Operation.yieldOp [], rfl, rfl⟩
        have hfix : ensureRegionTerm [block ++ [Operation.yieldOp []]] =
            (.success, [], [block ++ [Operation.yieldOp []]]) :=
          (ensureRegionTerm_append [] (block ++ [Operation.yieldOp []])).1
            ⟨block, Operation.yieldOp [], rfl, rfl⟩
        refine ⟨?_, ?_, ?_, ?_, ?_, fun h => absurd h ht, ?_⟩
        · simp [hres]
        · simp [hres]
        · intro _
          rw [hres]
          exact ⟨rfl, hnew, hverify _ hnew⟩
        · intro h
          simp at h
        · intro b hbeq _
          rw [hres]
          simp only [List.nil_append, List.cons.injEq, and_true] at hbeq
          rw [hbeq]
        · rw [hres]
          exact hfix
      · have hres := h2 hnt hb
        refine ⟨?_, fun _ => hres, ?_, ?_, ?_, fun h => absurd h ht, ?_⟩
        · have hl := hlen.mpr hb
          simp only [hres, hl, ht, not_false_eq_true, and_self]
        · simp [hres]
        · intro h
          simp at h
        · intro b hbeq _
          exfalso
          have : (blocks ++ [block]).length = 1 := by rw [hbeq]; rfl
          have := hlen.mpr hb
          omega
        · rw [hres]
          exact hres

/-! ## Region successors, concatenation overflow, integer constants: the claims -/

/-- C27: for `Scope`, `If` and `Ternary`, `getSuccessorRegions` queried from any
region of the operation adds exactly one successor, the parent operation, and
no region; queried from the parent it adds exactly the scope region for
`Scope`, the true region then the false region for `Ternary`, and for `If` the
then-region, followed by the else-region if and only if the else-region has at
least one block. -/
theorem getSuccessorRegions_spec (number : Nat) (results : List Ty) (elseRegion : Region) :
    ScopeOp.getSuccessorRegions (.region number) results [] = [RegionSuccessor.parent results]
      ∧ TernaryOp.getSuccessorRegions (.region number) results []
          = [RegionSuccessor.parent results]
      ∧ IfOp.getSuccessorRegions (.region number) elseRegion [] = [RegionSuccessor.parent []]
      ∧ ScopeOp.getSuccessorRegions .parent results []
          = [RegionSuccessor.region .scopeRegion]
      ∧ TernaryOp.getSuccessorRegions .parent results []
          = [RegionSuccessor.region .trueRegion, RegionSuccessor.region .falseRegion]
      ∧ (elseRegion ≠ [] →
          IfOp.getSuccessorRegions .parent elseRegion []
            = [RegionSuccessor.region .thenRegion, RegionSuccessor.region .elseRegion])
      ∧ (elseRegion = [] →
          IfOp.getSuccessorRegions .parent elseRegion []
            = [RegionSuccessor.region .thenRegion])
      ∧ (RegionSuccessor.region .elseRegion ∈ IfOp.getSuccessorRegions .parent elseRegion []
          ↔ 1 ≤ elseRegion.length) := by
  refine ⟨rfl, rfl, rfl, rfl, rfl, ?_, ?_, ?_⟩
  · intro h
    cases elseRegion with
    | nil => exact absurd rfl h
    | cons b bs => rfl
  · intro h
    rw [h]
    rfl
  · cases elseRegion with
    | nil => simp [IfOp.getSuccessorRegions, RegionBranchPoint.isParent]
    | cons b bs => simp [IfOp.getSuccessorRegions, RegionBranchPoint.isParent]

/-- C26 (counterexample): the operand widths `2^32 - 1` and `1` have the exact sum
`2^32`, and `ConcatOp::verify` accepts the result width 0. -/
theorem ConcatOp_verify_accepts_wrapped_width :
    4294967295 < UINT_SIZE ∧ 1 < UINT_SIZE ∧ (0 : Nat) ≠ 4294967295 + 1
      ∧ ConcatOp.verify (.bits 4294967295 false) (.bits 1 false) (.bits 0 false)
          = some (.success, []) := by
  refine ⟨by simp [UINT_SIZE], by simp [UINT_SIZE], by simp, ?_⟩
  simp [ConcatOp.verify, uadd, UINT_SIZE, success]

/-- C26 (amended): for all operand widths, `ConcatOp::verify` accepts no result
whose width differs from `lhs.width + rhs.width` reduced modulo `2^32`, which is
the exact sum whenever that sum is below `2^32`. -/
theorem ConcatOp_verify_width (lhsWidth rhsWidth resultWidth : Nat)
    (lhsSigned rhsSigned resultSigned : Bool)
    (haccept : (ConcatOp.verify (.bits lhsWidth lhsSigned) (.bits rhsWidth rhsSigned)
      (.bits resultWidth resultSigned)).map (fun r => r.1) = some .success) :
    resultWidth = (lhsWidth + rhsWidth) % UINT_SIZE
      ∧ (lhsWidth + rhsWidth < UINT_SIZE → resultWidth = lhsWidth + rhsWidth) := by
  have hw : resultWidth = (lhsWidth + rhsWidth) % UINT_SIZE := by
    by_contra hne
    have hne' : resultWidth ≠ uadd lhsWidth rhsWidth := hne
    simp [ConcatOp.verify, hne', emitOpError] at haccept
  exact ⟨hw, fun hlt => by rw [hw, Nat.mod_eq_of_lt hlt]⟩

/-- C26 (witness): `bit<4>` with `bit<8>` is accepted for `bit<12>`, and 12 is
`(4 + 8) mod 2^32`. -/
theorem ConcatOp_verify_width_witness :
    (ConcatOp.verify (.bits 4 false) (.bits 8 false) (.bits 12 false)).map (fun r => r.1)
        = some .success
      ∧ 12 = (4 + 8) % UINT_SIZE :=
  ⟨by decide, (ConcatOp_verify_width 4 8 12 false false false (by decide)).1⟩

/-- C30: for every `IntAttr`, whatever its declared type and value, and every
`Bits` or `InfInt` result type, `checkConstantTypes` succeeds, also when the
result type differs from the declared type (a `bit<8>` attribute with an
`int<16>` result); and for any result type the outcome is the same for any two
`IntAttr`s. -/
theorem checkConstantTypes_intAttr (type : Ty) (value : Int) :
    (∀ width isSigned,
        checkConstantTypes (Ty.bits width isSigned) (.intAttr type value) = some (.success, []))
      ∧ checkConstantTypes Ty.infint (.intAttr type value) = some (.success, [])
      ∧ checkConstantTypes (Ty.bits 16 true) (.intAttr (Ty.bits 8 false) 5)
          = some (.success, [])
      ∧ Ty.bits 16 true ≠ Ty.bits 8 false
      ∧ (∀ opType type' value',
          (checkConstantTypes opType (.intAttr type value)).map (fun r => r.1) =
            (checkConstantTypes opType (.intAttr type' value')).map (fun r => r.1)) := by
  refine ⟨fun _ _ => rfl, rfl, rfl, by decide, ?_⟩
  intro opType type' value'
  cases opType <;> rfl

/-! ## The lookups on the whole range of field IDs -/

/-- A struct has at most as many fields as its field IDs span. -/
theorem length_le_fieldSpan (es : List (FieldInfo Ty)) : es.length ≤ fieldSpan es := by
  induction es with
  | nil => exact Nat.zero_le _
  | cons e rest ih =>
    rw [fieldSpan_cons, List.length_cons]
    omega

/-- C28 (counterexample): in `<a: bool, b: S, c: <x, y, z>, d: bool>` with
`maxFieldID(S) = 2^32 - 2` the field IDs wrap around to `[1, 2, 1, 5]` and the
maximum field ID is 5. The ID 1 is between 1 and 5, but the field IDs are not
partitioned with respect to it, so the search of `llvm::upper_bound` is
undefined and neither `getSubTypeByFieldID` nor `getIndexForFieldID` has a
result. -/
theorem field_lookup_undefined_on_wrap :
    1 ≤ 1 ∧ 1 ≤ StructType.getMaxFieldID unsortedStruct
      ∧ (getFieldIDsStruct unsortedStruct).2 = [1, 2, 1, 5]
      ∧ partitioned (getFieldIDsStruct unsortedStruct).2 1 = false
      ∧ upper_bound (getFieldIDsStruct unsortedStruct).2 1 = none
      ∧ StructType.getSubTypeByFieldID unsortedStruct 1 = none
      ∧ StructType.getIndexForFieldID unsortedStruct 1 = none := by
  have hpart : partitioned (getFieldIDsStruct unsortedStruct).2 1 = false := by
    rw [unsortedStruct_fieldIDs]
    decide
  have hub : upper_bound (getFieldIDsStruct unsortedStruct).2 1 = none := by
    unfold upper_bound
    rw [hpart]
    rfl
  refine ⟨by decide, ?_, unsortedStruct_fieldIDs, hpart, hub, ?_, ?_⟩
  · rw [unsortedStruct_maxFieldID]
    decide
  · unfold StructType.getSubTypeByFieldID
    rw [if_neg (by decide)]
    simp only []
    rw [hub]
    rfl
  · unfold StructType.getIndexForFieldID
    rw [hub]
    rfl

/-- C28 (amended): for every struct whose sum `Σ (1 + maxFieldID(field type))`
over the direct fields is below `2^32` and every `id` with
`1 ≤ id ≤ maxFieldID(T)`, the search of `getSubTypeByFieldID` and
`getIndexForFieldID` is defined and stops after the first position, so stepping
back is defined and gives an index `k` within the field list;
`fieldID(T,k) ≤ id`, so the subtraction does not wrap; and the remainder
returned is at most `maxFieldID(type of field k)`. -/
theorem field_lookup_safe (es : List (FieldInfo Ty))
    (hW : (es.map (fun field => 1 + FieldIdImpl.getMaxFieldID field.type)).sum < UINT_SIZE)
    (id : Nat) (h1 : 1 ≤ id) (h2 : id ≤ StructType.getMaxFieldID es) :
    ∃ k fk a remainder,
      upper_bound (getFieldIDsStruct es).2 id = some (k + 1)
        ∧ k < es.length ∧ es[k]? = some fk
        ∧ StructType.getIndexForFieldID es id = some k
        ∧ StructType.getFieldID es k = some a
        ∧ a ≤ id
        ∧ a + remainder = id
        ∧ StructType.getIndexAndSubfieldID es id = some (k, remainder)
        ∧ StructType.getSubTypeByFieldID es id = some (fk.type, remainder)
        ∧ remainder ≤ FieldIdImpl.getMaxFieldID fk.type := by
  have hW' : fieldSpan es < UINT_SIZE := hW
  rw [getMaxFieldID_eq, Nat.mod_eq_of_lt hW'] at h2
  obtain ⟨k, fk, hk, hlo, hhi⟩ := exists_field_of_id es id h1 h2
  have hklt := lt_length_of_getElem? hk
  have hsucc := fieldSpan_take_succ es k fk hk
  exact ⟨k, fk, 1 + fieldSpan (es.take k), id - (1 + fieldSpan (es.take k)),
    upper_bound_fieldIDs es hW' id k hklt hlo hhi, hklt, hk,
    getIndexForFieldID_eq es hW' id k hklt hlo hhi, getFieldID_exact es hW' k hklt,
    by omega, by omega, getIndexAndSubfieldID_eq es hW' id k hklt hlo hhi,
    getSubTypeByFieldID_eq es hW' id k fk hk hlo hhi, by omega⟩

/-- C28 (witness): in `<a: bool, b: <x, y, z>, c: bool>` the ID 4 is between 1
and the maximum 6; the lookup gives field `b` with remainder 2, within the
maximum field ID 3 of its type. -/
theorem field_lookup_safe_witness :
    (exampleStruct.map (fun field => 1 + FieldIdImpl.getMaxFieldID field.type)).sum
        < UINT_SIZE
      ∧ 1 ≤ 4 ∧ 4 ≤ StructType.getMaxFieldID exampleStruct
      ∧ StructType.getSubTypeByFieldID exampleStruct 4 = some (Ty.struct innerStruct, 2)
      ∧ ∃ k fk a remainder,
          upper_bound (getFieldIDsStruct exampleStruct).2 4 = some (k + 1)
            ∧ k < exampleStruct.length ∧ exampleStruct[k]? = some fk
            ∧ StructType.getIndexForFieldID exampleStruct 4 = some k
            ∧ StructType.getFieldID exampleStruct k = some a
            ∧ a ≤ 4
            ∧ a + remainder = 4
            ∧ StructType.getIndexAndSubfieldID exampleStruct 4 = some (k, remainder)
            ∧ StructType.getSubTypeByFieldID exampleStruct 4 = some (fk.type, remainder)
            ∧ remainder ≤ FieldIdImpl.getMaxFieldID fk.type :=
  ⟨by decide, by decide, by decide, rfl,
    field_lookup_safe exampleStruct (by decide) 4 (by decide) (by decide)⟩

/-- C7 (amended): for every struct whose sum `Σ (1 + maxFieldID(field type))`
over the direct fields is below `2^32` and every `id` with
`1 ≤ id ≤ maxFieldID(T)`, `getIndexAndSubfieldID(T, id)` is well defined (the
search is defined, stops after the first position and within the field list)
and returns `(k, r)` with `k` below the number of fields and
`fieldID(T, k) + r = id` without wrap-around. -/
theorem getIndexAndSubfieldID_defined (es : List (FieldInfo Ty))
    (hW : (es.map (fun field => 1 + FieldIdImpl.getMaxFieldID field.type)).sum < UINT_SIZE)
    (id : Nat) (h1 : 1 ≤ id) (hid : id ≤ StructType.getMaxFieldID es) :
    ∃ k r a, StructType.getIndexAndSubfieldID es id = some (k, r)
      ∧ upper_bound (getFieldIDsStruct es).2 id = some (k + 1)
      ∧ k < es.length
      ∧ StructType.getFieldID es k = some a
      ∧ a ≤ id ∧ a + r = id := by
  have hW' : fieldSpan es < UINT_SIZE := hW
  rw [getMaxFieldID_eq, Nat.mod_eq_of_lt hW'] at hid
  obtain ⟨k, fk, hk, hlo, hhi⟩ := exists_field_of_id es id h1 hid
  have hklt := lt_length_of_getElem? hk
  exact ⟨k, id - (1 + fieldSpan (es.take k)), 1 + fieldSpan (es.take k),
    getIndexAndSubfieldID_eq es hW' id k hklt hlo hhi,
    upper_bound_fieldIDs es hW' id k hklt hlo hhi, hklt,
    getFieldID_exact es hW' k hklt, by omega, by omega⟩

/-- C7 (witness): in `<a: bool, b: <x, y, z>, c: bool>` the ID 5 is between 1
and the maximum 6 and resolves to index 1 with remainder 3. -/
theorem getIndexAndSubfieldID_defined_witness :
    (exampleStruct.map (fun field => 1 + FieldIdImpl.getMaxFieldID field.type)).sum
        < UINT_SIZE
      ∧ 1 ≤ 5 ∧ 5 ≤ StructType.getMaxFieldID exampleStruct
      ∧ StructType.getIndexAndSubfieldID exampleStruct 5 = some (1, 3)
      ∧ ∃ k r a, StructType.getIndexAndSubfieldID exampleStruct 5 = some (k, r)
          ∧ upper_bound (getFieldIDsStruct exampleStruct).2 5 = some (k + 1)
          ∧ k < exampleStruct.length
          ∧ StructType.getFieldID exampleStruct k = some a
          ∧ a ≤ 5 ∧ a + r = 5 :=
  ⟨by decide, by decide, by decide, by decide,
    getIndexAndSubfieldID_defined exampleStruct (by decide) 5 (by decide) (by decide)⟩

/-! ## Consistency of the projection with the lookups -/

/-- The projection to child `k`, in closed form: the relative ID is
`id − fieldID(T,k)` on `unsigned`, and `inRange` compares `id` with
`fieldID(T,k)` and with `(fieldID(T,k) + maxFieldID(type of field k)) mod 2^32`. -/
theorem projectToChildFieldID_eq (es : List (FieldInfo Ty)) (hn : es.length < UINT_SIZE)
    (k : Nat) (fk : FieldInfo Ty) (hfk : es[k]? = some fk) (id : Nat) (hid : id < UINT_SIZE) :
    StructType.projectToChildFieldID es id k =
      some (usub id ((1 + fieldSpan (es.take k)) % UINT_SIZE),
        decide ((1 + fieldSpan (es.take k)) % UINT_SIZE ≤ id
          ∧ id ≤ ((1 + fieldSpan (es.take k)) % UINT_SIZE
              + FieldIdImpl.getMaxFieldID fk.type) % UINT_SIZE)) := by
  have hk := lt_length_of_getElem? hfk
  have ha := getFieldID_eq es k hk
  have hsucc := fieldSpan_take_succ es k fk hfk
  have hk1 : uadd k 1 = k + 1 := Nat.mod_eq_of_lt (by omega)
  unfold StructType.getFieldID at ha
  by_cases hlast : k + 1 ≥ es.length
  · have hkn : k + 1 = es.length := by omega
    have hspan : fieldSpan es
        = fieldSpan (es.take k) + (1 + FieldIdImpl.getMaxFieldID fk.type) := by
      rw [← hsucc, hkn, fieldSpan_take_length]
    have hiff : decide (id ≥ (1 + fieldSpan (es.take k)) % UINT_SIZE ∧
          id ≤ (getFieldIDsStruct es).1) =
        decide ((1 + fieldSpan (es.take k)) % UINT_SIZE ≤ id ∧
          id ≤ ((1 + fieldSpan (es.take k)) % UINT_SIZE
            + FieldIdImpl.getMaxFieldID fk.type) % UINT_SIZE) := by
      rw [getFieldIDsStruct_fst, hspan]
      apply decide_eq_decide.mpr
      simp only [UINT_SIZE]
      constructor <;> intro h <;> omega
    unfold StructType.projectToChildFieldID
    simp only [ha, hk1]
    rw [if_pos hlast, hiff]
  · have hnext := getFieldID_eq es (k + 1) (by omega)
    unfold StructType.getFieldID at hnext
    have hiff : decide (id ≥ (1 + fieldSpan (es.take k)) % UINT_SIZE ∧
          id ≤ usub ((1 + fieldSpan (es.take (k + 1))) % UINT_SIZE) 1) =
        decide ((1 + fieldSpan (es.take k)) % UINT_SIZE ≤ id ∧
          id ≤ ((1 + fieldSpan (es.take k)) % UINT_SIZE
            + FieldIdImpl.getMaxFieldID fk.type) % UINT_SIZE) := by
      rw [hsucc]
      apply decide_eq_decide.mpr
      simp only [usub, UINT_SIZE] at hid ⊢
      constructor <;> intro h <;> omega
    unfold StructType.projectToChildFieldID
    simp only [ha, hk1, hnext]
    rw [if_neg hlast, hiff]

/-- There is no projection to a child index outside the field list. -/
theorem projectToChildFieldID_none (es : List (FieldInfo Ty)) (id j : Nat)
    (hj : es.length ≤ j) : StructType.projectToChildFieldID es id j = none := by
  have h := getFieldID_none es j hj
  unfold StructType.getFieldID at h
  unfold StructType.projectToChildFieldID
  simp only [h]

/-- C29 (counterexample): in `<a: S, b: <x, y, z>>` with `maxFieldID(S) = 2^32 - 2`
the field IDs are `[1, 0]` and the maximum field ID is 3. The ID 1 is between 1
and 3, and the projection reports `inRange = true` for both children: child 0
with relative ID 0 and child 1 with relative ID 1. The lookups select child 1. -/
theorem projectToChildFieldID_two_children :
    1 ≤ 1 ∧ 1 ≤ StructType.getMaxFieldID wrapStruct
      ∧ StructType.projectToChildFieldID wrapStruct 1 0 = some (0, true)
      ∧ StructType.projectToChildFieldID wrapStruct 1 1 = some (1, true)
      ∧ StructType.getIndexForFieldID wrapStruct 1 = some 1 := by
  have hmax : StructType.getMaxFieldID wrapStruct = 3 := by
    rw [getMaxFieldID_eq, wrapStruct_span]
    simp [UINT_SIZE]
  have hfst : (getFieldIDsStruct wrapStruct).1 = 3 := by
    rw [getFieldIDsStruct_fst, wrapStruct_span]
    simp [UINT_SIZE]
  refine ⟨by decide, by rw [hmax]; decide, ?_, ?_, ?_⟩
  · unfold StructType.projectToChildFieldID
    simp only [wrapStruct_fieldIDs, hfst]
    decide
  · unfold StructType.projectToChildFieldID
    simp only [wrapStruct_fieldIDs, hfst]
    decide
  · unfold StructType.getIndexForFieldID
    simp only [wrapStruct_fieldIDs]
    decide

/-- C29 (amended): for every struct whose sum `Σ (1 + maxFieldID(field type))`
over the direct fields is below `2^32` and every `id` with
`1 ≤ id ≤ maxFieldID(T)`, there is exactly one child index `k` for which
`projectToChildFieldID(T, id, k)` reports `inRange = true`; that `k` equals
`getIndexForFieldID(T, id)`; and the relative ID it returns equals the remainder
returned by `getIndexAndSubfieldID(T, id)` and by `getSubTypeByFieldID(T, id)`,
whose type component is the type of field `k`. -/
theorem lookups_consistent (es : List (FieldInfo Ty))
    (hW : (es.map (fun field => 1 + FieldIdImpl.getMaxFieldID field.type)).sum < UINT_SIZE)
    (id : Nat) (h1 : 1 ≤ id) (h2 : id ≤ StructType.getMaxFieldID es) :
    ∃ k fk rel,
      StructType.projectToChildFieldID es id k = some (rel, true)
        ∧ (∀ j other, StructType.projectToChildFieldID es id j = some (other, true) → j = k)
        ∧ StructType.getIndexForFieldID es id = some k
        ∧ es[k]? = some fk
        ∧ StructType.getIndexAndSubfieldID es id = some (k, rel)
        ∧ StructType.getSubTypeByFieldID es id = some (fk.type, rel) := by
  have hW' : fieldSpan es < UINT_SIZE := hW
  have hn : es.length < UINT_SIZE := Nat.lt_of_le_of_lt (length_le_fieldSpan es) hW'
  rw [getMaxFieldID_eq, Nat.mod_eq_of_lt hW'] at h2
  have hid : id < UINT_SIZE := by omega
  obtain ⟨k, fk, hfk, hlo, hhi⟩ := exists_field_of_id es id h1 h2
  have hk := lt_length_of_getElem? hfk
  have hsk := fieldSpan_take_succ es k fk hfk
  have hlek := fieldSpan_take_le es (k + 1)
  have hmk : (1 + fieldSpan (es.take k)) % UINT_SIZE = 1 + fieldSpan (es.take k) :=
    Nat.mod_eq_of_lt (by omega)
  have hmk' : (1 + fieldSpan (es.take k) + FieldIdImpl.getMaxFieldID fk.type) % UINT_SIZE
      = 1 + fieldSpan (es.take k) + FieldIdImpl.getMaxFieldID fk.type :=
    Nat.mod_eq_of_lt (by omega)
  refine ⟨k, fk, id - (1 + fieldSpan (es.take k)), ?_, ?_,
    getIndexForFieldID_eq es hW' id k hk hlo hhi, hfk,
    getIndexAndSubfieldID_eq es hW' id k hk hlo hhi,
    getSubTypeByFieldID_eq es hW' id k fk hfk hlo hhi⟩
  · rw [projectToChildFieldID_eq es hn k fk hfk id hid, hmk, hmk',
      usub_eq_sub _ _ (by omega) hid, decide_eq_true (And.intro (by omega) (by omega))]
  · intro j other hj
    have hjlt : j < es.length := by
      by_contra hcon
      rw [projectToChildFieldID_none es id j (by omega)] at hj
      exact Option.noConfusion hj
    obtain ⟨fj, hfj⟩ := getElem?_of_lt es j hjlt
    rw [projectToChildFieldID_eq es hn j fj hfj id hid] at hj
    have hdec := congrArg Prod.snd (Option.some.inj hj)
    simp only [decide_eq_true_iff] at hdec
    have hsj := fieldSpan_take_succ es j fj hfj
    have hlej := fieldSpan_take_le es (j + 1)
    have hmj : (1 + fieldSpan (es.take j)) % UINT_SIZE = 1 + fieldSpan (es.take j) :=
      Nat.mod_eq_of_lt (by omega)
    rw [hmj, Nat.mod_eq_of_lt (show 1 + fieldSpan (es.take j)
      + FieldIdImpl.getMaxFieldID fj.type < UINT_SIZE by omega)] at hdec
    rcases Nat.lt_trichotomy j k with hlt | heq | hgt
    · have := fieldSpan_take_lt es fj hfj hlt
      omega
    · exact heq
    · have := fieldSpan_take_lt es fk hfk hgt
      omega

/-- C29 (witness): in `<a: bool, b: <x, y, z>, c: bool>` the ID 4 is between 1
and the maximum 6; both lookups and the projection select child 1 with
remainder 2. -/
theorem lookups_consistent_witness :
    (exampleStruct.map (fun field => 1 + FieldIdImpl.getMaxFieldID field.type)).sum
        < UINT_SIZE
      ∧ 1 ≤ 4 ∧ 4 ≤ StructType.getMaxFieldID exampleStruct
      ∧ StructType.projectToChildFieldID exampleStruct 4 1 = some (2, true)
      ∧ ∃ k fk rel,
          StructType.projectToChildFieldID exampleStruct 4 k = some (rel, true)
            ∧ (∀ j other,
                StructType.projectToChildFieldID exampleStruct 4 j = some (other, true) → j = k)
            ∧ StructType.getIndexForFieldID exampleStruct 4 = some k
            ∧ exampleStruct[k]? = some fk
            ∧ StructType.getIndexAndSubfieldID exampleStruct 4 = some (k, rel)
            ∧ StructType.getSubTypeByFieldID exampleStruct 4 = some (fk.type, rel) :=
  ⟨by decide, by decide, by decide, by decide,
    lookups_consistent exampleStruct (by decide) 4 (by decide) (by decide)⟩

/-! ## Comma-separated lists -/

/-- A turn of the list loop whose element is followed by a comma goes on with
the next element. -/
theorem parseCommaSeparatedListLoop_comma {σ : Type}
    (parseElement : σ → List Token → LogicalResult × σ × List Token) (fuel : Nat)
    (state next : σ) (input rest : List Token)
    (h : parseElement state input = (.success, next, Token.comma :: rest)) :
    AsmParser.parseCommaSeparatedListLoop parseElement (fuel + 1) state input =
      AsmParser.parseCommaSeparatedListLoop parseElement fuel next rest := by
  rw [AsmParser.parseCommaSeparatedListLoop, h]

/-- A turn of the list loop whose element is not followed by a comma ends the
list. -/
theorem parseCommaSeparatedListLoop_last {σ : Type}
    (parseElement : σ → List Token → LogicalResult × σ × List Token) (fuel : Nat)
    (state next : σ) (input rest : List Token)
    (h : parseElement state input = (.success, next, rest))
    (hrest : ∀ tail, rest ≠ Token.comma :: tail) :
    AsmParser.parseCommaSeparatedListLoop parseElement (fuel + 1) state input =
      (.success, next, rest) := by
  rw [AsmParser.parseCommaSeparatedListLoop, h]
  cases rest with
  | nil => rfl
  | cons token tail =>
    cases token with
    | comma => exact absurd rfl (hrest tail)
    | _ => rfl

/-- The list loop on the texts of the elements `x, xs`, separated by commas and
followed by something other than a comma, folds the elements into the state. -/
theorem parseCommaSeparatedListLoop_interleave {σ α : Type}
    (parseElement : σ → List Token → LogicalResult × σ × List Token)
    (text : α → List Token) (step : σ → α → σ)
    (helement : ∀ state x rest, parseElement state (text x ++ rest) = (.success, step state x, rest))
    (xs : List α) (x : α) (rest : List Token) (hrest : ∀ tail, rest ≠ Token.comma :: tail)
    (fuel : Nat) (hfuel : xs.length < fuel) (state : σ) :
    AsmParser.parseCommaSeparatedListLoop parseElement fuel state
        (interleaveComma ((x :: xs).map text) ++ rest) =
      (.success, (x :: xs).foldl step state, rest) := by
  induction xs generalizing x fuel state with
  | nil =>
    obtain ⟨fuel, rfl⟩ : ∃ n, fuel = n + 1 := ⟨fuel - 1, by omega⟩
    simp only [List.map_cons, List.map_nil, interleaveComma, List.foldl_cons, List.foldl_nil]
    exact parseCommaSeparatedListLoop_last parseElement fuel state _ _ rest
      (helement state x rest) hrest
  | cons y ys ih =>
    obtain ⟨fuel, rfl⟩ : ∃ n, fuel = n + 1 := ⟨fuel - 1, by omega⟩
    simp only [List.length_cons] at hfuel
    have htext : interleaveComma ((x :: y :: ys).map text) ++ rest =
        text x ++ Token.comma :: (interleaveComma ((y :: ys).map text) ++ rest) := by
      simp only [List.map_cons, interleaveComma, List.append_assoc, List.cons_append]
    rw [htext, parseCommaSeparatedListLoop_comma parseElement fuel state _ _ _
      (helement state x _), ih y fuel (by omega) (step state x)]
    rfl

/-- The text of a list has at least as many tokens as elements when no element
has an empty text. -/
theorem interleaveComma_length (texts : List (List Token))
    (h : ∀ text ∈ texts, 1 ≤ text.length) : texts.length ≤ (interleaveComma texts).length := by
  induction texts with
  | nil => simp [interleaveComma]
  | cons text rest ih =>
    cases rest with
    | nil =>
      have := h text (List.mem_cons_self _ _)
      simpa [interleaveComma] using this
    | cons next rest =>
      have h1 := h text (List.mem_cons_self _ _)
      have h2 := ih (fun t ht => h t (List.mem_cons_of_mem _ ht))
      simp only [interleaveComma, List.length_append, List.length_cons] at h2 ⊢
      omega

/-! ## The struct field list: the claim -/

/-- The callback of `parseFields` on the text of an entry. -/
theorem parseFieldsElement_entry (state : ParseFieldsState) (entry : Bool × FieldInfo Ty)
    (rest : List Token) :
    parseFieldsElement state (fieldEntryText entry.1 entry.2 ++ rest) =
      (.success, parseFieldsInsert state entry.2.name entry.2.type, rest) := by
  obtain ⟨quoted, field⟩ := entry
  cases quoted <;> rfl

/-- The state of `parseFields` after all the entries: the set holds the names
seen, `hasDuplicateName` is set exactly when a name is repeated, there is one
error for every field index whose name occurs among the earlier fields, in field
order, and every field is pushed. -/
theorem parseFieldsInsert_foldl (es : List (FieldInfo Ty)) :
    (∀ s, s ∈ (es.foldl (fun state field => parseFieldsInsert state field.name field.type)
          ⟨[], false, [], []⟩).nameSet ↔ s ∈ es.map (fun e => e.name))
      ∧ ((es.foldl (fun state field => parseFieldsInsert state field.name field.type)
          ⟨[], false, [], []⟩).hasDuplicateName = false ↔ (es.map (fun e => e.name)).Nodup)
      ∧ (es.foldl (fun state field => parseFieldsInsert state field.name field.type)
          ⟨[], false, [], []⟩).diagnostics =
          (List.range es.length).filterMap (fun i => (es[i]?).bind (fun e =>
            if e.name ∈ (es.take i).map (fun e => e.name)
            then some ("duplicate field name '" ++ e.name ++ "'") else none))
      ∧ (es.foldl (fun state field => parseFieldsInsert state field.name field.type)
          ⟨[], false, [], []⟩).parameters = es := by
  induction es using List.reverseRecOn with
  | nil => simp
  | append_singleton l a ih =>
    obtain ⟨hset, hres, hdiag, hpar⟩ := ih
    have hcongr : (List.range l.length).filterMap (fun i => ((l ++ [a])[i]?).bind (fun e =>
          if e.name ∈ ((l ++ [a]).take i).map (fun e => e.name)
          then some ("duplicate field name '" ++ e.name ++ "'") else none)) =
        (List.range l.length).filterMap (fun i => (l[i]?).bind (fun e =>
          if e.name ∈ (l.take i).map (fun e => e.name)
          then some ("duplicate field name '" ++ e.name ++ "'") else none)) := by
      apply List.filterMap_congr
      intro i hi
      rw [List.mem_range] at hi
      rw [List.getElem?_append_left hi, List.take_append_of_le_length (le_of_lt hi)]
    have hlast : ((l ++ [a])[l.length]?).bind (fun e =>
          if e.name ∈ ((l ++ [a]).take l.length).map (fun e => e.name)
          then some ("duplicate field name '" ++ e.name ++ "'") else none) =
        if a.name ∈ l.map (fun e => e.name)
        then some ("duplicate field name '" ++ a.name ++ "'") else none := by
      rw [List.getElem?_append_right (le_refl _), List.take_append_of_le_length (le_refl _),
        List.take_length]
      simp
    rw [List.foldl_append, List.length_append, List.length_singleton, List.range_succ,
      List.filterMap_append, hcongr, ← hdiag]
    simp only [List.foldl_cons, List.foldl_nil, List.filterMap_cons, List.filterMap_nil, hlast]
    generalize l.foldl (fun state field => parseFieldsInsert state field.name field.type)
      ⟨[], false, [], []⟩ = st at hset hres hpar ⊢
    unfold parseFieldsInsert
    by_cases hmem : a.name ∈ l.map (fun e => e.name)
    · have hmem' := (hset a.name).mpr hmem
      rw [if_pos hmem', if_pos hmem]
      refine ⟨?_, ?_, rfl, by simp only [hpar]⟩
      · intro s
        rw [hset s, List.map_append, List.mem_append]
        constructor
        · exact Or.inl
        · rintro (h | h)
          · exact h
          · simp only [List.map_cons, List.map_nil, List.mem_singleton] at h
            rw [h]; exact hmem
      · constructor
        · intro h; exact Bool.noConfusion h
        · intro h
          rw [List.map_append, List.nodup_append] at h
          exact absurd (List.mem_singleton.mpr rfl) (fun hs => h.2.2 hmem hs)
    · have hmem' : a.name ∉ st.nameSet := fun h => hmem ((hset a.name).mp h)
      rw [if_neg hmem', if_neg hmem]
      refine ⟨?_, ?_, by simp, by simp only [hpar]⟩
      · intro s
        simp only [List.mem_cons, hset s, List.map_append, List.mem_append, List.map_cons,
          List.map_nil, List.mem_singleton]
        tauto
      · simp only [hres, List.map_append, List.map_cons, List.map_nil]
        rw [List.nodup_append]
        constructor
        · intro h
          refine ⟨h, List.nodup_singleton _, ?_⟩
          intro s hs hs'
          rw [List.mem_singleton] at hs'
          rw [hs'] at hs
          exact hmem hs
        · intro h; exact h.1

/-- The list of `parseFields` on the text of a field list folds the entries into
the state and leaves what follows the text. -/
theorem parseCommaSeparatedList_fieldListText (entries : List (Bool × FieldInfo Ty))
    (rest : List Token) :
    AsmParser.parseCommaSeparatedList .LessGreater parseFieldsElement ⟨[], false, [], []⟩
        (fieldListText entries ++ rest) =
      (.success,
        (entries.map Prod.snd).foldl
          (fun state field => parseFieldsInsert state field.name field.type) ⟨[], false, [], []⟩,
        rest) := by
  cases entries with
  | nil => rfl
  | cons entry entries =>
    have hloop := parseCommaSeparatedListLoop_interleave parseFieldsElement
      (fun entry : Bool × FieldInfo Ty => fieldEntryText entry.1 entry.2)
      (fun state entry => parseFieldsInsert state entry.2.name entry.2.type)
      parseFieldsElement_entry entries entry (Token.greater :: rest)
      (fun tail h => Token.noConfusion (List.cons.inj h).1)
    have hlen := interleaveComma_length
      ((entry :: entries).map (fun entry => fieldEntryText entry.1 entry.2))
      (by
        intro text htext
        rw [List.mem_map] at htext
        obtain ⟨e, _, rfl⟩ := htext
        simp [fieldEntryText])
    rw [List.length_map, List.length_cons] at hlen
    have htext : fieldListText (entry :: entries) ++ rest =
        Token.less :: (interleaveComma
          ((entry :: entries).map (fun entry => fieldEntryText entry.1 entry.2))
            ++ Token.greater :: rest) := by
      simp only [fieldListText, List.cons_append, List.append_assoc, List.nil_append]
    have hhead : ∃ token tail, interleaveComma
          ((entry :: entries).map (fun entry => fieldEntryText entry.1 entry.2))
            ++ Token.greater :: rest = token :: tail ∧ token ≠ Token.greater := by
      obtain ⟨quoted, field⟩ := entry
      cases entries with
      | nil => cases quoted <;> exact ⟨_, _, rfl, fun h => Token.noConfusion h⟩
      | cons next entries => cases quoted <;> exact ⟨_, _, rfl, fun h => Token.noConfusion h⟩
    obtain ⟨token, tail, hcons, hne⟩ := hhead
    have hrun := hloop
      ((interleaveComma ((entry :: entries).map (fun entry => fieldEntryText entry.1 entry.2))
        ++ Token.greater :: rest).length + 1)
      (by rw [List.length_append]; omega) ⟨[], false, [], []⟩
    rw [htext]
    rw [hcons] at hrun ⊢
    have hfold : (entry :: entries).foldl
          (fun state entry => parseFieldsInsert state entry.2.name entry.2.type)
          ⟨[], false, [], []⟩ =
        ((entry :: entries).map Prod.snd).foldl
          (fun state field => parseFieldsInsert state field.name field.type)
          ⟨[], false, [], []⟩ := by
      rw [List.foldl_map]
    rw [hfold] at hrun
    unfold AsmParser.parseCommaSeparatedList
    cases token with
    | greater => exact absurd rfl hne
    | _ => simp only [hrun]

/-- C24: for every text `<name1: type1, ...>` of a field list, whatever the
spelling of the names and whatever follows it, `parseFields` reads every entry,
also after a repeated name; it fails if and only if some field name occurs more
than once; it emits exactly one `duplicate field name` error, naming the field,
for every field whose name already occurred earlier in the list; and
`StructType::parse` gives no type exactly when `parseFields` fails, the struct
of the parsed fields otherwise. On every input at all, `StructType::parse` gives
no type when `parseFields` fails. -/
theorem parseFields_spec (entries : List (Bool × FieldInfo Ty)) (rest : List Token) :
    ∃ result diagnostics,
      parseFields (fieldListText entries ++ rest) =
          (result, diagnostics, entries.map Prod.snd, rest)
        ∧ (result = .failure ↔ ¬ (entries.map (fun entry => entry.2.name)).Nodup)
        ∧ (result = .success ↔ (entries.map (fun entry => entry.2.name)).Nodup)
        ∧ diagnostics =
            (List.range entries.length).filterMap (fun i => (entries[i]?).bind (fun entry =>
              if entry.2.name ∈ (entries.take i).map (fun entry => entry.2.name)
              then some ("duplicate field name '" ++ entry.2.name ++ "'") else none))
        ∧ (result = .failure →
            StructType.parse (fieldListText entries ++ rest) = (none, diagnostics))
        ∧ (result = .success →
            StructType.parse (fieldListText entries ++ rest) =
              (some (.struct (entries.map Prod.snd)), []))
        ∧ (∀ input, (parseFields input).1 = .failure → (StructType.parse input).1 = none)
        ∧ parseFields (fieldListText
              [(false, ⟨"a", .bool⟩), (false, ⟨"b", .bool⟩), (true, ⟨"a", .bits 8 false⟩),
                (false, ⟨"b", .bool⟩)]) =
            (.failure, ["duplicate field name 'a'", "duplicate field name 'b'"],
              [⟨"a", .bool⟩, ⟨"b", .bool⟩, ⟨"a", .bits 8 false⟩, ⟨"b", .bool⟩], []) := by
  obtain ⟨_, hdup, hdiag, hpar⟩ := parseFieldsInsert_foldl (entries.map Prod.snd)
  have hlist := parseCommaSeparatedList_fieldListText entries rest
  have hnames : (entries.map Prod.snd).map (fun e => e.name)
      = entries.map (fun entry => entry.2.name) := by
    rw [List.map_map]; rfl
  have hdiag' : (List.range (entries.map Prod.snd).length).filterMap
        (fun i => ((entries.map Prod.snd)[i]?).bind (fun e =>
          if e.name ∈ ((entries.map Prod.snd).take i).map (fun e => e.name)
          then some ("duplicate field name '" ++ e.name ++ "'") else none)) =
      (List.range entries.length).filterMap (fun i => (entries[i]?).bind (fun entry =>
        if entry.2.name ∈ (entries.take i).map (fun entry => entry.2.name)
        then some ("duplicate field name '" ++ entry.2.name ++ "'") else none)) := by
    rw [List.length_map]
    apply List.filterMap_congr
    intro i _
    rw [List.getElem?_map, ← List.map_take, List.map_map]
    cases entries[i]? <;> rfl
  rw [hnames] at hdup
  rw [hdiag'] at hdiag
  have hall : ∀ input, (parseFields input).1 = .failure → (StructType.parse input).1 = none := by
    intro input h
    unfold StructType.parse
    generalize parseFields input = outcome at h ⊢
    obtain ⟨result, diagnostics, parameters, tail⟩ := outcome
    cases result with
    | failure => rfl
    | success => exact LogicalResult.noConfusion h
  generalize (entries.map Prod.snd).foldl
    (fun state field => parseFieldsInsert state field.name field.type)
    ⟨[], false, [], []⟩ = st at hlist hdup hdiag hpar
  have hparse : parseFields (fieldListText entries ++ rest) =
      (if st.hasDuplicateName then LogicalResult.failure else LogicalResult.success,
        st.diagnostics, st.parameters, rest) := by
    unfold parseFields
    rw [hlist]
    cases h : st.hasDuplicateName <;> simp [h]
  by_cases hnodup : (entries.map (fun entry => entry.2.name)).Nodup
  · have hfalse := hdup.mpr hnodup
    have hnone : st.diagnostics = [] := by
      rw [hdiag]
      apply List.filterMap_eq_nil_iff.mpr
      intro i hi
      rw [List.mem_range] at hi
      rw [List.getElem?_eq_getElem hi]
      simp only [Option.some_bind]
      rw [if_neg]
      intro hmem
      rw [List.mem_map] at hmem
      obtain ⟨other, hother, hname⟩ := hmem
      obtain ⟨j, hj, hget⟩ := List.getElem_of_mem hother
      rw [List.length_take] at hj
      have hjlt : j < entries.length := by omega
      have hji : j < i := by omega
      rw [List.getElem_take] at hget
      have hinj := (List.nodup_iff_injective_get.mp hnodup)
      have hidx : (⟨j, by rw [List.length_map]; exact hjlt⟩ :
          Fin (entries.map (fun entry => entry.2.name)).length) =
          ⟨i, by rw [List.length_map]; exact hi⟩ := by
        apply hinj
        simp only [List.get_eq_getElem, List.getElem_map]
        rw [hget, hname]
      have := congrArg Fin.val hidx
      simp only at this
      omega
    rw [hfalse] at hparse
    refine ⟨.success, st.diagnostics, ?_, ?_, ?_, hdiag, ?_, ?_, hall, by rfl⟩
    · rw [hparse, hpar]; rfl
    · simp [hnodup]
    · simp [hnodup]
    · intro h; exact LogicalResult.noConfusion h
    · intro _
      unfold StructType.parse
      rw [hparse, hpar, hnone]
      rfl
  · have htrue : st.hasDuplicateName = true := by
      cases h : st.hasDuplicateName with
      | true => rfl
      | false => exact absurd (hdup.mp h) hnodup
    rw [htrue] at hparse
    refine ⟨.failure, st.diagnostics, ?_, ?_, ?_, hdiag, ?_, ?_, hall, by rfl⟩
    · rw [hparse, hpar]; rfl
    · simp [hnodup]
    · simp [hnodup]
    · intro _
      unfold StructType.parse
      rw [hparse]
      rfl
    · intro h; exact LogicalResult.noConfusion h


/-! ## The function signature: the claim -/

/-- The callback of `parseFuncType` on the text of a type. -/
theorem parseFuncTypeElement_type (params : List Ty) (type : Ty) (rest : List Token) :
    parseFuncTypeElement params ([Token.typeText type] ++ rest) =
      (.success, params ++ [type], rest) := rfl

/-- Pushing the types of a list one by one appends the list. -/
theorem foldl_push (types params : List Ty) :
    types.foldl (fun params type => params ++ [type]) params = params ++ types := by
  induction types generalizing params with
  | nil => simp
  | cons type types ih => rw [List.foldl_cons, ih]; simp

/-- After the opening parenthesis, `parseFuncType` reads back the input types
that `printFuncType` wrote. -/
theorem parseFuncType_params (optionalReturnType : Option Ty) (params : List Ty)
    (rest : List Token) :
    (match AsmParser.parseOptionalRParen
        (interleaveComma (params.map (fun type => [Token.typeText type]))
          ++ Token.rparen :: rest) with
      | some rest => some (optionalReturnType, ([] : List Ty), rest)
      | none =>
        match AsmParser.parseCommaSeparatedList .None parseFuncTypeElement []
            (interleaveComma (params.map (fun type => [Token.typeText type]))
              ++ Token.rparen :: rest) with
        | (.failure, _, _) => none
        | (.success, params, rest) =>
          match AsmParser.parseRParen rest with
          | none => none
          | some rest => some (optionalReturnType, params, rest))
      = some (optionalReturnType, params, rest) := by
  cases params with
  | nil => rfl
  | cons type types =>
    have hloop := parseCommaSeparatedListLoop_interleave parseFuncTypeElement
      (fun type : Ty => [Token.typeText type]) (fun params type => params ++ [type])
      parseFuncTypeElement_type types type (Token.rparen :: rest)
      (fun tail h => Token.noConfusion (List.cons.inj h).1)
    have hlen := interleaveComma_length
      ((type :: types).map (fun type => [Token.typeText type]))
      (by
        intro text htext
        rw [List.mem_map] at htext
        obtain ⟨e, _, rfl⟩ := htext
        simp)
    rw [List.length_map, List.length_cons] at hlen
    have hhead : ∃ tail, interleaveComma ((type :: types).map (fun type => [Token.typeText type]))
          ++ Token.rparen :: rest = Token.typeText type :: tail := by
      cases types with
      | nil => exact ⟨_, rfl⟩
      | cons next types => exact ⟨_, rfl⟩
    obtain ⟨tail, hcons⟩ := hhead
    have hrun := hloop
      ((interleaveComma ((type :: types).map (fun type => [Token.typeText type]))
        ++ Token.rparen :: rest).length + 1)
      (by rw [List.length_append]; omega) []
    rw [foldl_push, List.nil_append] at hrun
    unfold AsmParser.parseCommaSeparatedList
    simp only [hrun]
    rw [hcons]
    rfl

/-- What `parseFuncType` does after the opening parenthesis leaves the return
type as it is. -/
theorem parseFuncType_fst (optionalReturnType : Option Ty) (input : List Token)
    (result : Option Ty × List Ty × List Token)
    (h : (match AsmParser.parseOptionalRParen input with
      | some rest => some (optionalReturnType, ([] : List Ty), rest)
      | none =>
        match AsmParser.parseCommaSeparatedList .None parseFuncTypeElement [] input with
        | (.failure, _, _) => none
        | (.success, params, rest) =>
          match AsmParser.parseRParen rest with
          | none => none
          | some rest => some (optionalReturnType, params, rest)) = some result) :
    result.1 = optionalReturnType := by
  split at h
  · rw [← Option.some.inj h]
  · split at h
    · exact Option.noConfusion h
    · split at h
      · exact Option.noConfusion h
      · rw [← Option.some.inj h]

/-- C25: `parseFuncType` never yields `Void` as the optional return type: when
the input starts with `(` the return type is absent; when a leading type is
parsed and it is `Void` the return type is also absent; otherwise it is the
parsed type. For every signature whose return type is absent or not `Void`,
parsing the output of `printFuncType`, whatever follows it, gives back the same
optional return type and the same input types in order; the output for a stored
`Void` return type parses to an absent one. -/
theorem parseFuncType_spec (optionalReturnType : Option Ty) (params : List Ty)
    (rest : List Token) (hvoid : optionalReturnType ≠ some Ty.void) :
    parseFuncType (printFuncType optionalReturnType params ++ rest) =
        some (optionalReturnType, params, rest)
      ∧ parseFuncType (printFuncType (some Ty.void) params ++ rest) = some (none, params, rest)
      ∧ (∀ input result, parseFuncType input = some result →
          result.1 ≠ some Ty.void
            ∧ (∀ tail, input = Token.lparen :: tail → result.1 = none)
            ∧ (∀ tail, input = Token.typeText Ty.void :: tail → result.1 = none)
            ∧ (∀ type tail, input = Token.typeText type :: tail → type ≠ Ty.void →
                result.1 = some type)) := by
  refine ⟨?_, ?_, ?_⟩
  · cases optionalReturnType with
    | none =>
      have h := parseFuncType_params none params rest
      unfold parseFuncType printFuncType
      simpa [AsmParser.parseOptionalLParen] using h
    | some type =>
      have h := parseFuncType_params (some type) params rest
      have htype : type ≠ Ty.void := fun h => hvoid (by rw [h])
      unfold parseFuncType printFuncType
      cases type with
      | void => exact absurd rfl htype
      | _ => simpa [AsmParser.parseOptionalLParen, AsmParser.parseType, AsmParser.parseLParen]
          using h
  · have h := parseFuncType_params none params rest
    unfold parseFuncType printFuncType
    simpa [AsmParser.parseOptionalLParen, AsmParser.parseType, AsmParser.parseLParen] using h
  · intro input result hresult
    unfold parseFuncType at hresult
    cases input with
    | nil => simp [AsmParser.parseOptionalLParen, AsmParser.parseType] at hresult
    | cons token tail =>
      cases token with
      | lparen =>
        simp only [AsmParser.parseOptionalLParen] at hresult
        have hnone : result.1 = none := parseFuncType_fst none _ _ hresult
        refine ⟨by rw [hnone]; exact fun h => Option.noConfusion h, fun _ _ => hnone, ?_, ?_⟩
        · intro tail h; exact Token.noConfusion (List.cons.inj h).1
        · intro type tail h; exact Token.noConfusion (List.cons.inj h).1
      | typeText type =>
        simp only [AsmParser.parseOptionalLParen, AsmParser.parseType] at hresult
        cases tail with
        | nil => simp [AsmParser.parseLParen] at hresult
        | cons second tail =>
          cases second with
          | lparen =>
            simp only [AsmParser.parseLParen] at hresult
            have hrt : result.1 = if type = Ty.void then none else some type := by
              cases type <;>
                (have h := parseFuncType_fst _ _ _ hresult
                 simpa using h)
            refine ⟨?_, ?_, ?_, ?_⟩
            · rw [hrt]
              by_cases hty : type = Ty.void
              · rw [if_pos hty]; exact fun h => Option.noConfusion h
              · rw [if_neg hty]; exact fun h => hty (Option.some.inj h)
            · intro tail h; exact Token.noConfusion (List.cons.inj h).1
            · intro tail h
              have := Token.typeText.inj (List.cons.inj h).1
              rw [hrt, if_pos this]
            · intro other tail h hne
              have := Token.typeText.inj (List.cons.inj h).1
              subst this
              rw [hrt, if_neg hne]
          | _ => simp [AsmParser.parseLParen] at hresult
      | _ => simp [AsmParser.parseOptionalLParen, AsmParser.parseType] at hresult

/-- C25 (witness): the signature `bit<8> (bool, int<4>)` is printed and parsed
back. -/
theorem parseFuncType_spec_witness :
    (some (Ty.bits 8 false) ≠ some Ty.void)
      ∧ printFuncType (some (Ty.bits 8 false)) [Ty.bool, Ty.bits 4 true] =
          [Token.typeText (Ty.bits 8 false), Token.lparen, Token.typeText Ty.bool, Token.comma,
            Token.typeText (Ty.bits 4 true), Token.rparen]
      ∧ (parseFuncType (printFuncType (some (Ty.bits 8 false)) [Ty.bool, Ty.bits 4 true] ++ []) =
          some (some (Ty.bits 8 false), [Ty.bool, Ty.bits 4 true], [])
        ∧ parseFuncType (printFuncType (some Ty.void) [Ty.bool, Ty.bits 4 true] ++ []) =
            some (none, [Ty.bool, Ty.bits 4 true], [])
        ∧ (∀ input result, parseFuncType input = some result →
            result.1 ≠ some Ty.void
              ∧ (∀ tail, input = Token.lparen :: tail → result.1 = none)
              ∧ (∀ tail, input = Token.typeText Ty.void :: tail → result.1 = none)
              ∧ (∀ type tail, input = Token.typeText type :: tail → type ≠ Ty.void →
                  result.1 = some type))) :=
  ⟨by decide, rfl,
    parseFuncType_spec (some (Ty.bits 8 false)) [Ty.bool, Ty.bits 4 true] [] (by decide)⟩


/-! ## Decimal digits -/

/-- The ten decimal digit characters are digits, are not blanks, and have their
value at distance 48 from their code. -/
theorem digitChar_facts (d : Nat) (hd : d < 10) :
    (Nat.digitChar d).isDigit = true ∧ (Nat.digitChar d).isWhitespace = false
      ∧ (Nat.digitChar d).toNat - 48 = d := by
  interval_cases d <;> exact ⟨rfl, rfl, rfl⟩

/-- The digits the printer writes for `n`, before the characters `ds` already
written: at least one, all decimal digit characters, and of value `n`. -/
theorem toDigitsCore_digits (fuel n : Nat) (ds : List Char) (hn : n < fuel) :
    ∃ digits, Nat.toDigitsCore 10 fuel n ds = digits ++ ds ∧ digits ≠ []
      ∧ (∀ c ∈ digits, ∃ d, d < 10 ∧ c = Nat.digitChar d)
      ∧ digits.foldl (fun value digit => 10 * value + (digit.toNat - 48)) 0 = n := by
  induction fuel generalizing n ds with
  | zero => omega
  | succ fuel ih =>
    unfold Nat.toDigitsCore
    simp only []
    have hmod : n % 10 < 10 := Nat.mod_lt _ (by decide)
    by_cases hzero : n / 10 = 0
    · rw [if_pos hzero]
      refine ⟨[Nat.digitChar (n % 10)], rfl, by simp, ?_, ?_⟩
      · intro c hc
        rw [List.mem_singleton] at hc
        exact ⟨n % 10, hmod, hc⟩
      · simp only [List.foldl_cons, List.foldl_nil, (digitChar_facts _ hmod).2.2]
        omega
    · rw [if_neg hzero]
      obtain ⟨digits, heq, _, hall, hval⟩ := ih (n / 10) (Nat.digitChar (n % 10) :: ds) (by omega)
      refine ⟨digits ++ [Nat.digitChar (n % 10)], ?_, by simp, ?_, ?_⟩
      · rw [heq, List.append_assoc]; rfl
      · intro c hc
        rw [List.mem_append, List.mem_singleton] at hc
        rcases hc with hc | hc
        · exact hall c hc
        · exact ⟨n % 10, hmod, hc⟩
      · rw [List.foldl_append, hval]
        simp only [List.foldl_cons, List.foldl_nil, (digitChar_facts _ hmod).2.2]
        omega

/-- A run of digits followed by `>` is taken whole. -/
theorem takeWhile_digits (digits rest : List Char)
    (h : ∀ c ∈ digits, ∃ d, d < 10 ∧ c = Nat.digitChar d) :
    (digits ++ '>' :: rest).takeWhile Char.isDigit = digits
      ∧ (digits ++ '>' :: rest).dropWhile Char.isDigit = '>' :: rest := by
  induction digits with
  | nil => exact ⟨rfl, rfl⟩
  | cons c digits ih =>
    obtain ⟨d, hd, rfl⟩ := h c (List.mem_cons_self _ _)
    obtain ⟨h1, h2⟩ := ih (fun c hc => h c (List.mem_cons_of_mem _ hc))
    have hdigit := (digitChar_facts d hd).1
    simp only [List.cons_append, List.takeWhile_cons, List.dropWhile_cons, hdigit, if_true, h1, h2,
      and_self]

/-- The text `BitsType::print` writes, character by character. -/
theorem BitsType_print_toList (width : Nat) (isSigned : Bool) :
    ∃ digits, (BitsType.print width isSigned).toList =
        (if isSigned then ['i', 'n', 't'] else ['b', 'i', 't']) ++ '<' :: (digits ++ ['>'])
      ∧ digits ≠ []
      ∧ (∀ c ∈ digits, ∃ d, d < 10 ∧ c = Nat.digitChar d)
      ∧ digits.foldl (fun value digit => 10 * value + (digit.toNat - 48)) 0 = width := by
  obtain ⟨digits, heq, hne, hall, hval⟩ := toDigitsCore_digits (width + 1) width [] (by omega)
  rw [List.append_nil] at heq
  refine ⟨digits, ?_, hne, hall, hval⟩
  have hrepr : (toString width).data = digits := by
    show (Nat.repr width).data = digits
    rw [Nat.repr, Nat.toDigits, heq]
    rfl
  unfold BitsType.print
  cases isSigned <;> simp [String.toList, hrepr]

/-- `BitsType::parse` reads back `<`, the digits of a 32-bit width, `>`. -/
theorem BitsType_parse_digits (digits : List Char) (width : Nat) (isSigned : Bool)
    (hne : digits ≠ []) (hall : ∀ c ∈ digits, ∃ d, d < 10 ∧ c = Nat.digitChar d)
    (hval : digits.foldl (fun value digit => 10 * value + (digit.toNat - 48)) 0 = width)
    (hwidth : width < UINT_SIZE) :
    BitsType.parse ('<' :: (digits ++ ['>'])) isSigned = some (.bits width isSigned) := by
  cases digits with
  | nil => exact absurd rfl hne
  | cons c digits =>
    obtain ⟨d, hd, hc⟩ := hall c (List.mem_cons_self _ _)
    obtain ⟨hdigit, hblank, _⟩ := digitChar_facts d hd
    rw [← hc] at hdigit hblank
    obtain ⟨htake, hdrop⟩ := takeWhile_digits digits []
      (fun c hc => hall c (List.mem_cons_of_mem _ hc))
    have hless : DialectAsmParser.parseLess ('<' :: (c :: digits ++ ['>'])) =
        some (c :: digits ++ ['>']) := rfl
    have hinteger : DialectAsmParser.parseInteger (c :: digits ++ ['>']) =
        some (width, ['>']) := by
      have hskip : Lexer.skipWhitespace (c :: (digits ++ ['>'])) = c :: (digits ++ ['>']) := by
        rw [Lexer.skipWhitespace, hblank]
        rfl
      show DialectAsmParser.parseInteger (c :: (digits ++ ['>'])) = some (width, ['>'])
      unfold DialectAsmParser.parseInteger
      rw [hskip]
      simp only [hdigit, if_true, htake, hdrop, hval, hwidth]
    have hgreater : DialectAsmParser.parseGreater ['>'] = some [] := rfl
    unfold BitsType.parse
    rw [hless]
    simp only [hinteger, hgreater]

/-- C22: for every 32-bit width `w` and signedness `s`, `BitsType::print` writes
exactly `int<w>` when `s` is signed and `bit<w>` otherwise, the width in decimal
digits; when the generated parser has no type of mnemonic `int` or `bit`,
`P4HIRDialect::parseType` on that text gives `Bits` of width `w` and signedness
`s` and no error; and for every text whose keyword is neither a generated
mnemonic nor `int` nor `bit`, it gives no type and the one error
`unknown P4HIR type: ` followed by the keyword. -/
theorem BitsType_print_parse (generated : List (String × (List Char → Option Ty)))
    (hint : generated.lookup "int" = none) (hbit : generated.lookup "bit" = none)
    (width : Nat) (hwidth : width < UINT_SIZE) (isSigned : Bool) :
    BitsType.print width true = "int<" ++ toString width ++ ">"
      ∧ BitsType.print width false = "bit<" ++ toString width ++ ">"
      ∧ P4HIRDialect.parseType generated (BitsType.print width isSigned) =
          (some (.bits width isSigned), [])
      ∧ (∀ text mnemonic rest,
          DialectAsmParser.parseOptionalKeyword text.toList = some (mnemonic, rest) →
          generated.lookup mnemonic = none → mnemonic ≠ "int" → mnemonic ≠ "bit" →
            P4HIRDialect.parseType generated text =
              (none, ["unknown P4HIR type: " ++ mnemonic])) := by
  refine ⟨rfl, rfl, ?_, ?_⟩
  · obtain ⟨digits, htext, hne, hall, hval⟩ := BitsType_print_toList width isSigned
    have hparse := BitsType_parse_digits digits width isSigned hne hall hval hwidth
    unfold P4HIRDialect.parseType generatedTypeParser
    rw [htext]
    cases isSigned with
    | true =>
      have hkeyword : DialectAsmParser.parseOptionalKeyword
          ((if true = true then ['i', 'n', 't'] else ['b', 'i', 't']) ++ '<' :: (digits ++ ['>'])) =
          some ("int", '<' :: (digits ++ ['>'])) := rfl
      rw [hkeyword]
      simp only [hint, if_true, hparse]
    | false =>
      have hkeyword : DialectAsmParser.parseOptionalKeyword
          ((if false = true then ['i', 'n', 't'] else ['b', 'i', 't']) ++ '<' :: (digits ++ ['>'])) =
          some ("bit", '<' :: (digits ++ ['>'])) := rfl
      rw [hkeyword]
      simp only [hbit, hparse]
      rfl
  · intro text mnemonic rest hkeyword hlookup hnint hnbit
    unfold P4HIRDialect.parseType generatedTypeParser
    rw [hkeyword]
    simp only [hlookup]
    rw [if_neg hnint, if_neg hnbit]

/-- C22 (witness): with the generated types `bool`, `infint` and `void`, the
text of `bit<8>` is `bit<8>` and is parsed back; `bits<8>` is an unknown
type. -/
theorem BitsType_print_parse_witness :
    List.lookup "int" exampleGenerated = none
      ∧ List.lookup "bit" exampleGenerated = none
      ∧ 8 < UINT_SIZE
      ∧ BitsType.print 8 false = "bit<8>"
      ∧ P4HIRDialect.parseType exampleGenerated "bits<8>" = (none, ["unknown P4HIR type: bits"])
      ∧ (BitsType.print 8 true = "int<" ++ toString 8 ++ ">"
        ∧ BitsType.print 8 false = "bit<" ++ toString 8 ++ ">"
        ∧ P4HIRDialect.parseType exampleGenerated (BitsType.print 8 false) =
            (some (.bits 8 false), [])
        ∧ (∀ text mnemonic rest,
            DialectAsmParser.parseOptionalKeyword text.toList = some (mnemonic, rest) →
            List.lookup mnemonic exampleGenerated = none →
            mnemonic ≠ "int" → mnemonic ≠ "bit" →
              P4HIRDialect.parseType exampleGenerated text =
                (none, ["unknown P4HIR type: " ++ mnemonic]))) :=
  ⟨rfl, rfl, by decide, by decide, by decide,
    BitsType_print_parse exampleGenerated rfl rfl 8 (by decide) false⟩


/-! ## The destructuring accessors: the claim -/

/-- The loop of `getSubelementIndexMap` from position `i`, on a map whose keys
are all below `i`, adds one entry per element: its position and its type. -/
theorem getSubelementIndexMapLoop_eq (es : List (FieldInfo Ty)) (i : Nat)
    (map : List (IndexAttribute × Ty))
    (hmap : ∀ key ∈ map.map Prod.fst, ∃ j, j < i ∧ key = IndexAttribute.integerAttr (Int.ofNat j)) :
    StructType.getSubelementIndexMapLoop es i map =
      map ++ (es.enumFrom i).map
        (fun entry => (IndexAttribute.integerAttr (Int.ofNat entry.1), entry.2.type)) := by
  induction es generalizing i map with
  | nil => simp [StructType.getSubelementIndexMapLoop]
  | cons field rest ih =>
    have hnew : IndexAttribute.integerAttr (Int.ofNat i) ∉ map.map Prod.fst := by
      intro hmem
      obtain ⟨j, hj, heq⟩ := hmap _ hmem
      have := Int.ofNat.inj (IndexAttribute.integerAttr.inj heq)
      omega
    unfold StructType.getSubelementIndexMapLoop try_emplace
    rw [if_neg hnew, ih (i + 1)]
    · simp [List.enumFrom_cons]
    · intro key hkey
      rw [List.map_append, List.mem_append] at hkey
      rcases hkey with hkey | hkey
      · obtain ⟨j, hj, heq⟩ := hmap key hkey
        exact ⟨j, by omega, heq⟩
      · simp only [List.map_cons, List.map_nil, List.mem_singleton] at hkey
        exact ⟨i, by omega, hkey⟩

/-- A struct type is not the type of one of its own fields. -/
theorem struct_ne_field_type (field : FieldInfo Ty) (rest : List (FieldInfo Ty)) :
    Ty.struct (field :: rest) ≠ field.type := by
  intro h
  have := congrArg sizeOf h
  obtain ⟨name, type⟩ := field
  simp at this
  omega

/-- C32: `getSubelementIndexMap` has exactly one entry per direct field, its
position mapped to its type, and `getTypeAtIndex` gives the null type for an
attribute that is not an `IntegerAttr`. But `getTypeAtIndex` hands the index to
`getSubTypeByFieldID` as a field ID: for every struct with at least one field the
key 0 is mapped to the type of the first field while `getTypeAtIndex` gives the
struct itself, a different type; and in `<a: bool, b: bit<8>>` the key 1 is
mapped to `bit<8>` while `getTypeAtIndex` gives `bool`. -/
theorem getTypeAtIndex_reads_fieldID (field : FieldInfo Ty) (rest : List (FieldInfo Ty)) :
    StructType.getSubelementIndexMap (field :: rest) =
        some ((field :: rest).enum.map
          (fun entry => (IndexAttribute.integerAttr (Int.ofNat entry.1), entry.2.type)))
      ∧ StructType.getSubelementIndexMap [] = some []
      ∧ ((StructType.getSubelementIndexMap (field :: rest)).map
          (fun map => map.lookup (.integerAttr 0)) = some (some field.type))
      ∧ StructType.getTypeAtIndex (field :: rest) (.integerAttr 0) =
          some (some (Ty.struct (field :: rest)))
      ∧ Ty.struct (field :: rest) ≠ field.type
      ∧ StructType.getTypeAtIndex (field :: rest) .other = some none
      ∧ StructType.getSubelementIndexMap boolBitsStruct =
          some [(.integerAttr 0, .bool), (.integerAttr 1, .bits 8 false)]
      ∧ StructType.getTypeAtIndex boolBitsStruct (.integerAttr 1) = some (some .bool)
      ∧ StructType.getTypeAtIndex boolBitsStruct (.integerAttr 0) =
          some (some (.struct boolBitsStruct)) := by
  have hmap := getSubelementIndexMapLoop_eq (field :: rest) 0 [] (by simp)
  rw [List.nil_append] at hmap
  refine ⟨?_, rfl, ?_, rfl, struct_ne_field_type field rest, rfl, by decide, by decide,
    by decide⟩
  · unfold StructType.getSubelementIndexMap
    rw [hmap]
    rfl
  · unfold StructType.getSubelementIndexMap
    rw [hmap]
    simp [List.enumFrom_cons, List.lookup]

/-! ## Call verifier: reads within bounds, and actions with a result -/

/-- C31: for a callee symbol that resolves to a function, `CallOp::verifySymbolUses`
fails with the operand-count error, before reading any operand, when the
number of operands differs from the number of callee inputs; when the two
numbers are equal its loop reads every operand and every input within bounds;
so the verifier has a result whenever `isVoid` has one. Without the count check
the loop would read out of bounds (two inputs, one operand). For a callee that
is an action whose function type is not void, no call verifies: with matching
operands, a call with results fails the action check and a call without results
fails the result-count check of non-void callees. -/
theorem CallOp_verifySymbolUses_safe (NDEBUG : Bool) (symbolTable : String → Option Operation)
    (fnAttr : String) (fn : FuncOp) (operands resultTypes : List Ty)
    (hlookup : lookupNearestSymbolFrom symbolTable fnAttr = some fn) :
    (fn.functionType.inputs.length ≠ operands.length →
        CallOp.verifySymbolUses NDEBUG symbolTable (some fnAttr) operands resultTypes =
          some (.failure, [[.string "incorrect number of operands for callee"]]))
      ∧ (fn.functionType.inputs.length = operands.length →
          ∃ mismatch, operandLoop fn.functionType.inputs operands
            fn.functionType.inputs.length 0 = some mismatch)
      ∧ operandLoop [Ty.bool, Ty.bool] [Ty.bool] 2 0 = none
      ∧ (fn.functionType.isVoid NDEBUG ≠ none →
          CallOp.verifySymbolUses NDEBUG symbolTable (some fnAttr) operands resultTypes ≠ none)
      ∧ (fn.action = true → fn.functionType.isVoid NDEBUG = some false →
          (CallOp.verifySymbolUses NDEBUG symbolTable (some fnAttr) operands resultTypes).map
              (fun r => r.1) = some .failure
            ∧ (operands = fn.functionType.inputs → resultTypes ≠ [] →
                CallOp.verifySymbolUses NDEBUG symbolTable (some fnAttr) operands resultTypes =
                  some (.failure, [[.string "incorrect number of results for action call"]]))
            ∧ (operands = fn.functionType.inputs → resultTypes = [] →
                CallOp.verifySymbolUses NDEBUG symbolTable (some fnAttr) operands resultTypes =
                  some (.failure, [[.string "incorrect number of results for callee"]]))) := by
  refine ⟨?_, ?_, rfl, ?_, ?_⟩
  · intro hlen
    simp [CallOp.verifySymbolUses, hlookup, hlen, emitOpErrorArgs]
  · intro hlen
    exact ⟨_, operandLoop_eq _ _ hlen⟩
  · intro hvoid
    simp only [CallOp.verifySymbolUses, hlookup]
    by_cases hlen : fn.functionType.inputs.length = operands.length
    · rw [operandLoop_eq fn.functionType.inputs operands hlen]
      cases hm : operandMismatch fn.functionType.inputs operands 0 with
      | some m =>
        obtain ⟨i, expected, provided⟩ := m
        simp [hlen, emitOpErrorArgs]
      | none =>
        obtain ⟨symName, ⟨inputs, stored⟩, action⟩ := fn
        cases hv : FuncType.isVoid NDEBUG ⟨inputs, stored⟩ with
        | none => exact absurd hv hvoid
        | some isVoid =>
          simp only at hlen hm hv ⊢
          cases resultTypes with
          | nil =>
            cases action <;> cases isVoid <;> simp [hlen, hv, emitOpErrorArgs]
          | cons r rs =>
            cases action with
            | true => simp [hlen, emitOpErrorArgs]
            | false =>
              cases isVoid with
              | true => simp [hlen, hv, emitOpErrorArgs]
              | false =>
                cases rs with
                | cons r2 rs2 => simp [hlen, hv, emitOpErrorArgs]
                | nil =>
                  cases stored with
                  | none => simp [FuncType.isVoid] at hv
                  | some rt =>
                    have hret : FuncType.getReturnType NDEBUG ⟨inputs, some rt⟩ = some rt := by
                      simp only [FuncType.getReturnType, hv]
                    by_cases hr : r = rt <;> simp [hlen, hv, hret, hr, emitOpErrorArgs]
    · simp [hlen, emitOpErrorArgs]
  · intro hact hvoid
    have hcalls : ∀ results : List Ty, operands = fn.functionType.inputs →
        CallOp.verifySymbolUses NDEBUG symbolTable (some fnAttr) operands results =
          if results ≠ [] then
            some (.failure, [[.string "incorrect number of results for action call"]])
          else some (.failure, [[.string "incorrect number of results for callee"]]) := by
      intro results hops
      have hlen : fn.functionType.inputs.length = operands.length := by rw [hops]
      have hm := (operandMismatch_none fn.functionType.inputs operands 0 hlen).mpr hops
      simp only [CallOp.verifySymbolUses, hlookup]
      rw [operandLoop_eq fn.functionType.inputs operands hlen, hm]
      cases results with
      | nil => simp [hlen, hvoid, emitOpErrorArgs]
      | cons r rs => simp [hlen, hact, emitOpErrorArgs]
    refine ⟨?_, ?_, ?_⟩
    · by_cases hlen : fn.functionType.inputs.length = operands.length
      · by_cases hops : operands = fn.functionType.inputs
        · rw [hcalls resultTypes hops]
          by_cases hres : resultTypes ≠ [] <;> simp [hres]
        · have hm : operandMismatch fn.functionType.inputs operands 0 ≠ none :=
            fun h => hops ((operandMismatch_none _ _ 0 hlen).mp h)
          simp only [CallOp.verifySymbolUses, hlookup]
          rw [operandLoop_eq fn.functionType.inputs operands hlen]
          cases hm' : operandMismatch fn.functionType.inputs operands 0 with
          | none => exact absurd hm' hm
          | some m =>
            obtain ⟨i, expected, provided⟩ := m
            simp [hlen, emitOpErrorArgs]
      · simp [CallOp.verifySymbolUses, hlookup, hlen, emitOpErrorArgs]
    · intro hops hres
      rw [hcalls resultTypes hops, if_pos hres]
    · intro hops hres
      rw [hcalls resultTypes hops, if_neg (by simp [hres])]

/-- C31 (witness): the action `@act` of type `bit<8> ()` is resolved by the
symbol table; a call without operands and without results fails the
result-count check, and one with a `bit<8>` result fails the action check. -/
theorem CallOp_verifySymbolUses_safe_witness :
    lookupNearestSymbolFrom exampleSymbolTable "act" = some exampleAction
      ∧ CallOp.verifySymbolUses false exampleSymbolTable (some "act") [] [] =
          some (.failure, [[.string "incorrect number of results for callee"]])
      ∧ CallOp.verifySymbolUses false exampleSymbolTable (some "act") [] [Ty.bits 8 false] =
          some (.failure, [[.string "incorrect number of results for action call"]])
      ∧ ((exampleAction.functionType.inputs.length ≠ ([] : List Ty).length →
            CallOp.verifySymbolUses false exampleSymbolTable (some "act") [] [] =
              some (.failure, [[.string "incorrect number of operands for callee"]]))
        ∧ (exampleAction.functionType.inputs.length = ([] : List Ty).length →
            ∃ mismatch, operandLoop exampleAction.functionType.inputs []
              exampleAction.functionType.inputs.length 0 = some mismatch)
        ∧ operandLoop [Ty.bool, Ty.bool] [Ty.bool] 2 0 = none
        ∧ (exampleAction.functionType.isVoid false ≠ none →
            CallOp.verifySymbolUses false exampleSymbolTable (some "act") [] [] ≠ none)
        ∧ (exampleAction.action = true → exampleAction.functionType.isVoid false = some false →
            (CallOp.verifySymbolUses false exampleSymbolTable (some "act") [] []).map
                (fun r => r.1) = some .failure
              ∧ ([] = exampleAction.functionType.inputs → ([] : List Ty) ≠ [] →
                  CallOp.verifySymbolUses false exampleSymbolTable (some "act") [] [] =
                    some (.failure, [[.string "incorrect number of results for action call"]]))
              ∧ ([] = exampleAction.functionType.inputs → ([] : List Ty) = [] →
                  CallOp.verifySymbolUses false exampleSymbolTable (some "act") [] [] =
                    some (.failure, [[.string "incorrect number of results for callee"]])))) :=
  ⟨rfl, rfl, rfl, CallOp_verifySymbolUses_safe false exampleSymbolTable "act" exampleAction [] [] rfl⟩

end P4HIR
